import Mathlib

/-!
# czh lexer: a shallow embedding of `src/src/lexer.h`

The definitions follow the C++ source function by function.  Source text is a
`List Char` (one `Char` per byte of the `std::string`), machine sizes are `Nat`,
and a function that can `throw` returns `Except LexError _`.
-/

namespace czh.lexer

/-! ## Character classes of the C library ("C" locale) -/

/-- Source `std::isdigit`: the ten ASCII digits. -/
def isdigit (c : Char) : Bool := decide ('0' ≤ c) && decide (c ≤ '9')

/-- Source `std::isalpha`: the ASCII letters. -/
def isalpha (c : Char) : Bool :=
  (decide ('a' ≤ c) && decide (c ≤ 'z')) || (decide ('A' ≤ c) && decide (c ≤ 'Z'))

/-- Source `std::isalnum`. -/
def isalnum (c : Char) : Bool := isalpha c || isdigit c

/-- Source `std::isspace`: space, `\t`, `\n`, `\v`, `\f`, `\r`. -/
def isspace (c : Char) : Bool :=
  c == ' ' || c == '\t' || c == '\n' || c == Char.ofNat 11 || c == Char.ofNat 12 || c == '\r'

/-! ## Tokens -/

/-- Source `enum class TokenType`. -/
inductive TokenType
  | ID
  | INT | LONGLONG | DOUBLE | STRING | BOOL
  | EQUAL
  | ARR_LP | ARR_RP
  | COMMA | COLON
  | BPATH
  | FEND | SEND | SCEND
  | NOTE
  | UNEXPECTED
  deriving DecidableEq, Repr

/-- The table `marks`: the punctuation characters and their token types. -/
def marks (c : Char) : Option TokenType :=
  if c = '=' then some TokenType.EQUAL
  else if c = '[' then some TokenType.ARR_LP
  else if c = ']' then some TokenType.ARR_RP
  else if c = ':' then some TokenType.COLON
  else if c = '-' then some TokenType.BPATH
  else if c = ';' then some TokenType.SEND
  else if c = ',' then some TokenType.COMMA
  else none

/-- Source `class Pos` without the shared file pointer: an offset and a span length. -/
structure Pos where
  pos : Nat
  size : Nat
  deriving DecidableEq, Repr

/-- The value of a `double`, kept exactly: `(-1)^neg * num / den`. -/
structure Dbl where
  neg : Bool
  num : Nat
  den : Nat
  deriving DecidableEq, Repr

/-- The alternatives of `Value` that a token can carry. -/
inductive Value
  | int (v : Int)
  | longlong (v : Int)
  | double (v : Dbl)
  | str (s : List Char)
  | bool (b : Bool)
  | note (s : List Char)
  | char (c : Char)
  deriving DecidableEq, Repr

/-- Source `class Token`. -/
structure Token where
  type : TokenType
  what : Value
  pos : Pos
  deriving DecidableEq, Repr

/-- A piece of the text of an error message: literal characters, or the text
that `utils::to_str` gives for a `double`.  `utils.h` is not part of the sources,
so the text of a `double` is not spelled out: the piece keeps the value. -/
inductive Piece
  | text (s : String)
  | dbl (v : Dbl)
  deriving DecidableEq, Repr

/-- Errors: the `Error` thrown by `Token::error`, with its detail text (the
message, `": \n"` and the rendered snippet, in pieces) and the position that
gives its location; a direct `throw error::Error(CZH_ERROR_LOCATION, ..)` of the
engine; and undefined behaviour in C++, where nothing is thrown: a read or an
erase outside a container (the comment loop that finds no closing `/e/`, an
index past the end of the token queue, the snippet of an error on line 1 or 2). -/
inductive LexError
  | token (details : List Piece) (pos : Pos)
  | internal (detail : String)
  | out_of_bounds
  deriving DecidableEq, Repr

/-! ## Match: the grammar state machine -/

/-- Source `enum class State`. -/
inductive State
  | INIT
  | ID | VALUE
  | ARR_VALUE | EQUAL | ARR_LP | ARR_RP
  | COMMA | SC_COLON | PATH_COLON | BPATH | PATH_ID_TARGET | PATH_ID
  | UNEXPECTED | END
  deriving DecidableEq, Repr

/-- Source `class Match`. -/
structure Match where
  state : State
  last_state : State
  deriving DecidableEq, Repr

/-- Source `Match::Match()`. -/
def Match.init : Match := { state := State.INIT, last_state := State.UNEXPECTED }

/-- Source `Match::error_correct`. -/
def Match.error_correct (m : Match) : Except LexError String :=
  match m.last_state with
  | State.INIT | State.PATH_COLON | State.BPATH => .ok "identifier"
  | State.ID => .ok "\x27=\x27 or \x27:\x27"
  | State.EQUAL => .ok "value or \x27[\x27"
  | State.ARR_LP => .ok "value or \x27]\x27"
  | State.ARR_VALUE => .ok "\x27]\x27 or \x27,\x27"
  | State.COMMA => .ok "value"
  | State.PATH_ID => .ok "\x27-\x27 or \x27:\x27"
  | _ => .error (LexError.internal "Unexpected state.")

/-- Source `Match::get_state`. -/
def Match.get_state (m : Match) : State := m.state

/-- Source `Match::reset`. -/
def Match.reset (_m : Match) : Match :=
  { state := State.INIT, last_state := State.UNEXPECTED }

/-- The `default:` arm of every inner switch of `Match::match`. -/
def Match.unexpected (m : Match) : Match :=
  { state := State.UNEXPECTED, last_state := m.state }

/-- Source `Match::match`. -/
def Match.match_ (m : Match) (token : TokenType) : Except LexError Match :=
  if token = TokenType.NOTE then .ok m
  else
    match m.state with
    | State.INIT =>
      match token with
      | TokenType.ID => .ok { m with state := State.ID }
      | TokenType.SCEND => .ok { m with state := State.END }
      | _ => .ok m.unexpected
    | State.ID =>
      match token with
      | TokenType.EQUAL => .ok { m with state := State.EQUAL }
      | TokenType.COLON => .ok { m with state := State.END }
      | _ => .ok m.unexpected
    | State.EQUAL =>
      match token with
      | TokenType.INT | TokenType.LONGLONG | TokenType.DOUBLE | TokenType.STRING
      | TokenType.BOOL => .ok { m with state := State.END }
      | TokenType.ARR_LP => .ok { m with state := State.ARR_LP }
      | TokenType.BPATH => .ok { m with state := State.BPATH }
      | _ => .ok m.unexpected
    | State.ARR_LP =>
      match token with
      | TokenType.INT | TokenType.LONGLONG | TokenType.DOUBLE | TokenType.STRING
      | TokenType.BOOL => .ok { m with state := State.ARR_VALUE }
      | TokenType.ARR_RP => .ok { m with state := State.END }
      | _ => .ok m.unexpected
    | State.ARR_VALUE =>
      match token with
      | TokenType.COMMA => .ok { m with state := State.COMMA }
      | TokenType.ARR_RP => .ok { m with state := State.END }
      | _ => .ok m.unexpected
    | State.COMMA =>
      match token with
      | TokenType.INT | TokenType.LONGLONG | TokenType.DOUBLE | TokenType.STRING
      | TokenType.BOOL => .ok { m with state := State.ARR_VALUE }
      | _ => .ok m.unexpected
    | State.BPATH =>
      match token with
      | TokenType.ID => .ok { m with state := State.PATH_ID }
      | _ => .ok m.unexpected
    | State.PATH_ID =>
      match token with
      | TokenType.BPATH => .ok { m with state := State.BPATH }
      | TokenType.COLON => .ok { m with state := State.PATH_COLON }
      | _ => .ok m.unexpected
    | State.PATH_COLON =>
      match token with
      | TokenType.ID => .ok { m with state := State.END }
      | _ => .ok m.unexpected
    | State.VALUE | State.ARR_RP | State.SC_COLON | State.PATH_ID_TARGET => .ok m
    | State.UNEXPECTED => .error (LexError.internal "Unexpected state can not match.")
    | State.END =>
      if token ≠ TokenType.SEND ∧ token ≠ TokenType.FEND then
        .error (LexError.internal "Unexpected end.")
      else .ok m.reset

/-- Source `Match::good`. -/
def Match.good (m : Match) : Bool := decide (m.state ≠ State.UNEXPECTED)

/-- Source `Match::end`. -/
def Match.end_ (m : Match) : Bool := decide (m.state = State.END)

/-! ## NumberMatch: the number state machine -/

/-- Source `enum class NumberMatch::State`. -/
inductive NumberMatch.State
  | INIT | INT | INT_DOT | SIGN | DOT | DOT_NO_INT | EXP | EXP_SIGN | EXP_INT | END | UNEXPECTED
  deriving DecidableEq, Repr

/-- Source `enum class NumberMatch::Token`. -/
inductive NumberMatch.Token
  | INT | DOT | SIGN | EXP | UNEXPECTED | END
  deriving DecidableEq, Repr

/-- Source `class NumberMatch`. -/
structure NumberMatch where
  state : NumberMatch.State
  is_double_ : Bool
  deriving DecidableEq, Repr

namespace NumberMatch

/-- Source `NumberMatch::NumberMatch()`. -/
def init : NumberMatch := { state := State.INIT, is_double_ := false }

/-- Source `NumberMatch::is_double`. -/
def is_double (m : NumberMatch) : Bool := m.is_double_

/-- Source `NumberMatch::reset`. -/
def reset (_m : NumberMatch) : NumberMatch := { state := State.INIT, is_double_ := false }

/-- Source `NumberMatch::get_token`; `none` is the default argument `-1`. -/
def get_token (m : NumberMatch) (ch : Option Char) : Token × NumberMatch :=
  match ch with
  | some c =>
    if isdigit c then (Token.INT, m)
    else if c = '.' then (Token.DOT, { m with is_double_ := true })
    else if c = 'e' ∨ c = 'E' then (Token.EXP, m)
    else if c = '+' ∨ c = '-' then (Token.SIGN, m)
    else (Token.UNEXPECTED, m)
  | none => (Token.END, m)

/-- Source `NumberMatch::next`. -/
def next (m : NumberMatch) (token : Token) : NumberMatch :=
  match m.state with
  | State.INIT =>
    match token with
    | Token.INT => { m with state := State.INT }
    | Token.DOT => { m with state := State.DOT_NO_INT }
    | Token.SIGN => { m with state := State.SIGN }
    | _ => { m with state := State.UNEXPECTED }
  | State.SIGN =>
    match token with
    | Token.INT => { m with state := State.INT }
    | Token.DOT => { m with state := State.DOT_NO_INT }
    | _ => { m with state := State.UNEXPECTED }
  | State.INT =>
    match token with
    | Token.INT => m
    | Token.DOT => { m with state := State.DOT }
    | Token.EXP => { m with state := State.EXP }
    | Token.END => { m with state := State.END }
    | _ => { m with state := State.UNEXPECTED }
  | State.INT_DOT =>
    match token with
    | Token.INT => m
    | Token.EXP => { m with state := State.EXP }
    | Token.END => { m with state := State.END }
    | _ => { m with state := State.UNEXPECTED }
  | State.DOT_NO_INT =>
    match token with
    | Token.INT => { m with state := State.INT_DOT }
    | _ => { m with state := State.UNEXPECTED }
  | State.DOT =>
    match token with
    | Token.INT => { m with state := State.INT_DOT }
    | Token.EXP => { m with state := State.EXP }
    | Token.END => { m with state := State.END }
    | _ => { m with state := State.UNEXPECTED }
  | State.EXP =>
    match token with
    | Token.INT => { m with state := State.EXP_INT }
    | Token.SIGN => { m with state := State.EXP_SIGN }
    | _ => { m with state := State.UNEXPECTED }
  | State.EXP_SIGN =>
    match token with
    | Token.INT => { m with state := State.EXP_INT }
    | _ => { m with state := State.UNEXPECTED }
  | State.EXP_INT =>
    match token with
    | Token.INT => m
    | Token.END => { m with state := State.END }
    | _ => { m with state := State.UNEXPECTED }
  | _ => { m with state := State.UNEXPECTED }

/-- The `for (auto &ch: s)` loop of `NumberMatch::match`; the flag is false when
the loop left through one of its `return false`. -/
def match_loop (m : NumberMatch) : List Char → Bool × NumberMatch
  | [] => (true, m)
  | ch :: rest =>
    let r := m.get_token (some ch)
    if r.1 = Token.UNEXPECTED then (false, r.2)
    else
      let m2 := r.2.next r.1
      if m2.state = State.UNEXPECTED then (false, m2)
      else match_loop m2 rest

/-- Source `NumberMatch::match`: the result and the machine it leaves. -/
def match_ (m : NumberMatch) (s : List Char) : Bool × NumberMatch :=
  let r := m.match_loop s
  if r.1 = false then (false, r.2)
  else
    let e := r.2.get_token none
    let m3 := e.2.next e.1
    if m3.state ≠ State.END then (false, m3) else (true, m3)

end NumberMatch

/-- Source `isnumber`. -/
def isnumber (ch : Char) : Bool :=
  isdigit ch || ch == '.' || ch == 'e' || ch == 'E' || ch == '+' || ch == '-'

/-! ## Text to number (`utils.h`) -/

/-- The value of a run of decimal digits. -/
def digits_val (ds : List Char) : Nat :=
  ds.foldl (fun a c => 10 * a + (c.toNat - '0'.toNat)) 0

/-- The loop behind `ilog2`. -/
def ilog2_loop : Nat → Nat → Nat
  | 0, _ => 0
  | fuel + 1, n => if 2 ≤ n then ilog2_loop fuel (n / 2) + 1 else 0

/-- The floor of the binary logarithm of a positive number. -/
def ilog2 (n : Nat) : Nat := ilog2_loop n n

/-- Modelled from the spec: the rounding inside `utils::str_to<double>` (`utils.h` is
not part of the sources).  The positive rational `num / den` is rounded to the nearest
IEEE-754 binary64 value, ties to even; the result is again a fraction, its denominator
a power of two.  An integer below `2^53` is its own rounding.  The exponent range
(overflow to infinity, subnormals) is not modelled. -/
def round_double (num den : Nat) : Nat × Nat :=
  if num = 0 ∨ den = 0 then (0, 1)
  else if num % den = 0 ∧ num / den < 2 ^ 53 then (num / den, 1)
  else
    let ln := ilog2 num
    let ld := ilog2 den
    -- `fl` is the floor of the binary logarithm of `num / den`
    let big : Bool := if ld ≤ ln then decide (den * 2 ^ (ln - ld) ≤ num)
                      else decide (den ≤ num * 2 ^ (ld - ln))
    let fl : Int := (ln : Int) - (ld : Int) - (if big then 0 else 1)
    let e : Int := fl - 52
    let n := num * 2 ^ (-e).toNat
    let d := den * 2 ^ e.toNat
    let q := n / d
    let r := n % d
    let q1 := if d < 2 * r ∨ (2 * r = d ∧ q % 2 = 1) then q + 1 else q
    (q1 * 2 ^ e.toNat, 2 ^ (-e).toNat)

/-- Modelled from the spec: `utils::str_to<double>` (`utils.h` is not part of the
sources), the "standard text-to-number parsing" of a lexeme that `NumberMatch`
accepted and that has no decimal point: an optional sign, decimal digits and an
optional exponent, read as a decimal number and rounded to the nearest double. -/
def str_to_double (s : List Char) : Dbl :=
  let sg : Bool × List Char :=
    match s with
    | '-' :: r => (true, r)
    | '+' :: r => (false, r)
    | _ => (false, s)
  let mant := sg.2.takeWhile isdigit
  let ex : Bool × List Char :=
    match sg.2.dropWhile isdigit with
    | _ :: '-' :: r => (true, r)
    | _ :: '+' :: r => (false, r)
    | _ :: r => (false, r)
    | [] => (false, [])
  let m := digits_val mant
  let e := digits_val (ex.2.takeWhile isdigit)
  let v := if ex.1 then round_double m (10 ^ e) else round_double (m * 10 ^ e) 1
  { neg := sg.1, num := v.1, den := v.2 }

/-- Modelled from the spec: `utils::str_to<double>` (`utils.h` is not part of the
sources) on a lexeme that `NumberMatch` accepted and that has a decimal point: an
optional sign, decimal digits, the point, decimal digits and an optional
exponent, read as a decimal number and rounded to the nearest double. -/
def str_to_double_point (s : List Char) : Dbl :=
  let sg : Bool × List Char :=
    match s with
    | '-' :: r => (true, r)
    | '+' :: r => (false, r)
    | _ => (false, s)
  let mant := sg.2.takeWhile isdigit
  let frac := ((sg.2.dropWhile isdigit).drop 1).takeWhile isdigit
  let ex : Bool × List Char :=
    match ((sg.2.dropWhile isdigit).drop 1).dropWhile isdigit with
    | _ :: '-' :: r => (true, r)
    | _ :: '+' :: r => (false, r)
    | _ :: r => (false, r)
    | [] => (false, [])
  let m := digits_val (mant ++ frac)
  let e := digits_val (ex.2.takeWhile isdigit)
  let v := if ex.1 then round_double m (10 ^ (frac.length + e))
           else round_double (m * 10 ^ e) (10 ^ frac.length)
  { neg := sg.1, num := v.1, den := v.2 }

/-- The comparison `t < std::numeric_limits<int>().max()` on a double. -/
def Dbl.lt_int_max (t : Dbl) : Bool :=
  if t.neg then true else decide (t.num < 2147483647 * t.den)

/-- The truncation of a double toward zero. -/
def Dbl.trunc (t : Dbl) : Int :=
  if t.neg then - ((t.num / t.den : Nat) : Int) else ((t.num / t.den : Nat) : Int)

/-- The cast `(int) t`.  Outside the range of `int` the conversion is undefined
in C++; the model takes what the x86-64 conversion instruction yields there,
the most negative `int`. -/
def Dbl.to_int (t : Dbl) : Int :=
  if - 2 ^ 31 ≤ t.trunc ∧ t.trunc < 2 ^ 31 then t.trunc else - 2 ^ 31

/-- The cast `(long long) t`, with the same convention outside the range. -/
def Dbl.to_longlong (t : Dbl) : Int :=
  if - 2 ^ 63 ≤ t.trunc ∧ t.trunc < 2 ^ 63 then t.trunc else - 2 ^ 63

/-! ## NonStreamFile: the in-memory buffer -/

/-- Source `class NonStreamFile` (the name is not needed here). -/
structure NonStreamFile where
  code : List Char
  codepos : Nat
  deriving DecidableEq, Repr

/-- Source `NonStreamFile::size`. -/
def NonStreamFile.size (f : NonStreamFile) : Nat := f.code.length

/-- Source `NonStreamFile::ignore`. -/
def NonStreamFile.ignore (f : NonStreamFile) (s : Nat) : NonStreamFile :=
  { f with codepos := f.codepos + s }

/-- Source `NonStreamFile::view`: `code[codepos + s]`; an index at or past the end reads
as the terminating NUL. -/
def NonStreamFile.view (f : NonStreamFile) (s : Int) : Char :=
  f.code.getD (Int.toNat ((f.codepos : Int) + s)) (Char.ofNat 0)

/-- Source `NonStreamFile::check`. -/
def NonStreamFile.check (f : NonStreamFile) (s : Nat) : Bool :=
  decide (f.codepos + s < f.code.length)

/-! ## Token display -/

/-- Modelled from the spec: `utils::to_str` on an `int` or a `long long` (`utils.h` is
not part of the sources), the "natural textual form" of the number: its decimal text. -/
def to_str_int (v : Int) : String := toString v

/-- Modelled from the spec: `utils::to_str` on a `bool` (`utils.h` is not part of the
sources), its "natural textual form". -/
def to_str_bool (b : Bool) : String := if b then "true" else "false"

/-- Source `Token::get_string`: the visit of `what` with `to_token_str`; for a
`double` the text is `utils::to_str` of the value, kept as a piece. -/
def Token.get_string (t : Token) : Piece :=
  match t.what with
  | Value.int v => Piece.text (to_str_int v)
  | Value.longlong v => Piece.text (to_str_int v)
  | Value.double v => Piece.dbl v
  | Value.str s => Piece.text (String.mk s)
  | Value.bool b => Piece.text (to_str_bool b)
  | Value.note _ => Piece.text ""
  | Value.char c => Piece.text (String.mk [c])

/-! ## Error context: line numbers, rendered lines and the caret line -/

/-- Source `is_newline_and_next`: the returned flag and the new value of the
reference parameter `pos`, a `std::size_t`; `delta` is `1` or `-1`.  An index at
or past the end of the string reads as the terminating NUL. -/
def is_newline_and_next (str : List Char) (pos : Nat) (delta : Int) : Bool × Nat :=
  if str.getD pos (Char.ofNat 0) = '\r' then
    if pos + 1 < str.length ∧ str.getD (pos + 1) (Char.ofNat 0) = '\n' then
      (true, Int.toNat (((pos : Int) + 2 * delta) % 2 ^ 64))
    else (true, Int.toNat (((pos : Int) + 1 * delta) % 2 ^ 64))
  else if str.getD pos (Char.ofNat 0) = '\n' then
    (true, Int.toNat (((pos : Int) + 1 * delta) % 2 ^ 64))
  else (false, pos)

/-- The loop of `NonStreamFile::get_lineno`, `for (std::size_t i = 0; i < pos;)`. -/
def NonStreamFile.get_lineno_loop (f : NonStreamFile) (pos : Nat) : Nat → Nat → Nat → Nat
  | 0, _, lineno => lineno
  | fuel + 1, i, lineno =>
    if i < pos then
      if (is_newline_and_next f.code i 1).1 then
        get_lineno_loop f pos fuel (is_newline_and_next f.code i 1).2 (lineno + 1)
      else get_lineno_loop f pos fuel (i + 1) lineno
    else lineno

/-- Source `NonStreamFile::get_lineno`.  Every round of the loop moves `i` forward,
so `pos` rounds are enough. -/
def NonStreamFile.get_lineno (f : NonStreamFile) (pos : Nat) : Nat :=
  f.get_lineno_loop pos pos 0 1

/-- The loop of `NonStreamFile::get_arrowpos`, `while (i > 0)`, left by `break`
right after `is_newline_and_next` has moved `i`. -/
def NonStreamFile.get_arrowpos_loop (f : NonStreamFile) : Nat → Nat → Nat
  | 0, i => i
  | fuel + 1, i =>
    if 0 < i then
      if (is_newline_and_next f.code i (-1)).1 then (is_newline_and_next f.code i (-1)).2
      else get_arrowpos_loop f fuel (i - 1)
    else i

/-- Source `NonStreamFile::get_arrowpos`, in `std::size_t` arithmetic. -/
def NonStreamFile.get_arrowpos (f : NonStreamFile) (pos : Nat) : Nat :=
  let i := f.get_arrowpos_loop (pos + 1) pos
  if f.code.getD i (Char.ofNat 0) = '\r' ∧ i + 1 < f.code.length ∧
      f.code.getD (i + 1) (Char.ofNat 0) = '\n' then
    Int.toNat (((pos : Int) - i - 2) % 2 ^ 64)
  else Int.toNat (((pos : Int) - i - 1) % 2 ^ 64)

/-- The lambda `add` of `NonStreamFile::get_spec_line`: the line number, padded
with `'0'` to `linenosize` characters, and a space are appended to `ret`. -/
def NonStreamFile.add (ret : List Char) (lineno linenosize : Nat) : List Char :=
  let addition := (to_str_int lineno).toList
  (if addition.length < linenosize
    then ret ++ List.replicate (linenosize - addition.length) '0' else ret) ++
    (addition ++ [' '])

/-- The loop of `NonStreamFile::get_spec_line`, `for (std::size_t i = 0; i < code.size();)`,
on the variables `i`, `lineno`, `first_line_flag` and `ret`. -/
def NonStreamFile.get_spec_line_loop (f : NonStreamFile) (beg end_ linenosize : Nat) :
    Nat → Nat → Nat → Bool → List Char → List Char
  | 0, _, _, _, ret => ret
  | fuel + 1, i, lineno, first_line_flag, ret =>
    if i < f.code.length then
      let inside := decide (beg ≤ lineno ∧ lineno < end_)
      let head_line := inside && !first_line_flag && decide (lineno = 1)
      let ret1 := if head_line then NonStreamFile.add ret lineno linenosize else ret
      let flag1 := if head_line then true else first_line_flag
      let c := f.code.getD i (Char.ofNat 0)
      let ret2 := if inside && decide (c ≠ '\r' ∧ c ≠ '\n') then ret1 ++ [c] else ret1
      if (is_newline_and_next f.code i 1).1 then
        let ret3 := if beg ≤ lineno + 1 ∧ lineno + 1 < end_
          then NonStreamFile.add (ret2 ++ ['\n']) (lineno + 1) linenosize else ret2
        get_spec_line_loop f beg end_ linenosize fuel (is_newline_and_next f.code i 1).2
          (lineno + 1) flag1 ret3
      else get_spec_line_loop f beg end_ linenosize fuel (i + 1) lineno flag1 ret2
    else ret

/-- Source `NonStreamFile::get_spec_line`.  Every round of the loop moves `i`
forward, so `code.size()` rounds are enough.  The final `ret.erase(ret.begin())`
on an empty string is undefined; the model reports it as `out_of_bounds`. -/
def NonStreamFile.get_spec_line (f : NonStreamFile) (beg end_ linenosize : Nat) :
    Except LexError (List Char) :=
  let w := if linenosize = 0 then (to_str_int end_).length else linenosize
  match f.get_spec_line_loop beg end_ w f.code.length 0 1 false [] with
  | [] => .error LexError.out_of_bounds
  | _ :: ret => .ok ret

/-- The loop `while(lineno - actual_last <= 0 && actual_last > 0) --actual_last;`
of `Pos::get_details_from_code`, the subtraction being one of `std::size_t`. -/
def Pos.actual_last_loop (lineno : Nat) : Nat → Nat → Nat
  | 0, actual_last => actual_last
  | fuel + 1, actual_last =>
    if Int.toNat (((lineno : Int) - actual_last) % 2 ^ 64) ≤ 0 ∧ 0 < actual_last then
      actual_last_loop lineno fuel (actual_last - 1)
    else actual_last

/-- The loop `while(lineno + actual_next >= total_line && actual_next > 0) --actual_next;`
of `Pos::get_details_from_code`. -/
def Pos.actual_next_loop (lineno total_line : Nat) : Nat → Nat → Nat
  | 0, actual_next => actual_next
  | fuel + 1, actual_next =>
    if total_line ≤ lineno + actual_next ∧ 0 < actual_next then
      actual_next_loop lineno total_line fuel (actual_next - 1)
    else actual_next

/-- The number of blanks `code->get_arrowpos(pos) - size + linenosize + 1` that
`Pos::get_details_from_code` puts before the carets. -/
def Pos.arrow_blanks (p : Pos) (code : NonStreamFile) : Nat :=
  let lineno := code.get_lineno p.pos
  let linenosize := (to_str_int (lineno + 3)).length
  Int.toNat (((code.get_arrowpos p.pos : Int) - p.size + linenosize + 1) % 2 ^ 64)

/-- Source `Pos::get_details_from_code`, for a position in the in-memory buffer
`code`; `last` and `next` are the constant 3. -/
def Pos.get_details_from_code (p : Pos) (code : NonStreamFile) :
    Except LexError (List Char) :=
  let lineno := code.get_lineno p.pos
  let linenosize := (to_str_int (lineno + 3)).length
  let total_line := code.get_lineno (Int.toNat (((code.size : Int) - 1) % 2 ^ 64))
  let actual_last := Pos.actual_last_loop lineno 3 3
  let actual_next := Pos.actual_next_loop lineno total_line 3 3
  match (if actual_last ≠ 0
      then code.get_spec_line (Int.toNat (((lineno : Int) - actual_last) % 2 ^ 64))
        (lineno + 1) linenosize
      else .ok []) with
  | .error e => .error e
  | .ok temp1 =>
    match (if actual_next ≠ 0
        then code.get_spec_line (lineno + 1) (lineno + actual_next + 1) linenosize
        else .ok []) with
    | .error e => .error e
    | .ok temp2 =>
      .ok (temp1 ++
        ('\n' :: List.replicate (p.arrow_blanks code) ' ' ++ "\x1b[0;32;32m".toList ++
          List.replicate p.size '^' ++ "\x1b[m\n".toList) ++ temp2)

/-! ## Token::error -/

/-- Source `Token::error`,
`throw Error(pos.location(), __func__, details + ": \n" + *(pos.get_details_from_code()))`,
for a token of the in-memory buffer `code`: the snippet is rendered before
anything is thrown, and where its rendering is undefined nothing is thrown. -/
def Token.error (t : Token) (code : NonStreamFile) (details : List Piece) : LexError :=
  match t.pos.get_details_from_code code with
  | .error e => e
  | .ok snippet =>
    LexError.token (details ++ [Piece.text ": \n", Piece.text (String.mk snippet)]) t.pos

/-! ## Lexer -/

/-- Source `class Lexer` over the in-memory buffer. -/
structure Lexer where
  code : NonStreamFile
  tokenstream : List Token
  mtch : Match
  nmatch : NumberMatch
  codepos : Pos
  parsing_path : Bool
  is_eof : Bool
  deriving DecidableEq, Repr

namespace Lexer

/-- Source `Lexer::Lexer(std::string code_str)`. -/
def init (code_str : List Char) : Lexer :=
  { code := { code := code_str, codepos := 0 },
    tokenstream := [],
    mtch := Match.init,
    nmatch := NumberMatch.init,
    codepos := { pos := 0, size := 0 },
    parsing_path := false,
    is_eof := false }

/-- Source `Lexer::check_char`. -/
def check_char (l : Lexer) (s : Nat) : Bool := l.code.check s

/-- Source `Lexer::view_char`. -/
def view_char (l : Lexer) (s : Int) : Char := l.code.view s

/-- Source `Lexer::next_char`. -/
def next_char (l : Lexer) (s : Nat) : Lexer :=
  { l with code := l.code.ignore s, codepos := { l.codepos with pos := l.codepos.pos + s } }

/-- Source `Lexer::get_pos` followed by `set_size`. -/
def get_pos (l : Lexer) (size : Nat) : Pos := { pos := l.codepos.pos, size := size }

/-- The step `if(match.end() && token.type != TokenType::SEND) match.match(TokenType::SEND);`
of `Lexer::check_token`: the machine the token is then presented to. -/
def presented (l : Lexer) (token : Token) : Except LexError Match :=
  if l.mtch.end_ && decide (token.type ≠ TokenType.SEND)
  then l.mtch.match_ TokenType.SEND else .ok l.mtch

/-- Source `Lexer::check_token`. -/
def check_token (l : Lexer) (token : Token) : Except LexError Lexer :=
  if token.type = TokenType.FEND then
    if l.mtch.get_state = State.END ∨ l.mtch.get_state = State.INIT then .ok l
    else .error (token.error l.code [Piece.text "Unexpected end of file."])
  else
    match l.presented token with
    | .error e => .error e
    | .ok m1 =>
      match m1.match_ token.type with
      | .error e => .error e
      | .ok m2 =>
        if !m2.good then
          match m2.error_correct with
          | .error e => .error e
          | .ok hint =>
            .error (token.error l.code [Piece.text "Unexpected token \x27", token.get_string,
              Piece.text "\x27.Do you mean \x27", Piece.text hint, Piece.text "\x27?"])
        else .ok { l with mtch := m2 }

/-- The loop `while (check_char() && isspace(view_char())) next_char();`. -/
def skip_space : Nat → Lexer → Lexer
  | 0, l => l
  | fuel + 1, l =>
    if l.check_char 0 && isspace (l.view_char 0) then skip_space fuel (l.next_char 1) else l

/-- The decision `is_num` at the head of `Lexer::get_tok`. -/
def is_num (l : Lexer) : Bool :=
  if !l.parsing_path && l.check_char 0 &&
      (isdigit (l.view_char 0) || l.view_char 0 == '.' || l.view_char 0 == '+' ||
        l.view_char 0 == '-') then
    if l.view_char 0 == '-' then
      let n0 := true
      let n1 := if l.check_char 1 && !(isdigit (l.view_char 1) || l.view_char 1 == '.')
                then false else n0
      let n2 := if l.check_char 2 && l.view_char 1 == '.' && l.view_char 2 == '.'
                then false else n1
      let n3 := if l.check_char 2 && l.view_char 1 == '.' && l.view_char 2 == '-'
                then false else n2
      let n4 := if l.check_char 2 && l.view_char 1 == '.' && l.view_char 2 == ':'
                then false else n3
      n4
    else true
  else false

/-- The loop `do { temp += view_char(); next_char(); } while (check_char() && isnumber(view_char()))`. -/
def number_loop : Nat → Lexer → List Char → Lexer × List Char
  | 0, l, temp => (l, temp)
  | fuel + 1, l, temp =>
    let temp1 := temp ++ [l.view_char 0]
    let l1 := l.next_char 1
    if l1.check_char 0 && isnumber (l1.view_char 0) then number_loop fuel l1 temp1
    else (l1, temp1)

/-- The loop of the string branch: `while (check_char() && view_char() != '"')`. -/
def string_loop : Nat → Lexer → List Char → Lexer × List Char
  | 0, l, temp => (l, temp)
  | fuel + 1, l, temp =>
    if l.check_char 0 && l.view_char 0 != '"' then
      string_loop fuel (l.next_char 1) (temp ++ [l.view_char 0])
    else (l, temp)

/-- The loop of the identifier branch. -/
def id_loop : Nat → Lexer → List Char → Lexer × List Char
  | 0, l, temp => (l, temp)
  | fuel + 1, l, temp =>
    if l.check_char 0 && (isalnum (l.view_char 0) || l.view_char 0 == '_') &&
        l.view_char 0 != '-' then
      id_loop fuel (l.next_char 1) (temp ++ [l.view_char 0])
    else (l, temp)

/-- The loop of the comment branch,
`while (!(check_char(2) && view_char() == '/' && view_char(1) == 'e' && view_char(2) == '/'))`.
The source loop has no other exit: once the cursor is at the end of the buffer
no closing `/e/` can follow and the loop reads past the buffer for ever; the
model stops there with `none`. -/
def note_loop : Nat → Lexer → List Char → Option (Lexer × List Char)
  | 0, _, _ => none
  | fuel + 1, l, temp =>
    if l.check_char 2 && l.view_char 0 == '/' && l.view_char 1 == 'e' && l.view_char 2 == '/'
    then some (l, temp)
    else if l.check_char 0 then note_loop fuel (l.next_char 1) (temp ++ [l.view_char 0])
    else none

/-- The number branch of `Lexer::get_tok`, `if (is_num) { .. }`. -/
def number_branch (fuel : Nat) (l : Lexer) : Except LexError (Token × Lexer) :=
  let r := number_loop fuel l []
  let l1 := r.1
  let temp := r.2
  let nm := l1.nmatch.match_ temp
  if nm.1 then
    if nm.2.is_double then
      .ok ({ type := TokenType.DOUBLE, what := Value.double (str_to_double_point temp),
             pos := l1.get_pos temp.length },
           { l1 with nmatch := nm.2.reset })
    else
      let t := str_to_double temp
      if t.lt_int_max then
        .ok ({ type := TokenType.INT, what := Value.int t.to_int, pos := l1.get_pos temp.length },
             { l1 with nmatch := nm.2.reset })
      else
        .ok ({ type := TokenType.LONGLONG, what := Value.longlong t.to_longlong,
               pos := l1.get_pos temp.length },
             { l1 with nmatch := nm.2.reset })
  else
    let tmp : Token :=
      { type := TokenType.UNEXPECTED, what := Value.int 0, pos := l1.get_pos temp.length }
    .error (tmp.error l1.code [Piece.text "Unexpected token \x27", Piece.text (String.mk temp),
      Piece.text "\x27.Is this a number?"])

/-- The string branch of `Lexer::get_tok`. -/
def string_branch (fuel : Nat) (l : Lexer) : Except LexError (Token × Lexer) :=
  let r := string_loop fuel (l.next_char 1) []
  let l1 := r.1.next_char 1
  .ok ({ type := TokenType.STRING, what := Value.str r.2, pos := l1.get_pos r.2.length }, l1)

/-- The start of the identifier branch: a leading `.` or `..` inside a path. -/
def id_start (l : Lexer) : Lexer × List Char :=
  if l.parsing_path && l.view_char 0 == '.' then
    let l1 := l.next_char 1
    if l1.check_char 0 && l1.view_char 0 == '.' then (l1.next_char 1, ['.', '.'])
    else (l1, ['.'])
  else (l, [])

/-- The identifier branch of `Lexer::get_tok`. -/
def id_branch (fuel : Nat) (l : Lexer) : Except LexError (Token × Lexer) :=
  let r := id_loop fuel (id_start l).1 (id_start l).2
  let l1 := r.1
  let temp := r.2
  if temp = ['e', 'n', 'd'] then
    .ok ({ type := TokenType.SCEND, what := Value.str temp, pos := l1.get_pos 3 }, l1)
  else if temp = ['t', 'r', 'u', 'e'] then
    .ok ({ type := TokenType.BOOL, what := Value.bool true, pos := l1.get_pos 4 }, l1)
  else if temp = ['f', 'a', 'l', 's', 'e'] then
    .ok ({ type := TokenType.BOOL, what := Value.bool false, pos := l1.get_pos 5 }, l1)
  else
    .ok ({ type := TokenType.ID, what := Value.str temp, pos := l1.get_pos temp.length }, l1)

/-- The punctuation branch of `Lexer::get_tok`; `marks.at` throws for a
character that is not in the table. -/
def mark_branch (l : Lexer) : Except LexError (Token × Lexer) :=
  let l1 := l.next_char 1
  match marks (l1.view_char (-1)) with
  | none => .error (LexError.internal "map::at")
  | some ty =>
    let pp1 := if ty = TokenType.BPATH then true else l1.parsing_path
    let pp2 := if pp1 && decide (ty = TokenType.COLON) then false else pp1
    .ok ({ type := ty, what := Value.char (l1.view_char (-1)), pos := l1.get_pos 1 },
         { l1 with parsing_path := pp2 })

/-- The comment branch of `Lexer::get_tok`. -/
def note_branch (fuel : Nat) (l : Lexer) : Except LexError (Token × Lexer) :=
  match note_loop fuel (l.next_char 3) [] with
  | none => .error LexError.out_of_bounds
  | some r =>
    let l1 := r.1.next_char 3
    .ok ({ type := TokenType.NOTE, what := Value.note r.2, pos := l1.get_pos r.2.length }, l1)

/-- The chain of branches of `Lexer::get_tok` after the white space is skipped. -/
def dispatch (fuel : Nat) (l : Lexer) : Except LexError (Token × Lexer) :=
  if l.is_num then number_branch fuel l
  else if l.check_char 0 && l.view_char 0 == '"' then string_branch fuel l
  else if (l.check_char 0 && (isalpha (l.view_char 0) || l.view_char 0 == '_')) ||
      (l.check_char 0 && l.parsing_path && l.view_char 0 == '.') then id_branch fuel l
  else if l.check_char 0 && (marks (l.view_char 0)).isSome then mark_branch l
  else if l.check_char 2 && l.view_char 0 == '/' && l.view_char 1 == 'b' &&
      l.view_char 2 == '/' then note_branch fuel l
  else if !l.check_char 0 then
    .ok ({ type := TokenType.FEND, what := Value.int 0, pos := l.get_pos 0 }, l)
  else
    let tmp : Token := { type := TokenType.UNEXPECTED, what := Value.int 0, pos := l.get_pos 0 }
    .error (tmp.error l.code [Piece.text "Unexpected token \x27",
      Piece.text (String.mk [l.view_char 0]), Piece.text "\x27."])

/-- Source `Lexer::get_tok`.  Every loop gets the buffer length plus one as fuel, more
than the number of characters it can consume. -/
def get_tok (l : Lexer) : Except LexError (Token × Lexer) :=
  dispatch (l.code.size + 1) (skip_space (l.code.size + 1) l)

/-- The first two statements of the refill loop's body,
`auto t = get_tok(); check_token(t);`. -/
def scan (l : Lexer) : Except LexError (Token × Lexer) :=
  match l.get_tok with
  | .error e => .error e
  | .ok (t, l1) =>
    match l1.check_token t with
    | .error e => .error e
    | .ok l2 => .ok (t, l2)

/-- The refill loop of `Lexer::view`: `while (tokenstream.size() < 1024)`, left
early after a `FEND` token.  It runs at most 1024 times. -/
def fill : Nat → Lexer → Except LexError Lexer
  | 0, l => .ok l
  | fuel + 1, l =>
    if l.tokenstream.length < 1024 then
      match l.scan with
      | .error e => .error e
      | .ok (t, l2) =>
        let l3 := { l2 with tokenstream := l2.tokenstream ++ [t] }
        if t.type = TokenType.FEND then .ok { l3 with is_eof := true }
        else fill fuel l3
    else .ok l

/-- Source `Lexer::view`: the token at offset `s` and the scanner after the refill. -/
def view (l : Lexer) (s : Nat) : Except LexError (Token × Lexer) :=
  match (if l.tokenstream.length ≤ s then fill 1024 l else .ok l) with
  | .error e => .error e
  | .ok l1 =>
    match l1.tokenstream.get? s with
    | some t => .ok (t, l1)
    | none => .error LexError.out_of_bounds

/-- Source `Lexer::next`: one `pop_front`, whatever `s` is. -/
def next (l : Lexer) (_s : Nat) : Except LexError Lexer :=
  match l.tokenstream with
  | [] => .error LexError.out_of_bounds
  | _ :: rest => .ok { l with tokenstream := rest }

/-- Source `Lexer::eof`. -/
def eof (l : Lexer) : Bool := l.is_eof && l.tokenstream.isEmpty

end Lexer

/-! ## StreamFile: the streaming buffer -/

/-- Source `class StreamFile`: `file` is the content of the file behind the
`std::ifstream`, `filepos` its read position and `eofbit` its end-of-file flag;
`buffer` is the window and `bufferpos` the cursor in it.  A byte is a character
below 256. -/
structure StreamFile where
  file : List Char
  filepos : Nat
  eofbit : Bool
  buffer : List Char
  bufferpos : Nat
  deriving DecidableEq, Repr

/-- Source `StreamFile::StreamFile`: the stream is rewound after its size was
measured, the window is empty. -/
def StreamFile.init (content : List Char) : StreamFile :=
  { file := content, filepos := 0, eofbit := false, buffer := [], bufferpos := 0 }

/-- Source `StreamFile::size`: the `file_size` measured by the constructor. -/
def StreamFile.size (f : StreamFile) : Nat := f.file.length

/-- Source `StreamFile::ignore`. -/
def StreamFile.ignore (f : StreamFile) (s : Nat) : StreamFile :=
  { f with bufferpos := f.bufferpos + s }

/-- The loop `while(bufferpos >= 10) { buffer.pop_front(); --bufferpos; }` of
`StreamFile::write_buffer`; `pop_front` on an empty window is undefined and gives
`none`.  Every round lowers `bufferpos`, so `bufferpos` rounds are enough. -/
def StreamFile.evict : Nat → StreamFile → Option StreamFile
  | 0, f => some f
  | fuel + 1, f =>
    if 10 ≤ f.bufferpos then
      match f.buffer with
      | [] => none
      | _ :: b => evict fuel { f with buffer := b, bufferpos := f.bufferpos - 1 }
    else some f

/-- The loop `while(i < 1024 && !file->eof()) { buffer.emplace_back(file->get()); ++i; }`
of `StreamFile::write_buffer`, with `1024 - i` as first argument.  At the end of
the file `get()` sets the end-of-file flag and returns `EOF`, which is stored as
the byte 255. -/
def StreamFile.read_loop : Nat → StreamFile → StreamFile
  | 0, f => f
  | n + 1, f =>
    if f.eofbit then f
    else
      match f.file.get? f.filepos with
      | some c => read_loop n { f with buffer := f.buffer ++ [c], filepos := f.filepos + 1 }
      | none => read_loop n { f with buffer := f.buffer ++ [Char.ofNat 255], eofbit := true }

/-- Source `StreamFile::write_buffer`.  The final test `buffer.back() == -1` holds
for the byte 255 (`char` is signed); `back()` on an empty window is undefined and
reported as `out_of_bounds`. -/
def StreamFile.write_buffer (f : StreamFile) : Except LexError StreamFile :=
  match StreamFile.evict f.bufferpos f with
  | none => .error LexError.out_of_bounds
  | some f1 =>
    match (StreamFile.read_loop 1024 f1).buffer.getLast? with
    | none => .error LexError.out_of_bounds
    | some c =>
      if c = Char.ofNat 255 then
        .ok { StreamFile.read_loop 1024 f1 with
              buffer := (StreamFile.read_loop 1024 f1).buffer.dropLast }
      else .ok (StreamFile.read_loop 1024 f1)

/-- Source `StreamFile::view`: the test `buffer.size() <= s` and the index
`bufferpos + s` convert the `int s` to `std::size_t`; an index outside the window
is reported as `out_of_bounds`. -/
def StreamFile.view (f : StreamFile) (s : Int) : Except LexError (Char × StreamFile) :=
  match (if f.buffer.length ≤ Int.toNat (s % 2 ^ 64) then f.write_buffer else .ok f) with
  | .error e => .error e
  | .ok f1 =>
    match f1.buffer.get? (Int.toNat (((f1.bufferpos : Int) + s) % 2 ^ 64)) with
    | some c => .ok (c, f1)
    | none => .error LexError.out_of_bounds

/-- Source `StreamFile::check`. -/
def StreamFile.check (f : StreamFile) (s : Nat) : Except LexError (Bool × StreamFile) :=
  match (if f.buffer.length ≤ f.bufferpos + s then f.write_buffer else .ok f) with
  | .error e => .error e
  | .ok f1 => .ok (decide (f1.bufferpos + s < f1.buffer.length), f1)

/-- The lines that successive calls of `std::getline` deliver: the text is cut at
every `\n`, and a last piece without `\n` is a line unless it is empty. -/
def getlines : List Char → List Char → List (List Char)
  | [], cur => if cur = [] then [] else [cur]
  | c :: r, cur => if c = '\n' then cur :: getlines r [] else getlines r (cur ++ [c])

/-- The loop of `StreamFile::get_lineno`,
`for (; std::getline(*file, tmp); lineno++) { postmp += tmp.size() + 1; if (postmp >= pos) break; }`. -/
def StreamFile.get_lineno_loop (pos : Nat) : List (List Char) → Nat → Nat → Nat
  | [], lineno, _ => lineno
  | tmp :: rest, lineno, postmp =>
    if pos ≤ postmp + tmp.length + 1 then lineno
    else get_lineno_loop pos rest (lineno + 1) (postmp + tmp.length + 1)

/-- Source `StreamFile::get_lineno`. -/
def StreamFile.get_lineno (f : StreamFile) (pos : Nat) : Nat :=
  StreamFile.get_lineno_loop pos (getlines f.file []) 1 0

/-- The loop of `StreamFile::get_arrowpos`. -/
def StreamFile.get_arrowpos_loop (pos : Nat) : List (List Char) → Nat → Nat
  | [], _ => 0
  | tmp :: rest, postmp =>
    if pos ≤ postmp + tmp.length then Int.toNat (((pos : Int) - postmp) % 2 ^ 64)
    else get_arrowpos_loop pos rest (postmp + tmp.length + 1)

/-- Source `StreamFile::get_arrowpos`. -/
def StreamFile.get_arrowpos (f : StreamFile) (pos : Nat) : Nat :=
  StreamFile.get_arrowpos_loop pos (getlines f.file []) 0

/-- The loop of `StreamFile::get_spec_line`, `for (int a = 1; std::getline(*file, tmp); a++)`. -/
def StreamFile.get_spec_line_loop (beg end_ linenosize : Nat) :
    List (List Char) → Nat → List Char → List Char
  | [], _, buffer => buffer
  | tmp :: rest, a, buffer =>
    if beg ≤ a ∧ a < end_ then
      get_spec_line_loop beg end_ linenosize rest (a + 1)
        ((if (to_str_int a).length < linenosize
            then buffer ++ List.replicate (linenosize - (to_str_int a).length) '0'
            else buffer) ++ ((to_str_int a).toList ++ [' ']) ++ tmp ++ ['\n'])
    else get_spec_line_loop beg end_ linenosize rest (a + 1) buffer

/-- Source `StreamFile::get_spec_line`.  The final `buffer.pop_back()` on an empty
string is undefined; the model reports it as `out_of_bounds`. -/
def StreamFile.get_spec_line (f : StreamFile) (beg end_ linenosize : Nat) :
    Except LexError (List Char) :=
  let w := if linenosize = 0 then (to_str_int end_).length else linenosize
  match StreamFile.get_spec_line_loop beg end_ w (getlines f.file []) 1 [] with
  | [] => .error LexError.out_of_bounds
  | c :: r => .ok (c :: r).dropLast

/-- The number of blanks before the carets, as in `Pos.arrow_blanks`, for a
position in a streamed file. -/
def Pos.arrow_blanks_stream (p : Pos) (code : StreamFile) : Nat :=
  let lineno := code.get_lineno p.pos
  let linenosize := (to_str_int (lineno + 3)).length
  Int.toNat (((code.get_arrowpos p.pos : Int) - p.size + linenosize + 1) % 2 ^ 64)

/-- Source `Pos::get_details_from_code`, for a position in a streamed file: the
same body as `Pos.get_details_from_code`, the calls going to `StreamFile`. -/
def Pos.get_details_from_stream (p : Pos) (code : StreamFile) :
    Except LexError (List Char) :=
  let lineno := code.get_lineno p.pos
  let linenosize := (to_str_int (lineno + 3)).length
  let total_line := code.get_lineno (Int.toNat (((code.size : Int) - 1) % 2 ^ 64))
  let actual_last := Pos.actual_last_loop lineno 3 3
  let actual_next := Pos.actual_next_loop lineno total_line 3 3
  match (if actual_last ≠ 0
      then code.get_spec_line (Int.toNat (((lineno : Int) - actual_last) % 2 ^ 64))
        (lineno + 1) linenosize
      else .ok []) with
  | .error e => .error e
  | .ok temp1 =>
    match (if actual_next ≠ 0
        then code.get_spec_line (lineno + 1) (lineno + actual_next + 1) linenosize
        else .ok []) with
    | .error e => .error e
    | .ok temp2 =>
      .ok (temp1 ++
        ('\n' :: List.replicate (p.arrow_blanks_stream code) ' ' ++ "\x1b[0;32;32m".toList ++
          List.replicate p.size '^' ++ "\x1b[m\n".toList) ++ temp2)

/-- Repeat `view(-1)` on the streaming buffer `n` times. -/
def StreamFile.views_back : Nat → StreamFile → Except LexError StreamFile
  | 0, f => .ok f
  | n + 1, f =>
    match f.view (-1) with
    | .error e => .error e
    | .ok r => views_back n r.2

/-! ## Reading the specification -/

deriving instance DecidableEq for Except

/-- The kind and the value of a token, without its position. -/
def Token.kv (t : Token) : TokenType × Value := (t.type, t.what)

/-- The scalar token kinds of the spec: Int, LongInt, Double, String, Bool. -/
def TokenType.scalar (t : TokenType) : Bool :=
  match t with
  | TokenType.INT | TokenType.LONGLONG | TokenType.DOUBLE | TokenType.STRING
  | TokenType.BOOL => true
  | _ => false

/-- The transition table as the spec lists it (its 16 edges): the target of an
edge, `none` when the pair is not listed. -/
def spec_edge (s : State) (t : TokenType) : Option State :=
  match s, t with
  | State.INIT, TokenType.ID => some State.ID
  | State.INIT, TokenType.SCEND => some State.END
  | State.ID, TokenType.EQUAL => some State.EQUAL
  | State.ID, TokenType.COLON => some State.END
  | State.EQUAL, TokenType.ARR_LP => some State.ARR_LP
  | State.EQUAL, TokenType.BPATH => some State.BPATH
  | State.EQUAL, t => if t.scalar then some State.END else none
  | State.ARR_LP, TokenType.ARR_RP => some State.END
  | State.ARR_LP, t => if t.scalar then some State.ARR_VALUE else none
  | State.ARR_VALUE, TokenType.COMMA => some State.COMMA
  | State.ARR_VALUE, TokenType.ARR_RP => some State.END
  | State.COMMA, t => if t.scalar then some State.ARR_VALUE else none
  | State.BPATH, TokenType.ID => some State.PATH_ID
  | State.PATH_ID, TokenType.BPATH => some State.BPATH
  | State.PATH_ID, TokenType.COLON => some State.PATH_COLON
  | State.PATH_COLON, TokenType.ID => some State.END
  | _, _ => none

/-- The nine states the transition table of the spec starts edges from. -/
def table_states : List State :=
  [State.INIT, State.ID, State.EQUAL, State.ARR_LP, State.ARR_VALUE, State.COMMA,
   State.BPATH, State.PATH_ID, State.PATH_COLON]

/-- Feed a sequence of tokens through `Lexer::check_token`, stopping at the first error. -/
def Lexer.check_tokens (l : Lexer) : List Token → Except LexError Lexer
  | [] => .ok l
  | t :: ts =>
    match l.check_token t with
    | .error e => .error e
    | .ok l1 => check_tokens l1 ts

/-- A token of the given kind whose value and position play no role. -/
def Token.of_type (ty : TokenType) : Token :=
  { type := ty, what := Value.int 0, pos := { pos := 0, size := 0 } }

/-- The parser's pull loop: `n` times `peek(0)` followed by `consume(1)`; the
tokens seen and the scanner left. -/
def Lexer.pull : Nat → Lexer → Except LexError (List Token × Lexer)
  | 0, l => .ok ([], l)
  | n + 1, l =>
    match l.view 0 with
    | .error e => .error e
    | .ok (t, l1) =>
      match l1.next 1 with
      | .error e => .error e
      | .ok l2 =>
        match pull n l2 with
        | .error e => .error e
        | .ok (ts, l3) => .ok (t :: ts, l3)

/-- Scan and validate `n` tokens in a row, recording after each token the
scanner's `parsing_path` flag. -/
def Lexer.scan_flags : Nat → Lexer → Except LexError (List (TokenType × Value × Bool))
  | 0, _ => .ok []
  | n + 1, l =>
    match l.scan with
    | .error e => .error e
    | .ok (t, l1) =>
      match scan_flags n l1 with
      | .error e => .error e
      | .ok r => .ok ((t.type, t.what, l1.parsing_path) :: r)

/-- A non-empty run of decimal digits, `\d+`. -/
def Digits (ds : List Char) : Prop := ds ≠ [] ∧ ∀ c ∈ ds, isdigit c = true

instance Digits.decidable (ds : List Char) : Decidable (Digits ds) := by
  unfold Digits
  exact inferInstance

/-- An optional sign, `[+-]?`. -/
def OptSign (sg : List Char) : Prop := sg = [] ∨ sg = ['+'] ∨ sg = ['-']

/-- The lexemes of `[+-]?(\d+(\.\d+)?|\.\d+)([eE][+-]?\d+)?`. -/
def NumberLexeme (s : List Char) : Prop :=
  ∃ sg body ex, s = sg ++ body ++ ex ∧ OptSign sg ∧
    (Digits body ∨ (∃ ds fs, Digits ds ∧ Digits fs ∧ body = ds ++ '.' :: fs) ∨
      (∃ fs, Digits fs ∧ body = '.' :: fs)) ∧
    (ex = [] ∨ ∃ e sg2 ds, (e = 'e' ∨ e = 'E') ∧ OptSign sg2 ∧ Digits ds ∧ ex = e :: (sg2 ++ ds))

/-- An identifier of the spec: a letter or underscore followed by letters,
digits and underscores, and not one of the reserved words. -/
def Identifier (name : List Char) : Prop :=
  (∃ a r, name = a :: r ∧ (isalpha a = true ∨ a = '_') ∧
    ∀ c ∈ r, isalnum c = true ∨ c = '_') ∧
  name ≠ "end".toList ∧ name ≠ "true".toList ∧ name ≠ "false".toList

/-- The tokens that `n` rounds of `peek(0)`, `consume(1)` deliver for a source
text, each with its kind and value. -/
def Lexer.delivered (n : Nat) (code_str : List Char) :
    Except LexError (List (TokenType × Value)) :=
  match (Lexer.init code_str).pull n with
  | .error e => .error e
  | .ok r => .ok (r.1.map Token.kv)

/-- Scan and validate `n` tokens in a row (the refill loop without the queue). -/
def Lexer.scan_n : Nat → Lexer → Except LexError (List Token × Lexer)
  | 0, l => .ok ([], l)
  | n + 1, l =>
    match l.scan with
    | .error e => .error e
    | .ok (t, l1) =>
      match scan_n n l1 with
      | .error e => .error e
      | .ok (ts, l2) => .ok (t :: ts, l2)

/-- A token list that ends with its only `FEND` token. -/
def EndsAtFend : List Token → Prop
  | [] => False
  | [t] => t.type = TokenType.FEND
  | t :: ts => t.type ≠ TokenType.FEND ∧ EndsAtFend ts

/-- The scanner with another token queue and end-of-file flag. -/
def Lexer.setq (l : Lexer) (q : List Token) (b : Bool) : Lexer :=
  { l with tokenstream := q, is_eof := b }

/-- The part of the buffer at and after the cursor. -/
def Lexer.rest (l : Lexer) : List Char := l.code.code.drop l.code.codepos

/-- The states of `NumberMatch` in which a digit is accepted. -/
def NumberMatch.digit_ok : NumberMatch.State → Bool
  | NumberMatch.State.END | NumberMatch.State.UNEXPECTED => false
  | _ => true

/-- The states of `NumberMatch` in which the end of the lexeme is accepted. -/
def NumberMatch.accepts_end : NumberMatch.State → Bool
  | NumberMatch.State.INT | NumberMatch.State.INT_DOT | NumberMatch.State.DOT
  | NumberMatch.State.EXP_INT => true
  | _ => false

/-- A character that the identifier loop of the scanner consumes. -/
def Lexer.id_char (c : Char) : Bool := (isalnum c || c == '_') && c != '-'

/-- The grammar check moves from state `s` to state `s2` on a token of kind `ty`. -/
def CheckStep (s : State) (ty : TokenType) (s2 : State) : Prop :=
  ∀ (l : Lexer) (tok : Token), l.mtch = ⟨s, State.UNEXPECTED⟩ → tok.type = ty →
    l.check_token tok = .ok { l with mtch := ⟨s2, State.UNEXPECTED⟩ }

/-- The scanner stands before the text `r`, outside a path expression, with the
grammar machine in state `s` and a fresh number machine. -/
def Lexer.At (l : Lexer) (r : List Char) (s : State) : Prop :=
  l.rest = r ∧ l.mtch = ⟨s, State.UNEXPECTED⟩ ∧ l.parsing_path = false ∧
    l.nmatch = NumberMatch.init

/-- Scanning from `l` yields tokens of the given kinds and values, one after the
other, and leaves the scanner `l2`. -/
def Lexer.ScansTo (l : Lexer) (kvs : List (TokenType × Value)) (l2 : Lexer) : Prop :=
  ∃ ts : List Token, l.scan_n ts.length = .ok (ts, l2) ∧ ts.map Token.kv = kvs

/-- The text `v1,...,vn` of the elements of an array. -/
def arr_body : List (List Char) → List Char
  | [] => []
  | [d] => d
  | d :: ds => d ++ ',' :: arr_body ds

/-- The tokens `Int(v1), Comma, ..., Int(vn)` of the elements of an array. -/
def arr_tokens : List (List Char) → List (TokenType × Value)
  | [] => []
  | [d] => [(TokenType.INT, Value.int (digits_val d))]
  | d :: ds => (TokenType.INT, Value.int (digits_val d)) ::
      (TokenType.COMMA, Value.char ',') :: arr_tokens ds

/-- The kinds of the tokens that `n` rounds of `peek(0)`, `consume(1)` deliver. -/
def Lexer.kinds (n : Nat) (code_str : List Char) : Except LexError (List TokenType) :=
  match (Lexer.init code_str).pull n with
  | .error e => .error e
  | .ok r => .ok (r.1.map Token.type)

/-- The dash before the text `r` is path punctuation by the rule of the scanner:
it is followed by a character that is neither a digit nor `.`, or by `.` and then
a second `.`, a `-` or a `:`. -/
def DashIsPath (r : List Char) : Prop :=
  (∃ d r2, r = d :: r2 ∧ isdigit d = false ∧ d ≠ '.') ∨
  (∃ x r3, r = '.' :: x :: r3 ∧ (x = '.' ∨ x = '-' ∨ x = ':'))

/-- The kinds of the tokens left in the queue after `peek(0)` and then `consume(n)`. -/
def Lexer.kinds_after_consume (code_str : List Char) (n : Nat) :
    Except LexError (List TokenType) :=
  match (Lexer.init code_str).view 0 with
  | .error e => .error e
  | .ok (_, l) =>
    match l.next n with
    | .error e => .error e
    | .ok l2 => .ok (l2.tokenstream.map Token.type)

/-- Feeding the token kinds one by one to `Match::match` raises no error, the
state after the last of them is `END`, and the state after every earlier one is
neither `END` nor `UNEXPECTED`. -/
def Match.drives (m : Match) : List TokenType → Bool
  | [] => false
  | [t] =>
    match m.match_ t with
    | .ok m2 => m2.end_
    | .error _ => false
  | t :: t2 :: ts =>
    match m.match_ t with
    | .ok m2 => !m2.end_ && m2.good && drives m2 (t2 :: ts)
    | .error _ => false

/-- The token kinds `(PathDash Identifier)` repeated `n` times. -/
def path_steps : Nat → List TokenType
  | 0 => []
  | n + 1 => TokenType.BPATH :: TokenType.ID :: path_steps n

/-- The token kinds `(Comma v)` for every `v` of the list. -/
def comma_items : List TokenType → List TokenType
  | [] => []
  | v :: vs => TokenType.COMMA :: v :: comma_items vs

/-- The statement shapes of the spec: SectionEnd; Identifier Colon; Identifier
Equal scalar; Identifier Equal ArrayOpen ArrayClose; Identifier Equal ArrayOpen
scalar (Comma scalar)* ArrayClose; Identifier Equal (PathDash Identifier)+ Colon
Identifier. -/
def StatementShape (ts : List TokenType) : Prop :=
  ts = [TokenType.SCEND] ∨ ts = [TokenType.ID, TokenType.COLON] ∨
  (∃ v, v.scalar = true ∧ ts = [TokenType.ID, TokenType.EQUAL, v]) ∨
  ts = [TokenType.ID, TokenType.EQUAL, TokenType.ARR_LP, TokenType.ARR_RP] ∨
  (∃ v vs, v.scalar = true ∧ (∀ x ∈ vs, x.scalar = true) ∧
    ts = TokenType.ID :: TokenType.EQUAL :: TokenType.ARR_LP :: v ::
      (comma_items vs ++ [TokenType.ARR_RP])) ∨
  (∃ n, ts = TokenType.ID :: TokenType.EQUAL ::
    (path_steps (n + 1) ++ [TokenType.COLON, TokenType.ID]))

/-! ## Theorems -/

end czh.lexer

/-! ### Token::error: the error raised, and where the snippet has no rendering -/

namespace czh.lexer

theorem get_spec_line_error (f : NonStreamFile) (beg end_ w : Nat) (e : LexError)
    (h : f.get_spec_line beg end_ w = .error e) : e = LexError.out_of_bounds := by
  unfold NonStreamFile.get_spec_line at h
  simp only at h
  split at h
  · exact (Except.error.inj h).symm
  · cases h

theorem get_details_error (p : Pos) (code : NonStreamFile) (e : LexError)
    (h : p.get_details_from_code code = .error e) : e = LexError.out_of_bounds := by
  unfold Pos.get_details_from_code at h
  simp only at h
  split at h
  · rename_i e1 h1
    have he : e1 = e := Except.error.inj h
    subst he
    split at h1
    · exact get_spec_line_error _ _ _ _ _ h1
    · cases h1
  · split at h
    · rename_i e2 h2
      have he : e2 = e := Except.error.inj h
      subst he
      split at h2
      · exact get_spec_line_error _ _ _ _ _ h2
      · cases h2
    · cases h

theorem token_error_ok (t : Token) (code : NonStreamFile) (details : List Piece)
    (snippet : List Char) (h : t.pos.get_details_from_code code = .ok snippet) :
    t.error code details =
      LexError.token (details ++ [Piece.text ": \n", Piece.text (String.mk snippet)]) t.pos := by
  simp only [Token.error, h]

theorem token_error_undef (t : Token) (code : NonStreamFile) (details : List Piece)
    (e : LexError) (h : t.pos.get_details_from_code code = .error e) :
    t.error code details = e := by
  simp only [Token.error, h]

theorem token_error_cases (t : Token) (code : NonStreamFile) (details : List Piece) :
    (∃ d, t.error code details = LexError.token d t.pos) ∨
      t.error code details = LexError.out_of_bounds := by
  cases h : t.pos.get_details_from_code code with
  | error e =>
    right
    rw [token_error_undef t code details e h]
    exact get_details_error _ _ _ h
  | ok snippet => exact Or.inl ⟨_, token_error_ok t code details snippet h⟩

theorem raised_or_undefined (t : Token) (code : NonStreamFile) (details : List Piece) :
    (∃ d p, (Except.error (t.error code details) : Except LexError Lexer) =
        .error (LexError.token d p)) ∨
      (Except.error (t.error code details) : Except LexError Lexer) =
        .error LexError.out_of_bounds := by
  rcases token_error_cases t code details with ⟨d, hd⟩ | hd
  · exact Or.inl ⟨d, t.pos, by rw [hd]⟩
  · exact Or.inr (by rw [hd])

theorem is_newline_none (str : List Char) (h : ∀ x ∈ str, x ≠ '\r' ∧ x ≠ '\n') (i : Nat)
    (d : Int) : (is_newline_and_next str i d).1 = false := by
  have hc : str.getD i (Char.ofNat 0) ≠ '\r' ∧ str.getD i (Char.ofNat 0) ≠ '\n' := by
    by_cases hi : i < str.length
    · rw [List.getD_eq_getElem _ _ hi]
      exact h _ (List.getElem_mem hi)
    · rw [List.getD_eq_default _ _ (Nat.le_of_not_lt hi)]
      exact ⟨by decide, by decide⟩
  simp only [is_newline_and_next, hc.1, hc.2, if_false]

theorem get_lineno_loop_one_line (f : NonStreamFile) (h : ∀ x ∈ f.code, x ≠ '\r' ∧ x ≠ '\n')
    (pos : Nat) : ∀ (fuel i lineno : Nat), f.get_lineno_loop pos fuel i lineno = lineno := by
  intro fuel
  induction fuel with
  | zero => intro i lineno; rfl
  | succ n ih =>
    intro i lineno
    simp only [NonStreamFile.get_lineno_loop, is_newline_none f.code h, Bool.false_eq_true,
      if_false, ih, ite_self]

theorem get_lineno_one_line (f : NonStreamFile) (h : ∀ x ∈ f.code, x ≠ '\r' ∧ x ≠ '\n')
    (pos : Nat) : f.get_lineno pos = 1 :=
  get_lineno_loop_one_line f h pos pos 0 1

theorem get_spec_line_loop_none (f : NonStreamFile) (beg end_ w : Nat) (h : end_ ≤ beg) :
    ∀ (fuel i lineno : Nat) (flag : Bool),
      f.get_spec_line_loop beg end_ w fuel i lineno flag [] = [] := by
  intro fuel
  induction fuel with
  | zero => intro i lineno flag; rfl
  | succ n ih =>
    intro i lineno flag
    have h1 : ¬ (beg ≤ lineno ∧ lineno < end_) := by omega
    have h2 : ¬ (beg ≤ lineno + 1 ∧ lineno + 1 < end_) := by omega
    simp only [NonStreamFile.get_spec_line_loop, h1, h2, decide_False, Bool.false_and,
      Bool.false_eq_true, if_false, ih, ite_self]

theorem get_spec_line_none (f : NonStreamFile) (beg end_ w : Nat) (h : end_ ≤ beg) :
    f.get_spec_line beg end_ w = .error LexError.out_of_bounds := by
  simp only [NonStreamFile.get_spec_line, get_spec_line_loop_none f beg end_ _ h]

theorem get_details_first_lines (p : Pos) (code : NonStreamFile)
    (h : code.get_lineno p.pos = 1 ∨ code.get_lineno p.pos = 2) :
    p.get_details_from_code code = .error LexError.out_of_bounds := by
  rcases h with h | h
  · simp only [Pos.get_details_from_code, h]
    have h3 : Pos.actual_last_loop 1 3 3 = 3 := by decide
    have h4 : Int.toNat ((((1 : Nat) : Int) - ((3 : Nat) : Int)) % 2 ^ 64) = 2 ^ 64 - 2 := by
      decide
    rw [h3, h4]
    simp only [get_spec_line_none code (2 ^ 64 - 2) (1 + 1) _ (by norm_num)]
    rfl
  · simp only [Pos.get_details_from_code, h]
    have h3 : Pos.actual_last_loop 2 3 3 = 3 := by decide
    have h4 : Int.toNat ((((2 : Nat) : Int) - ((3 : Nat) : Int)) % 2 ^ 64) = 2 ^ 64 - 1 := by
      decide
    rw [h3, h4]
    simp only [get_spec_line_none code (2 ^ 64 - 1) (2 + 1) _ (by norm_num)]
    rfl

theorem token_error_first_lines (t : Token) (code : NonStreamFile) (details : List Piece)
    (h : code.get_lineno t.pos.pos = 1 ∨ code.get_lineno t.pos.pos = 2) :
    t.error code details = LexError.out_of_bounds := by
  simp only [Token.error, get_details_first_lines t.pos code h]

theorem token_error_one_line (t : Token) (code : NonStreamFile) (details : List Piece)
    (h : ∀ x ∈ code.code, x ≠ '\r' ∧ x ≠ '\n') :
    t.error code details = LexError.out_of_bounds :=
  token_error_first_lines t code details (Or.inl (get_lineno_one_line code h _))

end czh.lexer

/-! ### NumberMatch: accepted lexemes -/

namespace czh.lexer
namespace NumberMatch

theorem match_loop_cons (m : NumberMatch) (c : Char) (rest : List Char) :
    m.match_loop (c :: rest) =
      if (m.get_token (some c)).1 = Token.UNEXPECTED then (false, (m.get_token (some c)).2)
      else if ((m.get_token (some c)).2.next (m.get_token (some c)).1).state = State.UNEXPECTED
        then (false, (m.get_token (some c)).2.next (m.get_token (some c)).1)
        else ((m.get_token (some c)).2.next (m.get_token (some c)).1).match_loop rest := rfl

theorem match_loop_append (m : NumberMatch) (a b : List Char) :
    m.match_loop (a ++ b) =
      if (m.match_loop a).1 = true then (m.match_loop a).2.match_loop b else m.match_loop a := by
  induction a generalizing m with
  | nil => simp [match_loop]
  | cons c a ih =>
    rw [List.cons_append, match_loop_cons, match_loop_cons]
    split
    · simp
    · split
      · simp
      · exact ih _

theorem get_token_digit (m : NumberMatch) (c : Char) (h : isdigit c = true) :
    m.get_token (some c) = (Token.INT, m) := by
  simp [get_token, h]

theorem next_int_idem (m : NumberMatch) (h : digit_ok m.state = true) :
    ((m.next Token.INT).next Token.INT) = m.next Token.INT ∧
    (m.next Token.INT).state ≠ State.UNEXPECTED ∧ digit_ok (m.next Token.INT).state = true ∧
    (m.next Token.INT).is_double_ = m.is_double_ := by
  obtain ⟨s, d⟩ := m
  cases s <;> first
    | (exact ⟨rfl, fun h => State.noConfusion h, rfl, rfl⟩)
    | (cases h)

theorem match_loop_digits (ds : List Char) (hd : ∀ c ∈ ds, isdigit c = true) (m : NumberMatch)
    (h : digit_ok m.state = true) (hne : ds ≠ []) :
    m.match_loop ds = (true, m.next Token.INT) := by
  induction ds generalizing m with
  | nil => exact absurd rfl hne
  | cons c ds ih =>
    have hc : isdigit c = true := hd c (List.mem_cons_self _ _)
    obtain ⟨h1, h2, h3, h4⟩ := next_int_idem m h
    rw [match_loop_cons, get_token_digit m c hc]
    simp only [h2, if_false]
    rw [if_neg (by decide)]
    by_cases hds : ds = []
    · subst hds; rfl
    · rw [ih (fun c hc => hd c (List.mem_cons_of_mem _ hc)) _ h3 hds, h1]


theorem match_loop_digits_from (ds : List Char) (hd : Digits ds) (s : State) (d : Bool)
    (h : digit_ok s = true) :
    (NumberMatch.mk s d).match_loop ds = (true, (NumberMatch.mk s d).next Token.INT) :=
  match_loop_digits ds hd.2 _ h hd.1

theorem digits_no_dot (ds : List Char) (hd : Digits ds) : '.' ∉ ds := by
  intro h
  have := hd.2 _ h
  exact absurd this (by decide)

theorem sign_stage (sg : List Char) (h : OptSign sg) :
    ∃ s, (s = State.INIT ∨ s = State.SIGN) ∧ init.match_loop sg = (true, ⟨s, false⟩) ∧ '.' ∉ sg := by
  rcases h with rfl | rfl | rfl
  · exact ⟨State.INIT, Or.inl rfl, rfl, by decide⟩
  · exact ⟨State.SIGN, Or.inr rfl, rfl, by decide⟩
  · exact ⟨State.SIGN, Or.inr rfl, rfl, by decide⟩

theorem start_steps (s : State) (hs : s = State.INIT ∨ s = State.SIGN) (d : Bool) :
    (NumberMatch.mk s d).next Token.INT = ⟨State.INT, d⟩ ∧
    (NumberMatch.mk s d).next Token.DOT = ⟨State.DOT_NO_INT, d⟩ ∧ digit_ok s = true := by
  rcases hs with rfl | rfl <;> exact ⟨rfl, rfl, rfl⟩

theorem get_token_dot (m : NumberMatch) :
    m.get_token (some '.') = (Token.DOT, { m with is_double_ := true }) := rfl

theorem body_stage (body : List Char)
    (h : Digits body ∨ (∃ ds fs, Digits ds ∧ Digits fs ∧ body = ds ++ '.' :: fs) ∨
      (∃ fs, Digits fs ∧ body = '.' :: fs))
    (s : State) (hs : s = State.INIT ∨ s = State.SIGN) :
    ∃ s2, (s2 = State.INT ∨ s2 = State.INT_DOT) ∧
      (NumberMatch.mk s false).match_loop body = (true, ⟨s2, decide ('.' ∈ body)⟩) := by
  obtain ⟨h1, h2, h3⟩ := start_steps s hs false
  obtain ⟨_, h2t, _⟩ := start_steps s hs true
  rcases h with hd | ⟨ds, fs, hd, hf, rfl⟩ | ⟨fs, hf, rfl⟩
  · refine ⟨State.INT, Or.inl rfl, ?_⟩
    have hno := digits_no_dot body hd
    rw [match_loop_digits_from body hd _ _ h3, h1]
    simp [hno]
  · refine ⟨State.INT_DOT, Or.inr rfl, ?_⟩
    rw [match_loop_append, match_loop_digits_from ds hd _ _ h3, h1]
    simp only [if_true]
    rw [match_loop_cons, get_token_dot]
    simp only
    rw [if_neg (by decide), if_neg (by decide)]
    have e2 : (NumberMatch.mk State.INT true).next Token.DOT = ⟨State.DOT, true⟩ := rfl
    rw [e2, match_loop_digits_from fs hf State.DOT true rfl]
    simp
    rfl
  · refine ⟨State.INT_DOT, Or.inr rfl, ?_⟩
    rw [match_loop_cons, get_token_dot]
    simp only
    rw [h2t, if_neg (by decide), if_neg (by decide)]
    rw [match_loop_digits_from fs hf State.DOT_NO_INT true rfl]
    simp
    rfl

theorem exp_stage (ex : List Char)
    (h : ex = [] ∨ ∃ e sg2 ds, (e = 'e' ∨ e = 'E') ∧ OptSign sg2 ∧ Digits ds ∧ ex = e :: (sg2 ++ ds))
    (s : State) (hs : s = State.INT ∨ s = State.INT_DOT) (d : Bool) :
    ∃ s3, (s3 = State.INT ∨ s3 = State.INT_DOT ∨ s3 = State.EXP_INT) ∧
      (NumberMatch.mk s d).match_loop ex = (true, ⟨s3, d⟩) ∧ '.' ∉ ex := by
  rcases h with rfl | ⟨e, sg2, ds, he, hsg, hd, rfl⟩
  · refine ⟨s, ?_, rfl, by simp⟩
    rcases hs with rfl | rfl <;> simp
  · refine ⟨State.EXP_INT, Or.inr (Or.inr rfl), ?_, ?_⟩
    · have hE : (NumberMatch.mk s d).match_loop (e :: (sg2 ++ ds)) =
          (NumberMatch.mk State.EXP d).match_loop (sg2 ++ ds) := by
        rcases he with rfl | rfl <;> rcases hs with rfl | rfl <;> rfl
      rw [hE]
      rcases hsg with rfl | rfl | rfl
      · rw [List.nil_append, match_loop_digits_from ds hd State.EXP d rfl]; rfl
      · have : (NumberMatch.mk State.EXP d).match_loop (['+'] ++ ds) =
            (NumberMatch.mk State.EXP_SIGN d).match_loop ds := rfl
        rw [this, match_loop_digits_from ds hd State.EXP_SIGN d rfl]; rfl
      · have : (NumberMatch.mk State.EXP d).match_loop (['-'] ++ ds) =
            (NumberMatch.mk State.EXP_SIGN d).match_loop ds := rfl
        rw [this, match_loop_digits_from ds hd State.EXP_SIGN d rfl]; rfl
    · have hno := digits_no_dot ds hd
      intro hmem
      rcases List.mem_cons.1 hmem with h1 | h1
      · rcases he with rfl | rfl <;> exact absurd h1 (by decide)
      · rcases List.mem_append.1 h1 with h2 | h2
        · rcases hsg with rfl | rfl | rfl <;> simp at h2
        · exact hno h2

theorem match_of_loop (m m3 : NumberMatch) (s : List Char) (h : m.match_loop s = (true, m3))
    (hs : m3.state = State.INT ∨ m3.state = State.INT_DOT ∨ m3.state = State.DOT ∨
      m3.state = State.EXP_INT) :
    m.match_ s = (true, ⟨State.END, m3.is_double_⟩) := by
  obtain ⟨s3, d3⟩ := m3
  simp only at hs
  unfold match_
  rw [h]
  rcases hs with rfl | rfl | rfl | rfl <;> rfl

/-- C8. For every string `s` of the language
`[+-]?(\d+(\.\d+)?|\.\d+)([eE][+-]?\d+)?`, `NumberMatch::match(s)` on a freshly reset
machine returns true, and afterwards `is_double()` is true exactly when `s` contains a
decimal point; an exponent marker alone does not set it. -/
theorem number_lexeme_accepted (s : List Char) (h : NumberLexeme s) :
    (init.match_ s).1 = true ∧ ((init.match_ s).2.is_double = true ↔ '.' ∈ s) := by
  obtain ⟨sg, body, ex, rfl, hsg, hbody, hex⟩ := h
  obtain ⟨s1, hs1, e1, n1⟩ := sign_stage sg hsg
  obtain ⟨s2, hs2, e2⟩ := body_stage body hbody s1 hs1
  obtain ⟨s3, hs3, e3, n3⟩ := exp_stage ex hex s2 hs2 (decide ('.' ∈ body))
  have hloop : init.match_loop (sg ++ body ++ ex) = (true, ⟨s3, decide ('.' ∈ body)⟩) := by
    rw [match_loop_append, match_loop_append, e1]
    simp only [if_true]
    rw [e2]
    simp only [if_true]
    exact e3
  have hm := match_of_loop _ _ _ hloop
    (by rcases hs3 with rfl | rfl | rfl <;> simp)
  rw [hm]
  refine ⟨rfl, ?_⟩
  simp [is_double, n1, n3]

/-- C8 at the lexeme `-12.5e+3`. -/
theorem number_lexeme_accepted_witness :
    NumberLexeme "-12.5e+3".toList ∧ (init.match_ "-12.5e+3".toList).1 = true ∧
      ((init.match_ "-12.5e+3".toList).2.is_double = true ↔ '.' ∈ "-12.5e+3".toList) :=
  have h : NumberLexeme "-12.5e+3".toList :=
    ⟨['-'], "12.5".toList, "e+3".toList, rfl, Or.inr (Or.inr rfl),
      Or.inr (Or.inl ⟨['1', '2'], ['5'], ⟨by decide, by decide⟩, ⟨by decide, by decide⟩, rfl⟩),
      Or.inr ⟨'e', ['+'], ['3'], Or.inl rfl, Or.inr (Or.inl rfl), ⟨by decide, by decide⟩, rfl⟩⟩
  ⟨h, number_lexeme_accepted "-12.5e+3".toList h⟩

end NumberMatch
end czh.lexer

/-! ### NumberMatch: accepting states -/

namespace czh.lexer
namespace NumberMatch

theorem match_true_iff (m : NumberMatch) (s : List Char) :
    (m.match_ s).1 = true ↔
      ((m.match_loop s).1 = true ∧ accepts_end (m.match_loop s).2.state = true) := by
  unfold match_
  rcases hr : m.match_loop s with ⟨b, ⟨s3, d3⟩⟩
  cases b
  · simp
  · cases s3 <;> simp [accepts_end] <;> rfl

theorem get_token_int (m : NumberMatch) (c : Char) (h : (m.get_token (some c)).1 = Token.INT) :
    isdigit c = true := by
  simp only [get_token] at h
  split_ifs at h with h1
  exact h1

theorem next_state_int (m : NumberMatch) (t : Token) (h : (m.next t).state = State.INT) :
    t = Token.INT := by
  obtain ⟨s, d⟩ := m
  cases s <;> cases t <;> first | rfl | (exact State.noConfusion h)

theorem get_token_state (m : NumberMatch) (c : Option Char) :
    (m.get_token c).2.state = m.state := by
  unfold get_token
  cases c with
  | none => rfl
  | some c => simp only; split_ifs <;> rfl

theorem loop_state_int (pre : List Char) (m m2 : NumberMatch)
    (h : m.match_loop pre = (true, m2)) (hs : m2.state = State.INT) :
    (pre = [] ∧ m.state = State.INT) ∨ ∃ d, isdigit d = true ∧ pre.getLast? = some d := by
  induction pre generalizing m with
  | nil =>
    left
    have : m = m2 := by simpa [match_loop] using h
    exact ⟨rfl, this ▸ hs⟩
  | cons c rest ih =>
    right
    rw [match_loop_cons] at h
    split at h
    · cases h
    · split at h
      · cases h
      · rcases ih _ h with ⟨rfl, h2⟩ | ⟨d, hd, hl⟩
        · exact ⟨c, get_token_int m c (next_state_int _ _ h2), rfl⟩
        · refine ⟨d, hd, ?_⟩
          cases rest with
          | nil => cases hl
          | cons x xs => simpa [List.getLast?_cons_cons] using hl

theorem dot_no_int_needs_digit (post : List Char)
    (h1 : ((NumberMatch.mk State.DOT_NO_INT true).match_loop post).1 = true)
    (h2 : accepts_end ((NumberMatch.mk State.DOT_NO_INT true).match_loop post).2.state = true) :
    ∃ d, isdigit d = true ∧ post.head? = some d := by
  cases post with
  | nil => cases h2
  | cons c r =>
    refine ⟨c, ?_, rfl⟩
    rw [match_loop_cons] at h1
    by_cases hd : isdigit c = true
    · exact hd
    · exfalso
      have hni : ((NumberMatch.mk State.DOT_NO_INT true).get_token (some c)).1 ≠ Token.INT :=
        fun hh => hd (get_token_int _ _ hh)
      have hs := get_token_state (NumberMatch.mk State.DOT_NO_INT true) (some c)
      rcases hg : (NumberMatch.mk State.DOT_NO_INT true).get_token (some c) with ⟨t, ⟨s2, d2⟩⟩
      rw [hg] at h1 hni hs
      simp only at hs hni h1
      subst hs
      cases t <;> first | (exact hni rfl) | (cases h1)

theorem dot_needs_digit (pre post : List Char)
    (h : (init.match_ (pre ++ '.' :: post)).1 = true) :
    (∃ d, isdigit d = true ∧ pre.getLast? = some d) ∨
    (∃ d, isdigit d = true ∧ post.head? = some d) := by
  rw [match_true_iff, match_loop_append] at h
  obtain ⟨h1, h2⟩ := h
  rcases hpre : init.match_loop pre with ⟨b, ⟨s1, d1⟩⟩
  rw [hpre] at h1 h2
  cases b
  · simp at h1
  · simp only [if_true] at h1 h2
    rw [match_loop_cons] at h1 h2
    have e : (NumberMatch.mk s1 d1).get_token (some '.') = (Token.DOT, ⟨s1, true⟩) := rfl
    rw [e] at h1 h2
    simp only at h1 h2
    rw [if_neg (by decide)] at h1 h2
    cases s1
    case INT =>
      left
      rcases loop_state_int pre init _ hpre rfl with ⟨_, h3⟩ | h3
      · cases h3
      · exact h3
    case INIT =>
      rw [if_neg (by decide)] at h1 h2
      exact Or.inr (dot_no_int_needs_digit post h1 h2)
    case SIGN =>
      rw [if_neg (by decide)] at h1 h2
      exact Or.inr (dot_no_int_needs_digit post h1 h2)
    all_goals (cases h1)

end NumberMatch
end czh.lexer

/-! ### Match: transitions and hints -/

namespace czh.lexer

/-- C4. From each of the nine states `INIT`, `ID`, `EQUAL`, `ARR_LP`, `ARR_VALUE`,
`COMMA`, `BPATH`, `PATH_ID`, `PATH_COLON` and for every token kind other than `NOTE`,
`Match::match` moves to the target of the spec's table when the edge is listed, and
otherwise to `UNEXPECTED` with `last_state` set to the state that was left. -/
theorem match_implements_table (m : Match) (t : TokenType)
    (hs : m.state ∈ table_states) (ht : t ≠ TokenType.NOTE) :
    m.match_ t = .ok (match spec_edge m.state t with
      | some target => { m with state := target }
      | none => { state := State.UNEXPECTED, last_state := m.state }) := by
  obtain ⟨s, ls⟩ := m
  cases s <;> cases t <;> first | rfl | (exact absurd rfl ht) | (simp [table_states] at hs)

/-- C4 at the edge that `foo=;` fails on. -/
theorem match_implements_table_witness :
    State.EQUAL ∈ table_states ∧ TokenType.SEND ≠ TokenType.NOTE ∧
    (Match.mk State.EQUAL State.UNEXPECTED).match_ TokenType.SEND =
      .ok { state := State.UNEXPECTED, last_state := State.EQUAL } :=
  ⟨by decide, by decide,
   match_implements_table (Match.mk State.EQUAL State.UNEXPECTED) TokenType.SEND
     (by decide) (by decide)⟩

/-- Claim C6, which the code does not meet.  For a `FEND` token
`Lexer::check_token` returns normally, leaving the scanner as it is, exactly when
the machine is in state `INIT` or `END`.  In every other state it enters
`Token::error` with the details `Unexpected end of file.`: where the snippet of
the position can be rendered the error raised carries these details and the
snippet, and where its rendering is undefined, as for every text of one line, no
such error is raised.  So the input `foo=` does not fail with the message, while
the same text on line 3 does. -/
theorem fend_check :
    (∀ (l : Lexer) (tok : Token), tok.type = TokenType.FEND →
      ((∃ l1, l.check_token tok = .ok l1) ↔
        (l.mtch.state = State.INIT ∨ l.mtch.state = State.END)) ∧
      ((l.mtch.state = State.INIT ∨ l.mtch.state = State.END) → l.check_token tok = .ok l) ∧
      (¬ (l.mtch.state = State.INIT ∨ l.mtch.state = State.END) →
        (∀ snippet, tok.pos.get_details_from_code l.code = .ok snippet →
          l.check_token tok = .error (LexError.token
            ([Piece.text "Unexpected end of file."] ++
              [Piece.text ": \n", Piece.text (String.mk snippet)]) tok.pos)) ∧
        ((∀ x ∈ l.code.code, x ≠ '\r' ∧ x ≠ '\n') →
          l.check_token tok = .error LexError.out_of_bounds))) ∧
    Lexer.delivered 1 "foo=".toList = .error LexError.out_of_bounds ∧
    Lexer.delivered 1 "\n\nfoo=".toList = .error (LexError.token
      [Piece.text "Unexpected end of file.", Piece.text ": \n",
        Piece.text " \n2 \n3 foo=\n       \x1b[0;32;32m\x1b[m\n"] ⟨6, 0⟩) := by
  refine ⟨?_, by rfl, by rfl⟩
  intro l tok h
  have key : l.check_token tok =
      if l.mtch.state = State.END ∨ l.mtch.state = State.INIT then .ok l
      else .error (tok.error l.code [Piece.text "Unexpected end of file."]) := by
    simp only [Lexer.check_token, h, if_true, Match.get_state]
  by_cases hc : l.mtch.state = State.END ∨ l.mtch.state = State.INIT
  · have hc2 : l.mtch.state = State.INIT ∨ l.mtch.state = State.END := hc.symm
    rw [key, if_pos hc]
    exact ⟨⟨fun _ => hc2, fun _ => ⟨l, rfl⟩⟩, fun _ => rfl, fun hn => absurd hc2 hn⟩
  · have hc2 : ¬ (l.mtch.state = State.INIT ∨ l.mtch.state = State.END) := fun x => hc x.symm
    rw [key, if_neg hc]
    refine ⟨⟨fun ⟨l1, h1⟩ => Except.noConfusion h1, fun hx => absurd hx hc2⟩,
      fun hx => absurd hx hc2, fun _ => ⟨?_, ?_⟩⟩
    · intro snippet hsn
      rw [token_error_ok tok l.code _ snippet hsn]
    · intro hline
      rw [token_error_one_line tok l.code _ hline]

/-- Claim C6 at a `FEND` token that arrives in state `EQUAL`: at the end of line 3
the error "Unexpected end of file." is raised, at the end of line 1 it is not. -/
theorem fend_check_witness :
    { Lexer.init "\n\nfoo=".toList with mtch := ⟨State.EQUAL, State.UNEXPECTED⟩ }.check_token
        ⟨TokenType.FEND, Value.int 0, ⟨6, 0⟩⟩ =
      .error (LexError.token [Piece.text "Unexpected end of file.", Piece.text ": \n",
        Piece.text " \n2 \n3 foo=\n       \x1b[0;32;32m\x1b[m\n"] ⟨6, 0⟩) ∧
    { Lexer.init "foo=".toList with mtch := ⟨State.EQUAL, State.UNEXPECTED⟩ }.check_token
        ⟨TokenType.FEND, Value.int 0, ⟨4, 0⟩⟩ = .error LexError.out_of_bounds :=
  ⟨((fend_check.1
      { Lexer.init "\n\nfoo=".toList with mtch := ⟨State.EQUAL, State.UNEXPECTED⟩ }
      ⟨TokenType.FEND, Value.int 0, ⟨6, 0⟩⟩ rfl).2.2 (by decide)).1 _ (by rfl),
   ((fend_check.1 { Lexer.init "foo=".toList with mtch := ⟨State.EQUAL, State.UNEXPECTED⟩ }
      ⟨TokenType.FEND, Value.int 0, ⟨4, 0⟩⟩ rfl).2.2 (by decide)).2 (by decide)⟩

end czh.lexer

/-! ### The scanner does not touch the token queue -/

namespace czh.lexer
namespace Lexer

theorem setq_check_char (l : Lexer) (q : List Token) (b : Bool) (s : Nat) :
    (l.setq q b).check_char s = l.check_char s := rfl

theorem setq_view_char (l : Lexer) (q : List Token) (b : Bool) (s : Int) :
    (l.setq q b).view_char s = l.view_char s := rfl

theorem setq_next_char (l : Lexer) (q : List Token) (b : Bool) (s : Nat) :
    (l.setq q b).next_char s = (l.next_char s).setq q b := rfl

theorem setq_skip_space (fuel : Nat) (l : Lexer) (q : List Token) (b : Bool) :
    skip_space fuel (l.setq q b) = (skip_space fuel l).setq q b := by
  induction fuel generalizing l with
  | zero => rfl
  | succ n ih =>
    simp only [skip_space, setq_check_char, setq_view_char, setq_next_char, ih]
    split <;> rfl

theorem setq_number_loop (fuel : Nat) (l : Lexer) (temp : List Char) (q : List Token) (b : Bool) :
    number_loop fuel (l.setq q b) temp =
      ((number_loop fuel l temp).1.setq q b, (number_loop fuel l temp).2) := by
  induction fuel generalizing l temp with
  | zero => rfl
  | succ n ih =>
    simp only [number_loop, setq_check_char, setq_view_char, setq_next_char, ih]
    split <;> rfl

theorem setq_string_loop (fuel : Nat) (l : Lexer) (temp : List Char) (q : List Token) (b : Bool) :
    string_loop fuel (l.setq q b) temp =
      ((string_loop fuel l temp).1.setq q b, (string_loop fuel l temp).2) := by
  induction fuel generalizing l temp with
  | zero => rfl
  | succ n ih =>
    simp only [string_loop, setq_check_char, setq_view_char, setq_next_char, ih]
    split <;> rfl

theorem setq_id_loop (fuel : Nat) (l : Lexer) (temp : List Char) (q : List Token) (b : Bool) :
    id_loop fuel (l.setq q b) temp =
      ((id_loop fuel l temp).1.setq q b, (id_loop fuel l temp).2) := by
  induction fuel generalizing l temp with
  | zero => rfl
  | succ n ih =>
    simp only [id_loop, setq_check_char, setq_view_char, setq_next_char, ih]
    split <;> rfl

theorem setq_note_loop (fuel : Nat) (l : Lexer) (temp : List Char) (q : List Token) (b : Bool) :
    note_loop fuel (l.setq q b) temp =
      (note_loop fuel l temp).map (fun r => (r.1.setq q b, r.2)) := by
  induction fuel generalizing l temp with
  | zero => rfl
  | succ n ih =>
    simp only [note_loop, setq_check_char, setq_view_char, setq_next_char, ih]
    split
    · rfl
    · split <;> rfl

theorem setq_is_num (l : Lexer) (q : List Token) (b : Bool) :
    (l.setq q b).is_num = l.is_num := rfl

theorem setq_number_branch (fuel : Nat) (l : Lexer) (q : List Token) (b : Bool) :
    number_branch fuel (l.setq q b) =
      match number_branch fuel l with
      | .error e => .error e
      | .ok (t, l1) => .ok (t, l1.setq q b) := by
  unfold number_branch
  simp only [setq_number_loop]
  have hn : ((number_loop fuel l []).1.setq q b).nmatch = (number_loop fuel l []).1.nmatch := rfl
  rw [hn]
  split
  · split
    · rfl
    · split <;> rfl
  · rfl

theorem setq_string_branch (fuel : Nat) (l : Lexer) (q : List Token) (b : Bool) :
    string_branch fuel (l.setq q b) =
      match string_branch fuel l with
      | .error e => .error e
      | .ok (t, l1) => .ok (t, l1.setq q b) := by
  unfold string_branch
  simp only [setq_next_char, setq_string_loop]
  rfl

theorem setq_id_start (l : Lexer) (q : List Token) (b : Bool) :
    id_start (l.setq q b) = ((id_start l).1.setq q b, (id_start l).2) := by
  unfold id_start
  simp only [setq_next_char, setq_check_char, setq_view_char]
  have hp : (l.setq q b).parsing_path = l.parsing_path := rfl
  rw [hp]
  split
  · split <;> rfl
  · rfl

theorem setq_id_branch (fuel : Nat) (l : Lexer) (q : List Token) (b : Bool) :
    id_branch fuel (l.setq q b) =
      match id_branch fuel l with
      | .error e => .error e
      | .ok (t, l1) => .ok (t, l1.setq q b) := by
  unfold id_branch
  simp only [setq_id_start, setq_id_loop]
  split
  · rfl
  · split
    · rfl
    · split <;> rfl

theorem setq_mark_branch (l : Lexer) (q : List Token) (b : Bool) :
    mark_branch (l.setq q b) =
      match mark_branch l with
      | .error e => .error e
      | .ok (t, l1) => .ok (t, l1.setq q b) := by
  unfold mark_branch
  simp only [setq_next_char, setq_view_char]
  split <;> rfl

theorem setq_note_branch (fuel : Nat) (l : Lexer) (q : List Token) (b : Bool) :
    note_branch fuel (l.setq q b) =
      match note_branch fuel l with
      | .error e => .error e
      | .ok (t, l1) => .ok (t, l1.setq q b) := by
  unfold note_branch
  simp only [setq_next_char, setq_note_loop]
  cases note_loop fuel (l.next_char 3) [] <;> rfl

theorem setq_dispatch (fuel : Nat) (l : Lexer) (q : List Token) (b : Bool) :
    dispatch fuel (l.setq q b) =
      match dispatch fuel l with
      | .error e => .error e
      | .ok (t, l1) => .ok (t, l1.setq q b) := by
  unfold dispatch
  simp only [setq_is_num, setq_check_char, setq_view_char, setq_number_branch,
    setq_string_branch, setq_id_branch, setq_mark_branch, setq_note_branch]
  have hp : (l.setq q b).parsing_path = l.parsing_path := rfl
  rw [hp]
  split_ifs <;> rfl

theorem setq_get_tok (l : Lexer) (q : List Token) (b : Bool) :
    (l.setq q b).get_tok =
      match l.get_tok with
      | .error e => .error e
      | .ok (t, l1) => .ok (t, l1.setq q b) := by
  unfold get_tok
  have hsize : (l.setq q b).code.size = l.code.size := rfl
  rw [hsize, setq_skip_space, setq_dispatch]

theorem setq_check_token (l : Lexer) (q : List Token) (b : Bool) (tok : Token) :
    (l.setq q b).check_token tok =
      match l.check_token tok with
      | .error e => .error e
      | .ok l1 => .ok (l1.setq q b) := by
  unfold check_token
  have hp : (l.setq q b).presented tok = l.presented tok := rfl
  have hm : (l.setq q b).mtch = l.mtch := rfl
  rw [hp, hm]
  split_ifs
  · rfl
  · rfl
  · rcases l.presented tok with e | m1
    · rfl
    · simp only
      rcases m1.match_ tok.type with e | m2
      · rfl
      · simp only
        split_ifs
        · rcases m2.error_correct with e | hint <;> rfl
        · rfl

theorem setq_scan (l : Lexer) (q : List Token) (b : Bool) :
    (l.setq q b).scan =
      match l.scan with
      | .error e => .error e
      | .ok (t, l1) => .ok (t, l1.setq q b) := by
  unfold scan
  rw [setq_get_tok]
  rcases l.get_tok with e | ⟨t, l1⟩
  · rfl
  · simp only [setq_check_token]
    rcases l1.check_token t with e | l2 <;> rfl

end Lexer
end czh.lexer

/-! ### The lookahead queue delivers the scanned tokens -/

namespace czh.lexer
namespace Lexer

theorem fill_spec (fuel : Nat) (q rs : List Token) (lj lend : Lexer)
    (hscan : lj.scan_n rs.length = .ok (rs, lend)) (hfend : EndsAtFend rs)
    (hfuel : 1024 ≤ q.length + fuel) :
    ∃ (rs1 rs2 : List Token) (lj2 : Lexer), rs = rs1 ++ rs2 ∧
      fill fuel (lj.setq q false) = .ok (lj2.setq (q ++ rs1) (decide (rs2 = []))) ∧
      lj2.scan_n rs2.length = .ok (rs2, lend) ∧ (q.length < 1024 → rs1 ≠ []) ∧
      (rs2 = [] ∨ EndsAtFend rs2) := by
  induction fuel generalizing q rs lj with
  | zero =>
    refine ⟨[], rs, lj, rfl, ?_, hscan, fun h => by omega, Or.inr hfend⟩
    have : rs ≠ [] := by rintro rfl; exact hfend
    simp [fill, this]
  | succ n ih =>
    by_cases hq : q.length < 1024
    · cases rs with
      | nil => exact absurd hfend (by simp [EndsAtFend])
      | cons t rs' =>
        simp only [List.length_cons, scan_n] at hscan
        rcases hs : lj.scan with e | ⟨t1, l1⟩
        · rw [hs] at hscan; cases hscan
        · rw [hs] at hscan
          simp only at hscan
          rcases hs2 : l1.scan_n rs'.length with e | ⟨ts2, l2⟩
          · rw [hs2] at hscan; cases hscan
          · rw [hs2] at hscan
            simp only at hscan
            have hinj := Prod.mk.inj (Except.ok.inj hscan)
            have ht : t1 = t := (List.cons.inj hinj.1).1
            have hts : ts2 = rs' := (List.cons.inj hinj.1).2
            have hl : l2 = lend := hinj.2
            subst ht hts hl
            have hframe := setq_scan lj q false
            rw [hs] at hframe
            simp only at hframe
            have hfill : fill (n + 1) (lj.setq q false) =
                (if t1.type = TokenType.FEND then
                  .ok ((l1.setq (q ++ [t1]) false).setq (q ++ [t1]) true)
                 else fill n (l1.setq (q ++ [t1]) false)) := by
              simp only [fill]
              have : (lj.setq q false).tokenstream.length < 1024 := hq
              rw [if_pos this, hframe]
              rfl
            cases ts2 with
            | nil =>
              have hF : t1.type = TokenType.FEND := hfend
              refine ⟨[t1], [], l1, rfl, ?_, ?_, fun _ => by simp, Or.inl rfl⟩
              · rw [hfill, if_pos hF]; rfl
              · simpa [scan_n] using hs2
            | cons t2 ts3 =>
              have hF : t1.type ≠ TokenType.FEND := hfend.1
              have hrest : EndsAtFend (t2 :: ts3) := hfend.2
              obtain ⟨rs1, rs2, lj2, e1, e2, e3, e4, e5⟩ :=
                ih (q ++ [t1]) (t2 :: ts3) l1 hs2 hrest (by simp; omega)
              refine ⟨t1 :: rs1, rs2, lj2, by rw [e1]; rfl, ?_, e3, fun _ => by simp, e5⟩
              rw [hfill, if_neg hF, e2]
              simp
    · refine ⟨[], rs, lj, rfl, ?_, hscan, fun h => absurd h hq, Or.inr hfend⟩
      have : rs ≠ [] := by rintro rfl; exact hfend
      have hq2 : ¬ (lj.setq q false).tokenstream.length < 1024 := hq
      simp [fill, this, hq2]

theorem view_spec (q rs : List Token) (lj lend : Lexer)
    (hscan : lj.scan_n rs.length = .ok (rs, lend)) (hf : rs = [] ∨ EndsAtFend rs)
    (hne : q ++ rs ≠ []) :
    ∃ (t : Token) (q2 rs2 : List Token) (lj2 : Lexer), q ++ rs = t :: q2 ++ rs2 ∧
      view (lj.setq q (decide (rs = []))) 0 = .ok (t, lj2.setq (t :: q2) (decide (rs2 = []))) ∧
      lj2.scan_n rs2.length = .ok (rs2, lend) ∧ (rs2 = [] ∨ EndsAtFend rs2) := by
  cases q with
  | cons t q2 =>
    exact ⟨t, q2, rs, lj, rfl, rfl, hscan, hf⟩
  | nil =>
    have hrs : rs ≠ [] := by simpa using hne
    have hfe : EndsAtFend rs := hf.resolve_left hrs
    obtain ⟨rs1, rs2, lj2, e1, e2, e3, e4, e5⟩ := fill_spec 1024 [] rs lj lend hscan hfe (by simp)
    have h1 : rs1 ≠ [] := e4 (by simp)
    cases rs1 with
    | nil => exact absurd rfl h1
    | cons t q2 =>
      refine ⟨t, q2, rs2, lj2, by simpa using e1, ?_, e3, e5⟩
      have hd : decide (rs = []) = false := by simp [hrs]
      rw [hd]
      unfold view
      have hlen : (lj.setq [] false).tokenstream.length ≤ 0 := Nat.le_refl 0
      rw [if_pos hlen, e2]
      rfl

theorem pull_spec (k : Nat) (q rs : List Token) (lj lend : Lexer)
    (hscan : lj.scan_n rs.length = .ok (rs, lend)) (hf : rs = [] ∨ EndsAtFend rs)
    (hk : k ≤ (q ++ rs).length) :
    ∃ lk, pull k (lj.setq q (decide (rs = []))) = .ok ((q ++ rs).take k, lk) ∧
      lk.eof = decide (k = (q ++ rs).length) ∧
      (k < (q ++ rs).length → ∃ t l2, lk.view 0 = .ok (t, l2) ∧ l2.eof = false) := by
  induction k generalizing q rs lj with
  | zero =>
    refine ⟨_, rfl, ?_, ?_⟩
    · cases q <;> cases rs <;> simp [eof, setq]
    · intro hlt
      have hne : q ++ rs ≠ [] := by
        intro h; rw [h] at hlt; exact absurd hlt (by simp)
      obtain ⟨t, q2, rs2, lj2, e1, e2, e3, e4⟩ := view_spec q rs lj lend hscan hf hne
      exact ⟨t, _, e2, by simp [eof, setq]⟩
  | succ n ih =>
    have hne : q ++ rs ≠ [] := by
      intro h; rw [h] at hk; exact absurd hk (by simp)
    obtain ⟨t, q2, rs2, lj2, e1, e2, e3, e4⟩ := view_spec q rs lj lend hscan hf hne
    have hk2 : n ≤ (q2 ++ rs2).length := by
      have := congrArg List.length e1
      simp only [List.cons_append, List.length_cons] at this
      omega
    obtain ⟨lk, p1, p2, p3⟩ := ih q2 rs2 lj2 e3 e4 hk2
    refine ⟨lk, ?_, ?_, ?_⟩
    · have hnext : (lj2.setq (t :: q2) (decide (rs2 = []))).next 1 =
          .ok (lj2.setq q2 (decide (rs2 = []))) := rfl
      simp only [pull, e2, hnext, p1, e1, List.cons_append, List.take_succ_cons]
    · rw [p2, e1]
      simp
    · intro hlt
      apply p3
      rw [e1] at hlt
      simpa using hlt

/-- The parser's pull loop delivers exactly the tokens that the scanner produces. -/
theorem pull_of_scan (l0 lend : Lexer) (ts : List Token)
    (hq : l0.tokenstream = []) (he : l0.is_eof = false)
    (hscan : l0.scan_n ts.length = .ok (ts, lend)) (hf : EndsAtFend ts)
    (k : Nat) (hk : k ≤ ts.length) :
    ∃ lk, pull k l0 = .ok (ts.take k, lk) ∧ lk.eof = decide (k = ts.length) ∧
      (k < ts.length → ∃ t l2, lk.view 0 = .ok (t, l2) ∧ l2.eof = false) := by
  have hts : ts ≠ [] := by rintro rfl; exact hf
  have h := pull_spec k [] ts l0 lend hscan (Or.inr hf) (by simpa using hk)
  have hl : l0.setq [] (decide (ts = [])) = l0 := by
    have : decide (ts = []) = false := by simp [hts]
    rw [this, ← hq, ← he]
    rfl
  rw [hl] at h
  simpa using h

end Lexer
end czh.lexer

/-! ### The cursor and the rest of the buffer -/

namespace czh.lexer
namespace Lexer

theorem rest_length_le (l : Lexer) : l.rest.length ≤ l.code.size := by
  simp [rest, NonStreamFile.size]

theorem rest_nil (l : Lexer) (h : l.rest = []) (s : Nat) : l.check_char s = false := by
  simp only [rest, List.drop_eq_nil_iff] at h
  simp only [check_char, NonStreamFile.check, decide_eq_false_iff_not]
  omega

theorem view_char_nat (l : Lexer) (s : Nat) : l.view_char (s : Int) = l.rest.getD s (Char.ofNat 0) := by
  simp only [view_char, NonStreamFile.view, rest]
  have : ((l.code.codepos : Int) + (s : Int)).toNat = l.code.codepos + s := by omega
  rw [this]
  simp [List.getD_eq_getElem?_getD, List.getElem?_drop]

theorem check_char_iff (l : Lexer) (s : Nat) : l.check_char s = decide (s < l.rest.length) := by
  simp only [check_char, NonStreamFile.check, rest, List.length_drop]
  congr 1
  apply propext
  omega

theorem next_char_rest (l : Lexer) (s : Nat) : (l.next_char s).rest = l.rest.drop s := by
  simp [rest, next_char, NonStreamFile.ignore, List.drop_drop, Nat.add_comm]

theorem next_char_next_char (l : Lexer) (a b : Nat) :
    (l.next_char a).next_char b = l.next_char (a + b) := by
  simp [next_char, NonStreamFile.ignore, Nat.add_assoc]

theorem next_char_zero (l : Lexer) : l.next_char 0 = l := rfl

theorem rest_cons (l : Lexer) (c : Char) (r : List Char) (h : l.rest = c :: r) :
    l.check_char 0 = true ∧ l.view_char 0 = c ∧ (l.next_char 1).rest = r ∧
    (l.next_char 1).view_char (-1) = c := by
  refine ⟨?_, ?_, ?_, ?_⟩
  · rw [check_char_iff, h]; simp
  · have := view_char_nat l 0
    simp only [Nat.cast_zero] at this
    rw [this, h]; rfl
  · rw [next_char_rest, h]; rfl
  · have h0 := view_char_nat l 0
    simp only [Nat.cast_zero] at h0
    have : (l.next_char 1).view_char (-1) = l.view_char 0 := by
      simp only [view_char, NonStreamFile.view, next_char, NonStreamFile.ignore]
      congr 1
      omega
    rw [this, h0, h]; rfl

end Lexer
end czh.lexer

/-! ### The scanner loops -/

namespace czh.lexer
namespace Lexer

theorem skip_space_none (fuel : Nat) (l : Lexer)
    (h : l.rest = [] ∨ ∃ c r, l.rest = c :: r ∧ isspace c = false) :
    skip_space fuel l = l := by
  cases fuel with
  | zero => rfl
  | succ n =>
    rcases h with h | ⟨c, r, h, hc⟩
    · simp [skip_space, rest_nil l h]
    · obtain ⟨h1, h2, _, _⟩ := rest_cons l c r h
      simp [skip_space, h1, h2, hc]


theorem id_loop_spec (name r : List Char) (l : Lexer) (temp : List Char) (fuel : Nat)
    (h : l.rest = name ++ r) (hn : ∀ c ∈ name, id_char c = true)
    (hr : r = [] ∨ ∃ c r2, r = c :: r2 ∧ id_char c = false) (hf : name.length ≤ fuel) :
    id_loop fuel l temp = (l.next_char name.length, temp ++ name) := by
  induction name generalizing l temp fuel with
  | nil =>
    simp only [List.nil_append] at h
    simp only [List.length_nil, next_char_zero, List.append_nil]
    cases fuel with
    | zero => rfl
    | succ n =>
      rcases hr with hr | ⟨c, r2, hr, hc⟩
      · rw [hr] at h
        simp [id_loop, rest_nil l h]
      · rw [hr] at h
        obtain ⟨h1, h2, _, _⟩ := rest_cons l c r2 h
        simp only [id_char] at hc
        simp [id_loop, h1, h2, hc]
  | cons a name ih =>
    cases fuel with
    | zero => simp at hf
    | succ n =>
      obtain ⟨h1, h2, h3, _⟩ := rest_cons l a (name ++ r) h
      have ha : id_char a = true := hn a (List.mem_cons_self _ _)
      simp only [id_char] at ha
      have hstep : id_loop (n + 1) l temp = id_loop n (l.next_char 1) (temp ++ [a]) := by
        simp only [id_loop, h1, h2, Bool.true_and, ha, if_true]
      rw [hstep, ih (l.next_char 1) (temp ++ [a]) n h3
        (fun c hc => hn c (List.mem_cons_of_mem _ hc)) (by simpa using hf)]
      simp [next_char_next_char, Nat.add_comm]

theorem number_loop_spec (ds r : List Char) (d : Char) (l : Lexer) (temp : List Char) (fuel : Nat)
    (h : l.rest = d :: ds ++ r) (hn : ∀ c ∈ ds, isnumber c = true)
    (hr : r = [] ∨ ∃ c r2, r = c :: r2 ∧ isnumber c = false) (hf : ds.length + 1 ≤ fuel) :
    number_loop fuel l temp = (l.next_char (ds.length + 1), temp ++ d :: ds) := by
  induction ds generalizing l temp fuel d with
  | nil =>
    cases fuel with
    | zero => simp at hf
    | succ n =>
      obtain ⟨h1, h2, h3, _⟩ := rest_cons l d r (by simpa using h)
      rcases hr with hr | ⟨c, r2, hr, hc⟩
      · rw [hr] at h3
        simp [number_loop, h2, rest_nil _ h3]
      · rw [hr] at h3
        obtain ⟨g1, g2, _, _⟩ := rest_cons _ c r2 h3
        simp [number_loop, h2, g1, g2, hc]
  | cons a ds ih =>
    cases fuel with
    | zero => simp at hf
    | succ n =>
      obtain ⟨h1, h2, h3, _⟩ := rest_cons l d (a :: ds ++ r) (by simpa using h)
      obtain ⟨g1, g2, _, _⟩ := rest_cons _ a (ds ++ r) (by simpa using h3)
      have ha : isnumber a = true := hn a (List.mem_cons_self _ _)
      have hstep : number_loop (n + 1) l temp = number_loop n (l.next_char 1) (temp ++ [d]) := by
        simp only [number_loop, h2, g1, g2, Bool.true_and, ha, if_true]
      rw [hstep, ih a (l.next_char 1) (temp ++ [d]) n (by simpa using h3)
        (fun c hc => hn c (List.mem_cons_of_mem _ hc)) (by simpa using hf)]
      simp [next_char_next_char, Nat.add_comm]

end Lexer
end czh.lexer

/-! ### Character classes -/

namespace czh.lexer

theorem char_le_iff (a b : Char) : a ≤ b ↔ a.toNat ≤ b.toNat := by
  rfl

theorem char_eq_iff (a b : Char) : a = b ↔ a.toNat = b.toNat := by
  constructor
  · intro h; rw [h]
  · intro h
    apply Char.ext
    apply UInt32.ext
    exact h

theorem isdigit_iff (c : Char) : isdigit c = true ↔ 48 ≤ c.toNat ∧ c.toNat ≤ 57 := by
  simp only [isdigit, Bool.and_eq_true, decide_eq_true_eq, char_le_iff]
  rfl

theorem isalpha_iff (c : Char) : isalpha c = true ↔
    (97 ≤ c.toNat ∧ c.toNat ≤ 122) ∨ (65 ≤ c.toNat ∧ c.toNat ≤ 90) := by
  simp only [isalpha, Bool.or_eq_true, Bool.and_eq_true, decide_eq_true_eq, char_le_iff]
  rfl

theorem isspace_iff (c : Char) : isspace c = true ↔
    c.toNat = 32 ∨ c.toNat = 9 ∨ c.toNat = 10 ∨ c.toNat = 11 ∨ c.toNat = 12 ∨ c.toNat = 13 := by
  simp only [isspace, Bool.or_eq_true, beq_iff_eq, char_eq_iff]
  have h1 : (' ' : Char).toNat = 32 := rfl
  have h2 : ('\t' : Char).toNat = 9 := rfl
  have h3 : ('\n' : Char).toNat = 10 := rfl
  have h4 : (Char.ofNat 11).toNat = 11 := rfl
  have h5 : (Char.ofNat 12).toNat = 12 := rfl
  have h6 : ('\r' : Char).toNat = 13 := rfl
  rw [h1, h2, h3, h4, h5, h6]
  tauto

theorem isalnum_iff (c : Char) : isalnum c = true ↔
    (97 ≤ c.toNat ∧ c.toNat ≤ 122) ∨ (65 ≤ c.toNat ∧ c.toNat ≤ 90) ∨
    (48 ≤ c.toNat ∧ c.toNat ≤ 57) := by
  simp only [isalnum, Bool.or_eq_true, isalpha_iff, isdigit_iff]
  tauto

theorem toNat_of_eq (c k : Char) (h : c = k) : c.toNat = k.toNat := by rw [h]

/-- What the scanner needs to know about the first character of an identifier. -/
theorem id_head_facts (a : Char) (h : isalpha a = true ∨ a = '_') :
    isspace a = false ∧ isdigit a = false ∧ a ≠ '.' ∧ a ≠ '+' ∧ a ≠ '-' ∧ a ≠ '"' ∧
    Lexer.id_char a = true := by
  have hn : (97 ≤ a.toNat ∧ a.toNat ≤ 122) ∨ (65 ≤ a.toNat ∧ a.toNat ≤ 90) ∨ a.toNat = 95 := by
    rcases h with h | h
    · rcases (isalpha_iff a).1 h with h | h
      · exact Or.inl h
      · exact Or.inr (Or.inl h)
    · exact Or.inr (Or.inr (toNat_of_eq a '_' h))
  have e1 : ('.' : Char).toNat = 46 := rfl
  have e2 : ('+' : Char).toNat = 43 := rfl
  have e3 : ('-' : Char).toNat = 45 := rfl
  have e4 : ('"' : Char).toNat = 34 := rfl
  have e5 : ('_' : Char).toNat = 95 := rfl
  refine ⟨?_, ?_, ?_, ?_, ?_, ?_, ?_⟩
  · rw [Bool.eq_false_iff]; intro hs; have := (isspace_iff a).1 hs; omega
  · rw [Bool.eq_false_iff]; intro hs; have := (isdigit_iff a).1 hs; omega
  · intro hs; have := toNat_of_eq _ _ hs; omega
  · intro hs; have := toNat_of_eq _ _ hs; omega
  · intro hs; have := toNat_of_eq _ _ hs; omega
  · intro hs; have := toNat_of_eq _ _ hs; omega
  · have hne : a ≠ '-' := by intro hs; have := toNat_of_eq _ _ hs; omega
    simp only [Lexer.id_char, Bool.and_eq_true, Bool.or_eq_true, beq_iff_eq, bne_iff_ne, ne_eq]
    refine ⟨?_, hne⟩
    rcases h with h | h
    · left; simp [isalnum, h]
    · right; exact h

theorem id_tail_facts (c : Char) (h : isalnum c = true ∨ c = '_') : Lexer.id_char c = true := by
  have e3 : ('-' : Char).toNat = 45 := rfl
  have e5 : ('_' : Char).toNat = 95 := rfl
  have hne : c ≠ '-' := by
    intro hs
    have := toNat_of_eq _ _ hs
    rcases h with h | h
    · have := (isalnum_iff c).1 h; omega
    · have := toNat_of_eq _ _ h; omega
  simp only [Lexer.id_char, Bool.and_eq_true, Bool.or_eq_true, beq_iff_eq, bne_iff_ne, ne_eq]
  exact ⟨h, hne⟩

namespace Lexer

theorem get_tok_ident (l : Lexer) (name r : List Char) (h : l.rest = name ++ r)
    (hid : Identifier name) (hr : r = [] ∨ ∃ c r2, r = c :: r2 ∧ id_char c = false)
    (hpp : l.parsing_path = false) :
    l.get_tok = .ok (⟨TokenType.ID, Value.str name, ⟨l.codepos.pos + name.length, name.length⟩⟩,
      l.next_char name.length) := by
  obtain ⟨⟨a, rn, rfl, ha, hrn⟩, hne1, hne2, hne3⟩ := hid
  obtain ⟨f1, f2, f3, f4, f5, f6, f7⟩ := id_head_facts a ha
  obtain ⟨h1, h2, _, _⟩ := rest_cons l a (rn ++ r) h
  have hskip : skip_space (l.code.size + 1) l = l :=
    skip_space_none _ l (Or.inr ⟨a, _, h, f1⟩)
  have hnum : l.is_num = false := by
    simp [is_num, hpp, h1, h2, f2, f3, f4, f5]
  have hstart : id_start l = (l, []) := by
    simp [id_start, hpp]
  have hlen : (a :: rn).length ≤ l.code.size + 1 := by
    have := rest_length_le l
    rw [h] at this
    simp only [List.length_append] at this
    omega
  have hloop := id_loop_spec (a :: rn) r l [] (l.code.size + 1) h
    (by
      intro c hc
      rcases List.mem_cons.1 hc with rfl | hc
      · exact f7
      · exact id_tail_facts c (hrn c hc)) hr hlen
  have halpha : (isalpha a || a == '_') = true := by
    rcases ha with ha | ha <;> simp [ha]
  unfold get_tok
  rw [hskip]
  unfold dispatch
  rw [if_neg (by simp [hnum])]
  rw [if_neg (by simp [h1, h2, f6])]
  rw [if_pos (by simp [h1, h2, halpha])]
  unfold id_branch
  rw [hstart]
  simp only [hloop, List.nil_append]
  have g1 : a :: rn ≠ ['e', 'n', 'd'] := hne1
  have g2 : a :: rn ≠ ['t', 'r', 'u', 'e'] := hne2
  have g3 : a :: rn ≠ ['f', 'a', 'l', 's', 'e'] := hne3
  rw [if_neg g1, if_neg g2, if_neg g3]
  rfl

end Lexer
end czh.lexer

/-! ### Punctuation and end of input -/

namespace czh.lexer

theorem marks_facts (c : Char) (ty : TokenType) (hm : marks c = some ty) (hc : c ≠ '-') :
    isspace c = false ∧ isdigit c = false ∧ c ≠ '.' ∧ c ≠ '+' ∧ c ≠ '"' ∧ isalpha c = false ∧
    c ≠ '_' ∧ ty ≠ TokenType.BPATH ∧ ty ≠ TokenType.FEND ∧ ty ≠ TokenType.NOTE := by
  unfold marks at hm
  split_ifs at hm with h1 h2 h3 h4 h5 h6
  all_goals first
    | (exact absurd h5 hc)
    | (subst_vars; cases hm; decide)

namespace Lexer

theorem get_tok_mark (l : Lexer) (c : Char) (r : List Char) (ty : TokenType)
    (h : l.rest = c :: r) (hm : marks c = some ty) (hc : c ≠ '-')
    (hpp : l.parsing_path = false) :
    l.get_tok = .ok (⟨ty, Value.char c, ⟨l.codepos.pos + 1, 1⟩⟩, l.next_char 1) := by
  obtain ⟨f1, f2, f3, f4, f5, f6, f7, f8, f9, _⟩ := marks_facts c ty hm hc
  obtain ⟨h1, h2, h3, h4⟩ := rest_cons l c r h
  have hskip : skip_space (l.code.size + 1) l = l :=
    skip_space_none _ l (Or.inr ⟨c, _, h, f1⟩)
  have hnum : l.is_num = false := by
    simp [is_num, hpp, h1, h2, f2, f3, f4, hc]
  unfold get_tok
  rw [hskip]
  unfold dispatch
  rw [if_neg (by simp [hnum])]
  rw [if_neg (by simp [h1, h2, f5])]
  rw [if_neg (by simp [h1, h2, f6, f7, hpp])]
  rw [if_pos (by simp [h1, h2, hm])]
  unfold mark_branch
  simp only [h4, hm, f8, if_false]
  have hp1 : (l.next_char 1).parsing_path = false := hpp
  simp only [hp1, Bool.false_and, if_false]
  obtain ⟨code, q, m, nm, cp, pp, e⟩ := l
  simp only at hpp
  subst hpp
  rfl

theorem get_tok_fend (l : Lexer) (h : l.rest = []) :
    l.get_tok = .ok (⟨TokenType.FEND, Value.int 0, ⟨l.codepos.pos, 0⟩⟩, l) := by
  have hskip : skip_space (l.code.size + 1) l = l := skip_space_none _ l (Or.inl h)
  have h0 := rest_nil l h 0
  have h2 := rest_nil l h 2
  unfold get_tok
  rw [hskip]
  unfold dispatch
  rw [if_neg (by simp [is_num, h0])]
  rw [if_neg (by simp [h0])]
  rw [if_neg (by simp [h0])]
  rw [if_neg (by simp [h0])]
  rw [if_neg (by simp [h2])]
  rw [if_pos (by simp [h0])]
  rfl

end Lexer
end czh.lexer

/-! ### Integer lexemes -/

namespace czh.lexer

theorem digit_facts (d : Char) (h : isdigit d = true) :
    isspace d = false ∧ d ≠ '-' ∧ d ≠ '+' ∧ isnumber d = true := by
  have hn := (isdigit_iff d).1 h
  have e2 : ('+' : Char).toNat = 43 := rfl
  have e3 : ('-' : Char).toNat = 45 := rfl
  refine ⟨?_, ?_, ?_, ?_⟩
  · rw [Bool.eq_false_iff]; intro hs; have := (isspace_iff d).1 hs; omega
  · intro hs; have := toNat_of_eq _ _ hs; omega
  · intro hs; have := toNat_of_eq _ _ hs; omega
  · simp [isnumber, h]

theorem round_double_exact (m : Nat) (h : m < 2 ^ 53) : round_double m 1 = (m, 1) := by
  unfold round_double
  by_cases h0 : m = 0
  · subst h0
    rw [if_pos (Or.inl rfl)]
  · rw [if_neg (by omega), if_pos ⟨Nat.mod_one m, by rw [Nat.div_one]; exact h⟩, Nat.div_one]

theorem str_to_double_digits (ds : List Char) (hd : Digits ds) (h : digits_val ds < 2 ^ 53) :
    str_to_double ds = ⟨false, digits_val ds, 1⟩ := by
  obtain ⟨hne, hall⟩ := hd
  cases ds with
  | nil => exact absurd rfl hne
  | cons d ds2 =>
    obtain ⟨_, f2, f3, _⟩ := digit_facts d (hall d (List.mem_cons_self _ _))
    have htake : List.takeWhile isdigit (d :: ds2) = d :: ds2 :=
      List.takeWhile_eq_self_iff.2 hall
    have hdrop : List.dropWhile isdigit (d :: ds2) = [] :=
      List.dropWhile_eq_nil_iff.2 hall
    unfold str_to_double
    dsimp only
    split
    · rename_i heq; exact absurd (List.cons.inj heq).1 f2
    · rename_i heq; exact absurd (List.cons.inj heq).1 f3
    · simp only [htake, hdrop]
      have e0 : digits_val (List.takeWhile isdigit []) = 0 := rfl
      simp only [e0, pow_zero, mul_one, Bool.false_eq_true, if_false]
      rw [round_double_exact _ h]

namespace Lexer

theorem nmatch_digits (ds : List Char) (hd : Digits ds) :
    NumberMatch.init.match_ ds = (true, ⟨NumberMatch.State.END, false⟩) := by
  have h1 := NumberMatch.match_loop_digits_from ds hd NumberMatch.State.INIT false rfl
  exact NumberMatch.match_of_loop _ _ _ h1 (Or.inl rfl)

theorem get_tok_int (l : Lexer) (ds r : List Char) (h : l.rest = ds ++ r) (hd : Digits ds)
    (hr : r = [] ∨ ∃ c r2, r = c :: r2 ∧ isnumber c = false)
    (hv : digits_val ds < 2 ^ 31 - 1)
    (hpp : l.parsing_path = false) (hnm : l.nmatch = NumberMatch.init) :
    l.get_tok = .ok (⟨TokenType.INT, Value.int (digits_val ds),
      ⟨l.codepos.pos + ds.length, ds.length⟩⟩, l.next_char ds.length) := by
  have hd0 := hd
  obtain ⟨hne, hall⟩ := hd
  cases ds with
  | nil => exact absurd rfl hne
  | cons d ds2 =>
    obtain ⟨f1, f2, f3, f4⟩ := digit_facts d (hall d (List.mem_cons_self _ _))
    have fd : isdigit d = true := hall d (List.mem_cons_self _ _)
    obtain ⟨h1, h2, _, _⟩ := rest_cons l d (ds2 ++ r) h
    have hskip : skip_space (l.code.size + 1) l = l :=
      skip_space_none _ l (Or.inr ⟨d, _, h, f1⟩)
    have hnum : l.is_num = true := by
      simp [is_num, hpp, h1, h2, fd, f2]
    have hlen : ds2.length + 1 ≤ l.code.size + 1 := by
      have := rest_length_le l
      rw [h] at this
      simp only [List.length_append, List.length_cons] at this
      omega
    have hloop := number_loop_spec ds2 r d l [] (l.code.size + 1) h
      (fun c hc => (digit_facts c (hall c (List.mem_cons_of_mem _ hc))).2.2.2) hr hlen
    have hstr := str_to_double_digits (d :: ds2) hd0 (by omega)
    have hnm2 : (l.next_char (ds2.length + 1)).nmatch = NumberMatch.init := hnm
    unfold get_tok
    rw [hskip]
    unfold dispatch
    rw [if_pos hnum]
    unfold number_branch
    simp only [hloop, List.nil_append, hnm2, nmatch_digits (d :: ds2) hd0, if_true, hstr]
    have hlt : (Dbl.mk false (digits_val (d :: ds2)) 1).lt_int_max = true := by
      simp only [Dbl.lt_int_max, Bool.false_eq_true, if_false, decide_eq_true_eq]
      omega
    have hint : (Dbl.mk false (digits_val (d :: ds2)) 1).to_int = (digits_val (d :: ds2) : Int) := by
      simp only [Dbl.to_int, Dbl.trunc, Bool.false_eq_true, if_false, Nat.div_one]
      rw [if_pos]
      constructor <;> omega
    rw [hlt, hint]
    simp only [NumberMatch.is_double, Bool.false_eq_true, if_false, if_true]
    obtain ⟨code, q, m, nm, cp, pp, e⟩ := l
    simp only at hnm
    subst hnm
    rfl

end Lexer
end czh.lexer

/-! ### Chaining scans -/

namespace czh.lexer

theorem checkstep_of (s : State) (ty : TokenType) (s2 : State)
    (h : ∀ (code : NonStreamFile) (q : List Token) (nm : NumberMatch) (cp : Pos) (pp e : Bool)
      (w : Value) (p : Pos),
      (Lexer.mk code q ⟨s, State.UNEXPECTED⟩ nm cp pp e).check_token ⟨ty, w, p⟩ =
        .ok (Lexer.mk code q ⟨s2, State.UNEXPECTED⟩ nm cp pp e)) :
    CheckStep s ty s2 := by
  intro l tok hm ht
  obtain ⟨code, q, m, nm, cp, pp, e⟩ := l
  obtain ⟨ty2, w, p⟩ := tok
  simp only at hm ht
  subst hm ht
  exact h code q nm cp pp e w p

theorem step_init_id : CheckStep State.INIT TokenType.ID State.ID :=
  checkstep_of _ _ _ (fun _ _ _ _ _ _ _ _ => rfl)
theorem step_id_equal : CheckStep State.ID TokenType.EQUAL State.EQUAL :=
  checkstep_of _ _ _ (fun _ _ _ _ _ _ _ _ => rfl)
theorem step_equal_int : CheckStep State.EQUAL TokenType.INT State.END :=
  checkstep_of _ _ _ (fun _ _ _ _ _ _ _ _ => rfl)
theorem step_end_send : CheckStep State.END TokenType.SEND State.INIT :=
  checkstep_of _ _ _ (fun _ _ _ _ _ _ _ _ => rfl)
theorem step_equal_lp : CheckStep State.EQUAL TokenType.ARR_LP State.ARR_LP :=
  checkstep_of _ _ _ (fun _ _ _ _ _ _ _ _ => rfl)
theorem step_lp_int : CheckStep State.ARR_LP TokenType.INT State.ARR_VALUE :=
  checkstep_of _ _ _ (fun _ _ _ _ _ _ _ _ => rfl)
theorem step_value_comma : CheckStep State.ARR_VALUE TokenType.COMMA State.COMMA :=
  checkstep_of _ _ _ (fun _ _ _ _ _ _ _ _ => rfl)
theorem step_comma_int : CheckStep State.COMMA TokenType.INT State.ARR_VALUE :=
  checkstep_of _ _ _ (fun _ _ _ _ _ _ _ _ => rfl)
theorem step_value_rp : CheckStep State.ARR_VALUE TokenType.ARR_RP State.END :=
  checkstep_of _ _ _ (fun _ _ _ _ _ _ _ _ => rfl)

namespace Lexer

theorem scans_nil (l : Lexer) : ScansTo l [] l := ⟨[], rfl, rfl⟩

theorem scans_cons (l l1 l2 : Lexer) (t : Token) (kvs : List (TokenType × Value))
    (h : l.scan = .ok (t, l1)) (h2 : ScansTo l1 kvs l2) : ScansTo l (t.kv :: kvs) l2 := by
  obtain ⟨ts, e1, e2⟩ := h2
  refine ⟨t :: ts, ?_, by simp [e2]⟩
  simp only [List.length_cons, scan_n, h, e1]

theorem scans_append (l l1 l2 : Lexer) (a b : List (TokenType × Value))
    (h1 : ScansTo l a l1) (h2 : ScansTo l1 b l2) : ScansTo l (a ++ b) l2 := by
  obtain ⟨ts, e1, e2⟩ := h1
  induction ts generalizing l a with
  | nil =>
    simp only [List.length_nil, scan_n] at e1
    have := (Prod.mk.inj (Except.ok.inj e1)).2
    subst this
    simp only [List.map_nil] at e2
    subst e2
    exact h2
  | cons t ts ih =>
    simp only [List.length_cons, scan_n] at e1
    rcases hs : l.scan with e | ⟨t1, la⟩
    · rw [hs] at e1; cases e1
    · rw [hs] at e1
      simp only at e1
      rcases hs2 : la.scan_n ts.length with e | ⟨ts2, lb⟩
      · rw [hs2] at e1; cases e1
      · rw [hs2] at e1
        simp only at e1
        have hinj := Prod.mk.inj (Except.ok.inj e1)
        have ht : t1 = t := (List.cons.inj hinj.1).1
        have hts : ts2 = ts := (List.cons.inj hinj.1).2
        have hl : lb = l1 := hinj.2
        subst ht hts hl
        have := ih la (ts2.map Token.kv) hs2 rfl
        have h3 := scans_cons l la l2 t1 _ hs this
        rw [← e2]
        simpa using h3

theorem scan_of (l l1 : Lexer) (tok : Token) (s s2 : State) (ty : TokenType)
    (hg : l.get_tok = .ok (tok, l1)) (hm : l1.mtch = ⟨s, State.UNEXPECTED⟩)
    (ht : tok.type = ty) (hc : CheckStep s ty s2) :
    l.scan = .ok (tok, { l1 with mtch := ⟨s2, State.UNEXPECTED⟩ }) := by
  simp only [scan, hg, hc l1 tok hm ht]

theorem at_next (l : Lexer) (n : Nat) (r r2 : List Char) (s s2 : State) (h : l.At r s)
    (hr : r.drop n = r2) :
    At { l.next_char n with mtch := ⟨s2, State.UNEXPECTED⟩ } r2 s2 := by
  obtain ⟨h1, h2, h3, h4⟩ := h
  refine ⟨?_, rfl, h3, h4⟩
  have := next_char_rest l n
  rw [h1, hr] at this
  exact this

theorem scan_ident (l : Lexer) (name r : List Char) (s s2 : State)
    (h : l.At (name ++ r) s) (hid : Identifier name)
    (hr : r = [] ∨ ∃ c r2, r = c :: r2 ∧ id_char c = false)
    (hc : CheckStep s TokenType.ID s2) :
    ∃ l2, ScansTo l [(TokenType.ID, Value.str name)] l2 ∧ l2.At r s2 := by
  have hg := get_tok_ident l name r h.1 hid hr h.2.2.1
  have hs := scan_of l _ _ s s2 TokenType.ID hg h.2.1 rfl hc
  exact ⟨_, scans_cons _ _ _ _ _ hs (scans_nil _), at_next l name.length _ r s s2 h (by simp)⟩

theorem scan_mark (l : Lexer) (c : Char) (r : List Char) (ty : TokenType) (s s2 : State)
    (h : l.At (c :: r) s) (hm : marks c = some ty) (hne : c ≠ '-')
    (hc : CheckStep s ty s2) :
    ∃ l2, ScansTo l [(ty, Value.char c)] l2 ∧ l2.At r s2 := by
  have hg := get_tok_mark l c r ty h.1 hm hne h.2.2.1
  have hs := scan_of l _ _ s s2 ty hg h.2.1 rfl hc
  exact ⟨_, scans_cons _ _ _ _ _ hs (scans_nil _), at_next l 1 _ r s s2 h (by simp)⟩

theorem scan_int (l : Lexer) (ds r : List Char) (s s2 : State)
    (h : l.At (ds ++ r) s) (hd : Digits ds)
    (hr : r = [] ∨ ∃ c r2, r = c :: r2 ∧ isnumber c = false)
    (hv : digits_val ds < 2 ^ 31 - 1)
    (hc : CheckStep s TokenType.INT s2) :
    ∃ l2, ScansTo l [(TokenType.INT, Value.int (digits_val ds))] l2 ∧ l2.At r s2 := by
  have hg := get_tok_int l ds r h.1 hd hr hv h.2.2.1 h.2.2.2
  have hs := scan_of l _ _ s s2 TokenType.INT hg h.2.1 rfl hc
  exact ⟨_, scans_cons _ _ _ _ _ hs (scans_nil _), at_next l ds.length _ r s s2 h (by simp)⟩

theorem check_token_fend (l : Lexer) (tok : Token) (ht : tok.type = TokenType.FEND)
    (hs : l.mtch.state = State.END ∨ l.mtch.state = State.INIT) :
    l.check_token tok = .ok l := by
  simp only [check_token, ht, if_true, Match.get_state, hs]

theorem scan_fend (l : Lexer) (s : State) (h : l.At [] s)
    (hs : s = State.END ∨ s = State.INIT) :
    ScansTo l [(TokenType.FEND, Value.int 0)] l := by
  have hg := get_tok_fend l h.1
  have hst : l.mtch.state = State.END ∨ l.mtch.state = State.INIT := by
    rw [h.2.1]; exact hs
  have hsc : l.scan = .ok (⟨TokenType.FEND, Value.int 0, ⟨l.codepos.pos, 0⟩⟩, l) := by
    have hck := check_token_fend l ⟨TokenType.FEND, Value.int 0, ⟨l.codepos.pos, 0⟩⟩ rfl hst
    simp only [scan, hg, hck]
  exact scans_cons _ _ _ _ _ hsc (scans_nil _)

theorem ends_of_kv (kvs : List (TokenType × Value)) (v : Value) (ts : List Token)
    (h : ts.map Token.kv = kvs ++ [(TokenType.FEND, v)])
    (hk : ∀ p ∈ kvs, p.1 ≠ TokenType.FEND) : EndsAtFend ts := by
  induction kvs generalizing ts with
  | nil =>
    cases ts with
    | nil => simp at h
    | cons t ts2 =>
      cases ts2 with
      | nil =>
        have : t.kv = (TokenType.FEND, v) := by simpa using h
        exact congrArg Prod.fst this
      | cons t2 ts3 => simp at h
  | cons p kvs ih =>
    cases ts with
    | nil => simp at h
    | cons t ts2 =>
      simp only [List.map_cons, List.cons_append, List.cons.injEq] at h
      have h1 : t.type ≠ TokenType.FEND := by
        have := hk p (List.mem_cons_self _ _)
        rw [← h.1] at this
        exact this
      have h2 := ih ts2 h.2 (fun p hp => hk p (List.mem_cons_of_mem _ hp))
      cases ts2 with
      | nil => exact absurd h2 (by simp [EndsAtFend])
      | cons t2 ts3 => exact ⟨h1, h2⟩

end Lexer
end czh.lexer

/-! ### End to end: assignments and arrays -/

namespace czh.lexer
namespace Lexer

theorem at_init (code : List Char) : (Lexer.init code).At code State.INIT :=
  ⟨rfl, rfl, rfl, rfl⟩

/-- What the parser's pull loop delivers when scanning yields tokens `kvs ++ [FEND]`. -/
theorem pull_of_scans (code : List Char) (kvs : List (TokenType × Value)) (v : Value)
    (lend : Lexer)
    (h : ScansTo (Lexer.init code) (kvs ++ [(TokenType.FEND, v)]) lend)
    (hk : ∀ p ∈ kvs, p.1 ≠ TokenType.FEND) (k : Nat) (hle : k ≤ kvs.length + 1) :
    ∃ ts lk, (Lexer.init code).pull k = .ok (ts, lk) ∧
      ts.map Token.kv = (kvs ++ [(TokenType.FEND, v)]).take k ∧
      lk.eof = decide (k = kvs.length + 1) ∧
      (k < kvs.length + 1 → ∃ t l2, lk.view 0 = .ok (t, l2) ∧ l2.eof = false) := by
  obtain ⟨ts, e1, e2⟩ := h
  have hf := ends_of_kv kvs v ts e2 hk
  have hlen : ts.length = kvs.length + 1 := by
    have := congrArg List.length e2
    simpa using this
  obtain ⟨lk, p1, p2, p3⟩ := pull_of_scan (Lexer.init code) lend ts rfl rfl e1 hf k (by omega)
  refine ⟨ts.take k, lk, p1, ?_, ?_, ?_⟩
  · rw [← e2, List.map_take]
  · rw [p2, hlen]
  · intro hlt; exact p3 (by omega)

end Lexer

/-- C1. For every input `<name>=<digits>;` whose name is an identifier other than
`end`, `true`, `false` and whose digits denote a value below `2^31 - 1`, and for every
`k ≤ 5`, `k` rounds of `peek(0)`, `consume(1)` raise no error and deliver the first `k`
of Identifier(name), Equal, Int(value), StatementEnd, FileEnd; `at_end()` is then true
exactly when `k = 5`, and it is false after the next `peek(0)` as long as `k < 5`. -/
theorem lex_assignment (name digits : List Char) (hn : Identifier name) (hd : Digits digits)
    (hv : digits_val digits < 2 ^ 31 - 1) (k : Nat) (hk : k ≤ 5) :
    ∃ ts lk, (Lexer.init (name ++ '=' :: (digits ++ [';']))).pull k = .ok (ts, lk) ∧
      ts.map Token.kv =
        ([(TokenType.ID, Value.str name), (TokenType.EQUAL, Value.char '='),
          (TokenType.INT, Value.int (digits_val digits)), (TokenType.SEND, Value.char ';'),
          (TokenType.FEND, Value.int 0)]).take k ∧
      lk.eof = decide (k = 5) ∧
      (k < 5 → ∃ t l2, lk.view 0 = .ok (t, l2) ∧ l2.eof = false) := by
  have h0 := Lexer.at_init (name ++ '=' :: (digits ++ [';']))
  obtain ⟨l1, s1, a1⟩ := Lexer.scan_ident _ name _ _ _ h0 hn
    (Or.inr ⟨'=', _, rfl, by decide⟩) step_init_id
  obtain ⟨l2, s2, a2⟩ := Lexer.scan_mark l1 '=' _ TokenType.EQUAL _ _ a1 rfl (by decide)
    step_id_equal
  obtain ⟨l3, s3, a3⟩ := Lexer.scan_int l2 digits [';'] _ _ a2 hd
    (Or.inr ⟨';', _, rfl, by decide⟩) hv step_equal_int
  obtain ⟨l4, s4, a4⟩ := Lexer.scan_mark l3 ';' [] TokenType.SEND _ _ a3 rfl (by decide)
    step_end_send
  have s5 := Lexer.scan_fend l4 _ a4 (Or.inr rfl)
  have hall := Lexer.scans_append _ _ _ _ _ s1
    (Lexer.scans_append _ _ _ _ _ s2
      (Lexer.scans_append _ _ _ _ _ s3 (Lexer.scans_append _ _ _ _ _ s4 s5)))
  exact Lexer.pull_of_scans _
    [(TokenType.ID, Value.str name), (TokenType.EQUAL, Value.char '='),
      (TokenType.INT, Value.int (digits_val digits)), (TokenType.SEND, Value.char ';')]
    (Value.int 0) l4 hall
    (by
      intro p hp
      simp only [List.mem_cons, List.mem_singleton, List.not_mem_nil, or_false] at hp
      rcases hp with rfl | rfl | rfl | rfl <;> exact fun h => TokenType.noConfusion h) k hk

/-- C1 at the input `foo=1;`. -/
theorem lex_assignment_witness :
    ∃ ts lk, (Lexer.init "foo=1;".toList).pull 5 = .ok (ts, lk) ∧
      ts.map Token.kv =
        [(TokenType.ID, Value.str "foo".toList), (TokenType.EQUAL, Value.char '='),
          (TokenType.INT, Value.int 1), (TokenType.SEND, Value.char ';'),
          (TokenType.FEND, Value.int 0)] ∧
      lk.eof = true ∧
      (5 < 5 → ∃ t l2, lk.view 0 = .ok (t, l2) ∧ l2.eof = false) :=
  lex_assignment "foo".toList "1".toList
    ⟨⟨'f', "oo".toList, rfl, Or.inl (by decide), by decide⟩, by decide, by decide, by decide⟩
    ⟨by decide, by decide⟩ (by decide) 5 (Nat.le_refl 5)


theorem arr_tokens_not_fend (vs : List (List Char)) :
    ∀ p ∈ arr_tokens vs, p.1 ≠ TokenType.FEND := by
  induction vs with
  | nil => intro p hp; simp [arr_tokens] at hp
  | cons d ds ih =>
    intro p hp
    cases ds with
    | nil =>
      simp only [arr_tokens, List.mem_singleton] at hp
      subst hp
      exact fun h => TokenType.noConfusion h
    | cons d2 ds2 =>
      simp only [arr_tokens, List.mem_cons] at hp
      rcases hp with rfl | rfl | hp
      · exact fun h => TokenType.noConfusion h
      · exact fun h => TokenType.noConfusion h
      · exact ih p (by simpa [arr_tokens] using hp)

theorem scan_elems (vs : List (List Char)) (hne : vs ≠ [])
    (hv : ∀ d ∈ vs, Digits d ∧ digits_val d < 2 ^ 31 - 1) (r : List Char) (l : Lexer) (s : State)
    (hs : s = State.ARR_LP ∨ s = State.COMMA) (h : l.At (arr_body vs ++ ']' :: r) s) :
    ∃ l2, l.ScansTo (arr_tokens vs) l2 ∧ l2.At (']' :: r) State.ARR_VALUE := by
  have hstep : CheckStep s TokenType.INT State.ARR_VALUE := by
    rcases hs with rfl | rfl
    · exact step_lp_int
    · exact step_comma_int
  induction vs generalizing l s with
  | nil => exact absurd rfl hne
  | cons d ds ih =>
    obtain ⟨hd, hval⟩ := hv d (List.mem_cons_self _ _)
    cases ds with
    | nil =>
      simp only [arr_body] at h
      exact Lexer.scan_int l d (']' :: r) s _ h hd (Or.inr ⟨']', _, rfl, by decide⟩) hval hstep
    | cons d2 ds2 =>
      have hb : arr_body (d :: d2 :: ds2) ++ ']' :: r =
          d ++ ',' :: (arr_body (d2 :: ds2) ++ ']' :: r) := by
        simp [arr_body]
      rw [hb] at h
      obtain ⟨l1, s1, a1⟩ := Lexer.scan_int l d _ s _ h hd
        (Or.inr ⟨',', _, rfl, by decide⟩) hval hstep
      obtain ⟨l2, s2, a2⟩ := Lexer.scan_mark l1 ',' _ TokenType.COMMA _ _ a1 rfl (by decide)
        step_value_comma
      obtain ⟨l3, s3, a3⟩ := ih (by simp)
        (fun x hx => hv x (List.mem_cons_of_mem _ hx)) l2 State.COMMA (Or.inr rfl) a2
        step_comma_int
      refine ⟨l3, ?_, a3⟩
      have := Lexer.scans_append _ _ _ _ _ s1 (Lexer.scans_append _ _ _ _ _ s2 s3)
      simpa [arr_tokens] using this

/-- C2. For every input `<name>=[v1,...,vn];` with `n ≥ 1` runs of digits whose values
are below `2^31 - 1`, the rounds of `peek(0)`, `consume(1)` raise no error and deliver
Identifier(name), Equal, ArrayOpen, Int(v1), Comma, ..., Int(vn), ArrayClose,
StatementEnd, FileEnd, in that order. -/
theorem lex_array (name : List Char) (vs : List (List Char)) (hn : Identifier name)
    (hne : vs ≠ []) (hv : ∀ d ∈ vs, Digits d ∧ digits_val d < 2 ^ 31 - 1) :
    Lexer.delivered ((arr_tokens vs).length + 6)
        (name ++ '=' :: '[' :: (arr_body vs ++ [']', ';'])) =
      .ok ([(TokenType.ID, Value.str name), (TokenType.EQUAL, Value.char '='),
            (TokenType.ARR_LP, Value.char '[')] ++ arr_tokens vs ++
           [(TokenType.ARR_RP, Value.char ']'), (TokenType.SEND, Value.char ';'),
            (TokenType.FEND, Value.int 0)]) := by
  have h0 := Lexer.at_init (name ++ '=' :: '[' :: (arr_body vs ++ [']', ';']))
  obtain ⟨l1, s1, a1⟩ := Lexer.scan_ident _ name _ _ _ h0 hn
    (Or.inr ⟨'=', _, rfl, by decide⟩) step_init_id
  obtain ⟨l2, s2, a2⟩ := Lexer.scan_mark l1 '=' _ TokenType.EQUAL _ _ a1 rfl (by decide)
    step_id_equal
  obtain ⟨l3, s3, a3⟩ := Lexer.scan_mark l2 '[' _ TokenType.ARR_LP _ _ a2 rfl (by decide)
    step_equal_lp
  obtain ⟨l4, s4, a4⟩ := scan_elems vs hne hv [';'] l3 State.ARR_LP (Or.inl rfl) a3
  obtain ⟨l5, s5, a5⟩ := Lexer.scan_mark l4 ']' _ TokenType.ARR_RP _ _ a4 rfl (by decide)
    step_value_rp
  obtain ⟨l6, s6, a6⟩ := Lexer.scan_mark l5 ';' [] TokenType.SEND _ _ a5 rfl (by decide)
    step_end_send
  have s7 := Lexer.scan_fend l6 _ a6 (Or.inr rfl)
  have hall := Lexer.scans_append _ _ _ _ _ s1
    (Lexer.scans_append _ _ _ _ _ s2
      (Lexer.scans_append _ _ _ _ _ s3
        (Lexer.scans_append _ _ _ _ _ s4
          (Lexer.scans_append _ _ _ _ _ s5 (Lexer.scans_append _ _ _ _ _ s6 s7)))))
  have hkv : ∀ p ∈ [(TokenType.ID, Value.str name), (TokenType.EQUAL, Value.char '='),
      (TokenType.ARR_LP, Value.char '[')] ++ arr_tokens vs ++
      [(TokenType.ARR_RP, Value.char ']'), (TokenType.SEND, Value.char ';')],
      p.1 ≠ TokenType.FEND := by
    intro p hp
    simp only [List.mem_append, List.mem_cons, List.mem_singleton, List.not_mem_nil,
      or_false] at hp
    rcases hp with ((rfl | rfl | rfl) | hp) | (rfl | rfl)
    · exact fun h => TokenType.noConfusion h
    · exact fun h => TokenType.noConfusion h
    · exact fun h => TokenType.noConfusion h
    · exact arr_tokens_not_fend vs p hp
    · exact fun h => TokenType.noConfusion h
    · exact fun h => TokenType.noConfusion h
  have hall2 : (Lexer.init (name ++ '=' :: '[' :: (arr_body vs ++ [']', ';']))).ScansTo
      (([(TokenType.ID, Value.str name), (TokenType.EQUAL, Value.char '='),
        (TokenType.ARR_LP, Value.char '[')] ++ arr_tokens vs ++
        [(TokenType.ARR_RP, Value.char ']'), (TokenType.SEND, Value.char ';')]) ++
        [(TokenType.FEND, Value.int 0)]) l6 := by
    simpa using hall
  obtain ⟨ts, lk, p1, p2, _, _⟩ := Lexer.pull_of_scans _ _ (Value.int 0) l6 hall2 hkv
    ((arr_tokens vs).length + 6) (by simp)
  unfold Lexer.delivered
  rw [p1]
  simp only
  rw [p2, List.take_of_length_le (by simp)]
  simp

/-- C2 at the input `foo=[1,2,3];`. -/
theorem lex_array_witness :
    Lexer.delivered 11 "foo=[1,2,3];".toList =
      .ok [(TokenType.ID, Value.str "foo".toList), (TokenType.EQUAL, Value.char '='),
           (TokenType.ARR_LP, Value.char '['), (TokenType.INT, Value.int 1),
           (TokenType.COMMA, Value.char ','), (TokenType.INT, Value.int 2),
           (TokenType.COMMA, Value.char ','), (TokenType.INT, Value.int 3),
           (TokenType.ARR_RP, Value.char ']'), (TokenType.SEND, Value.char ';'),
           (TokenType.FEND, Value.int 0)] :=
  lex_array "foo".toList ["1".toList, "2".toList, "3".toList]
    ⟨⟨'f', "oo".toList, rfl, Or.inl (by decide), by decide⟩, by decide, by decide, by decide⟩
    (by decide) (by decide)

end czh.lexer

/-! ### End to end: concrete inputs -/

namespace czh.lexer

/-- C3. The input `foo=-a-b:c;` is delivered as Identifier(foo), Equal, PathDash,
Identifier(a), PathDash, Identifier(b), Colon, Identifier(c), StatementEnd, FileEnd without
an error; the scanner's `parsing_path` flag is false at the start and after `foo` and `=`,
true after the first `-` and until the `:` is scanned, and false from the `:` onwards. -/
theorem lex_path_expression :
    Lexer.delivered 10 "foo=-a-b:c;".toList =
      .ok [(TokenType.ID, Value.str "foo".toList), (TokenType.EQUAL, Value.char '='),
           (TokenType.BPATH, Value.char '-'), (TokenType.ID, Value.str "a".toList),
           (TokenType.BPATH, Value.char '-'), (TokenType.ID, Value.str "b".toList),
           (TokenType.COLON, Value.char ':'), (TokenType.ID, Value.str "c".toList),
           (TokenType.SEND, Value.char ';'), (TokenType.FEND, Value.int 0)] ∧
    (Lexer.init "foo=-a-b:c;".toList).parsing_path = false ∧
    (Lexer.init "foo=-a-b:c;".toList).scan_flags 10 =
      .ok [(TokenType.ID, Value.str "foo".toList, false), (TokenType.EQUAL, Value.char '=', false),
           (TokenType.BPATH, Value.char '-', true), (TokenType.ID, Value.str "a".toList, true),
           (TokenType.BPATH, Value.char '-', true), (TokenType.ID, Value.str "b".toList, true),
           (TokenType.COLON, Value.char ':', false), (TokenType.ID, Value.str "c".toList, false),
           (TokenType.SEND, Value.char ';', false), (TokenType.FEND, Value.int 0, false)] := by
  refine ⟨by rfl, rfl, by rfl⟩

/-- Claim C7, which the code does not meet.  `Match::match` leaves the machine as
it is on a `NOTE` token, but `Lexer::check_token` does not: in state `END` it first
feeds the synthetic `SEND`, because a `NOTE` is not a `SEND`.  So the accepted
tokens of `foo=1;` are rejected once a `NOTE` stands between the value and the
`;`: with the statement on line 3, where the error can be rendered, the text
`foo=1;` is accepted and the text `foo=1 /b/x/e/ ;` fails at the `;` with the
hint `identifier`; on line 1 `foo=1;` is accepted and `foo=1 /b/x/e/ ;` is not
(there `Token::error` is entered and the rendering of its snippet is undefined,
which the model reports as `out_of_bounds`). -/
theorem note_after_statement_rejected :
    (∀ m : Match, m.match_ TokenType.NOTE = .ok m) ∧
    (∃ l, (Lexer.init "\n\nfoo=1;".toList).check_tokens
      [⟨TokenType.ID, Value.str "foo".toList, ⟨5, 3⟩⟩, ⟨TokenType.EQUAL, Value.char '=', ⟨6, 1⟩⟩,
       ⟨TokenType.INT, Value.int 1, ⟨7, 1⟩⟩, ⟨TokenType.SEND, Value.char ';', ⟨8, 1⟩⟩,
       ⟨TokenType.FEND, Value.int 0, ⟨8, 0⟩⟩] = .ok l) ∧
    (Lexer.init "\n\nfoo=1 /b/x/e/ ;".toList).check_tokens
      [⟨TokenType.ID, Value.str "foo".toList, ⟨5, 3⟩⟩, ⟨TokenType.EQUAL, Value.char '=', ⟨6, 1⟩⟩,
       ⟨TokenType.INT, Value.int 1, ⟨7, 1⟩⟩, ⟨TokenType.NOTE, Value.note "x".toList, ⟨15, 1⟩⟩,
       ⟨TokenType.SEND, Value.char ';', ⟨17, 1⟩⟩, ⟨TokenType.FEND, Value.int 0, ⟨17, 0⟩⟩] =
      .error (LexError.token
        [Piece.text "Unexpected token \x27", Piece.text ";", Piece.text "\x27.Do you mean \x27",
          Piece.text "identifier", Piece.text "\x27?", Piece.text ": \n",
          Piece.text " \n2 \n3 foo=1 /b/x/e/ ;\n                 \x1b[0;32;32m^\x1b[m\n"]
        ⟨17, 1⟩) ∧
    Lexer.delivered 5 "\n\nfoo=1;".toList =
      .ok [(TokenType.ID, Value.str "foo".toList), (TokenType.EQUAL, Value.char '='),
           (TokenType.INT, Value.int 1), (TokenType.SEND, Value.char ';'),
           (TokenType.FEND, Value.int 0)] ∧
    Lexer.delivered 1 "\n\nfoo=1 /b/x/e/ ;".toList =
      .error (LexError.token
        [Piece.text "Unexpected token \x27", Piece.text ";", Piece.text "\x27.Do you mean \x27",
          Piece.text "identifier", Piece.text "\x27?", Piece.text ": \n",
          Piece.text " \n2 \n3 foo=1 /b/x/e/ ;\n                 \x1b[0;32;32m^\x1b[m\n"]
        ⟨17, 1⟩) ∧
    Lexer.delivered 5 "foo=1;".toList =
      .ok [(TokenType.ID, Value.str "foo".toList), (TokenType.EQUAL, Value.char '='),
           (TokenType.INT, Value.int 1), (TokenType.SEND, Value.char ';'),
           (TokenType.FEND, Value.int 0)] ∧
    Lexer.delivered 1 "foo=1 /b/x/e/ ;".toList = .error LexError.out_of_bounds := by
  refine ⟨fun m => rfl, ⟨_, rfl⟩, by rfl, by rfl, by rfl, by rfl, by rfl⟩

/-- C9, as stated, fails: `NumberMatch::match` accepts `5.`, `1.` and `1.e5`; the state
reached before the end of `5.` is `DOT`. -/
theorem trailing_point_accepted :
    (NumberMatch.init.match_ "5.".toList).1 = true ∧
    (NumberMatch.init.match_ "1.".toList).1 = true ∧
    (NumberMatch.init.match_ "1.e5".toList).1 = true ∧
    NumberMatch.init.match_loop "5.".toList = (true, ⟨NumberMatch.State.DOT, true⟩) := by
  decide

/-- C9 as amended. `NumberMatch::match` returns true exactly when the loop over the
characters passes and the state reached before end-of-input is `INT`, `INT_DOT`, `DOT` or
`EXP_INT`; and in every accepted lexeme a decimal point has a digit immediately before it
or immediately after it. -/
theorem match_accepting_states (s : List Char) :
    ((NumberMatch.init.match_ s).1 = true ↔
      ((NumberMatch.init.match_loop s).1 = true ∧
        ((NumberMatch.init.match_loop s).2.state = NumberMatch.State.INT ∨
         (NumberMatch.init.match_loop s).2.state = NumberMatch.State.INT_DOT ∨
         (NumberMatch.init.match_loop s).2.state = NumberMatch.State.DOT ∨
         (NumberMatch.init.match_loop s).2.state = NumberMatch.State.EXP_INT))) ∧
    (∀ pre post : List Char, s = pre ++ '.' :: post → (NumberMatch.init.match_ s).1 = true →
      (∃ d, isdigit d = true ∧ pre.getLast? = some d) ∨
      (∃ d, isdigit d = true ∧ post.head? = some d)) := by
  refine ⟨?_, ?_⟩
  · rw [NumberMatch.match_true_iff]
    have : ∀ st : NumberMatch.State, NumberMatch.accepts_end st = true ↔
        (st = NumberMatch.State.INT ∨ st = NumberMatch.State.INT_DOT ∨
          st = NumberMatch.State.DOT ∨ st = NumberMatch.State.EXP_INT) := by
      intro st; cases st <;> simp [NumberMatch.accepts_end]
    rw [this]
  · intro pre post hs h
    subst hs
    exact NumberMatch.dot_needs_digit pre post h

/-- C9 as amended, at the lexeme `5.`. -/
theorem match_accepting_states_witness :
    (NumberMatch.init.match_ "5.".toList).1 = true ∧
    ((∃ d, isdigit d = true ∧ "5".toList.getLast? = some d) ∨
      (∃ d, isdigit d = true ∧ ([] : List Char).head? = some d)) :=
  ⟨by decide, (match_accepting_states "5.".toList).2 "5".toList [] rfl (by decide)⟩

/-- C10. A valid lexeme with an exponent marker and no decimal point does not become a
`DOUBLE` token: `NumberMatch` accepts `1e10` with `is_double()` false, and the scanner
emits `1e10` as `LONGLONG 10000000000`, `1e2` as `INT 100` and `1e-2` as `INT 0`. -/
theorem exponent_lexeme_not_double :
    NumberMatch.init.match_ "1e10".toList = (true, ⟨NumberMatch.State.END, false⟩) ∧
    Lexer.delivered 5 "a=1e10;".toList =
      .ok [(TokenType.ID, Value.str "a".toList), (TokenType.EQUAL, Value.char '='),
           (TokenType.LONGLONG, Value.longlong 10000000000), (TokenType.SEND, Value.char ';'),
           (TokenType.FEND, Value.int 0)] ∧
    Lexer.delivered 5 "a=1e2;".toList =
      .ok [(TokenType.ID, Value.str "a".toList), (TokenType.EQUAL, Value.char '='),
           (TokenType.INT, Value.int 100), (TokenType.SEND, Value.char ';'),
           (TokenType.FEND, Value.int 0)] ∧
    Lexer.delivered 5 "a=1e-2;".toList =
      .ok [(TokenType.ID, Value.str "a".toList), (TokenType.EQUAL, Value.char '='),
           (TokenType.INT, Value.int 0), (TokenType.SEND, Value.char ';'),
           (TokenType.FEND, Value.int 0)] := by
  refine ⟨by rfl, by rfl, by rfl, by rfl⟩

end czh.lexer

/-! ### The range test of integer lexemes -/

namespace czh.lexer

/-- Claim C11, which the code does not meet: the range test of `Lexer::get_tok` is
`t < INT_MAX` on the `double` value with no lower bound.  So `2147483647` is
delivered as `LONGLONG` (the claim names it as an `Int`) while `2147483646` is an
`INT`; `-2147483649`, below the 32-bit range, is delivered as `INT` where the claim
says `LongInt`; and `9007199254740993`, which no `double` holds, is delivered as
`LONGLONG` with the value `9007199254740992`. -/
theorem int_range_check :
    Lexer.delivered 5 "a=2147483647;".toList =
      .ok [(TokenType.ID, Value.str "a".toList), (TokenType.EQUAL, Value.char '='),
           (TokenType.LONGLONG, Value.longlong 2147483647), (TokenType.SEND, Value.char ';'),
           (TokenType.FEND, Value.int 0)] ∧
    Lexer.delivered 5 "a=2147483646;".toList =
      .ok [(TokenType.ID, Value.str "a".toList), (TokenType.EQUAL, Value.char '='),
           (TokenType.INT, Value.int 2147483646), (TokenType.SEND, Value.char ';'),
           (TokenType.FEND, Value.int 0)] ∧
    Lexer.kinds 5 "a=-2147483649;".toList =
      .ok [TokenType.ID, TokenType.EQUAL, TokenType.INT, TokenType.SEND, TokenType.FEND] ∧
    Lexer.delivered 5 "a=9007199254740993;".toList =
      .ok [(TokenType.ID, Value.str "a".toList), (TokenType.EQUAL, Value.char '='),
           (TokenType.LONGLONG, Value.longlong 9007199254740992), (TokenType.SEND, Value.char ';'),
           (TokenType.FEND, Value.int 0)] := by
  refine ⟨by rfl, by rfl, by rfl, by rfl⟩

end czh.lexer

/-! ### The dash: path punctuation or sign of a number -/

namespace czh.lexer
namespace Lexer

theorem rest_cons2 (l : Lexer) (c d : Char) (r : List Char) (h : l.rest = c :: d :: r) :
    l.check_char 1 = true ∧ l.view_char 1 = d := by
  refine ⟨?_, ?_⟩
  · rw [check_char_iff, h]; simp
  · have := view_char_nat l 1
    simp only [Nat.cast_one] at this
    rw [this, h]; rfl

theorem rest_cons3 (l : Lexer) (c d x : Char) (r : List Char) (h : l.rest = c :: d :: x :: r) :
    l.check_char 2 = true ∧ l.view_char 2 = x := by
  refine ⟨?_, ?_⟩
  · rw [check_char_iff, h]; simp
  · have := view_char_nat l 2
    simp only [Nat.cast_ofNat] at this
    rw [this, h]; rfl

theorem check_char_short (l : Lexer) (n : Nat) (h : l.rest.length ≤ n) : l.check_char n = false := by
  rw [check_char_iff]; simp; omega

theorem is_num_dash (l : Lexer) (r : List Char) (h : l.rest = '-' :: r)
    (hpp : l.parsing_path = false) : (l.is_num = false ↔ DashIsPath r) := by
  obtain ⟨h1, h2, _, _⟩ := rest_cons l '-' r h
  have hd : isdigit '-' = false := by decide
  cases r with
  | nil =>
    have c1 := check_char_short l 1 (by rw [h]; simp)
    have c2 := check_char_short l 2 (by rw [h]; simp)
    simp [is_num, hpp, h1, h2, c1, c2, DashIsPath]
  | cons d r2 =>
    obtain ⟨g1, g2⟩ := rest_cons2 l '-' d r2 h
    cases r2 with
    | nil =>
      have c2 := check_char_short l 2 (by rw [h]; simp)
      simp [is_num, hpp, h1, h2, g1, g2, c2, DashIsPath]
    | cons x r3 =>
      obtain ⟨k1, k2⟩ := rest_cons3 l '-' d x r3 h
      simp only [is_num, hpp, h1, h2, g1, g2, k1, k2, DashIsPath]
      by_cases e1 : isdigit d = true
      · have : d ≠ '.' := by rintro rfl; exact absurd e1 (by decide)
        simp [e1, this]
      · by_cases e2 : d = '.'
        · subst e2
          by_cases e3 : x = '.'
          · simp [e3]
          · by_cases e4 : x = '-'
            · simp [e4]
            · by_cases e5 : x = ':'
              · simp [e5]
              · simp [e3, e4, e5]
        · simp [e1, e2]

end Lexer

namespace Lexer

theorem get_tok_dash_path (l : Lexer) (r : List Char) (h : l.rest = '-' :: r)
    (hnum : l.is_num = false) :
    l.get_tok = .ok (⟨TokenType.BPATH, Value.char '-', ⟨l.codepos.pos + 1, 1⟩⟩,
      { l.next_char 1 with parsing_path := true }) := by
  obtain ⟨h1, h2, h3, h4⟩ := rest_cons l '-' r h
  have hskip : skip_space (l.code.size + 1) l = l :=
    skip_space_none _ l (Or.inr ⟨'-', _, h, by decide⟩)
  unfold get_tok
  rw [hskip]
  unfold dispatch
  rw [if_neg (by simp [hnum])]
  rw [if_neg (by simp [h1, h2])]
  rw [if_neg (by simp [h1, h2]; decide)]
  rw [if_pos (by simp [h1, h2]; decide)]
  unfold mark_branch
  simp only [h4]
  rfl

theorem get_tok_number (l : Lexer) (hnum : l.is_num = true)
    (hs : l.rest = [] ∨ ∃ c r, l.rest = c :: r ∧ isspace c = false) :
    l.get_tok = number_branch (l.code.size + 1) l := by
  have hskip : skip_space (l.code.size + 1) l = l := skip_space_none _ l hs
  unfold get_tok
  rw [hskip]
  unfold dispatch
  rw [if_pos hnum]

end Lexer

/-- Counterexample to claim C13 as stated: when `-` is the last character of the
input it is not followed by a digit or `.`, yet the scanner does not emit the
path punctuation token; `is_num` stays true (every test of the dash rule is
guarded by `check_char`) and `Lexer::get_tok` takes the number branch.  With the
final `-` on line 3, where the snippet of an error can be rendered, the error
raised is "Is this a number?", for `-` alone and after `a=`. -/
theorem lone_dash_is_number :
    (Lexer.init "-".toList).is_num = true ∧
    (Lexer.init "-".toList).get_tok = Lexer.number_branch 2 (Lexer.init "-".toList) ∧
    (Lexer.init "\n\n-".toList).view 0 = .error (LexError.token
      [Piece.text "Unexpected token \x27", Piece.text "-", Piece.text "\x27.Is this a number?",
        Piece.text ": \n", Piece.text " \n2 \n3 -\n   \x1b[0;32;32m^\x1b[m\n"] ⟨3, 1⟩) ∧
    (Lexer.init "\n\na=-".toList).view 0 = .error (LexError.token
      [Piece.text "Unexpected token \x27", Piece.text "-", Piece.text "\x27.Is this a number?",
        Piece.text ": \n", Piece.text " \n2 \n3 a=-\n     \x1b[0;32;32m^\x1b[m\n"] ⟨5, 1⟩) := by
  refine ⟨by rfl, by rfl, by rfl, by rfl⟩

/-- Claim C13, amended: outside a path expression, at a position holding `-`
followed by the text `r`, the scanner emits the path punctuation token `-` and
does not attempt number recognition exactly when a character follows that is
neither a digit nor `.`, or when `.` follows and then a second `.`, a `-` or a
`:` (`DashIsPath r`); in all remaining cases, the one where `-` is the last
character of the input included, it attempts number recognition starting at the
`-` (the step is the number branch of `get_tok`). -/
theorem dash_disambiguation (l : Lexer) (r : List Char) (h : l.rest = '-' :: r)
    (hpp : l.parsing_path = false) :
    (DashIsPath r → l.is_num = false ∧
      l.get_tok = .ok (⟨TokenType.BPATH, Value.char '-', ⟨l.codepos.pos + 1, 1⟩⟩,
        { l.next_char 1 with parsing_path := true })) ∧
    (¬ DashIsPath r → l.is_num = true ∧
      l.get_tok = Lexer.number_branch (l.code.size + 1) l) := by
  have hiff := Lexer.is_num_dash l r h hpp
  constructor
  · intro hp
    have hn := hiff.2 hp
    exact ⟨hn, Lexer.get_tok_dash_path l r h hn⟩
  · intro hp
    have hn : l.is_num = true := by
      cases hx : l.is_num with
      | true => rfl
      | false => exact absurd (hiff.1 hx) hp
    exact ⟨hn, Lexer.get_tok_number l hn (Or.inr ⟨'-', r, h, by decide⟩)⟩

/-- Witness of `dash_disambiguation` on the input `-a`. -/
theorem dash_disambiguation_witness :
    (Lexer.init "-a".toList).is_num = false ∧
    (Lexer.init "-a".toList).get_tok =
      .ok (⟨TokenType.BPATH, Value.char '-', ⟨1, 1⟩⟩,
        { (Lexer.init "-a".toList).next_char 1 with parsing_path := true }) :=
  (dash_disambiguation (Lexer.init "-a".toList) "a".toList rfl rfl).1
    (Or.inl ⟨'a', [], rfl, by decide, by decide⟩)

end czh.lexer

/-! ### Rejected number lexemes -/

namespace czh.lexer

theorem isnumber_not_space (c : Char) (h : isnumber c = true) : isspace c = false := by
  rw [Bool.eq_false_iff]
  intro hs
  have hsp := (isspace_iff c).1 hs
  simp only [isnumber, Bool.or_eq_true, beq_iff_eq] at h
  have e1 : ('.' : Char).toNat = 46 := rfl
  have e2 : ('e' : Char).toNat = 101 := rfl
  have e3 : ('E' : Char).toNat = 69 := rfl
  have e4 : ('+' : Char).toNat = 43 := rfl
  have e5 : ('-' : Char).toNat = 45 := rfl
  rcases h with ((((h | h) | h) | h) | h) | h
  · have := (isdigit_iff c).1 h; omega
  · have := toNat_of_eq _ _ h; omega
  · have := toNat_of_eq _ _ h; omega
  · have := toNat_of_eq _ _ h; omega
  · have := toNat_of_eq _ _ h; omega
  · have := toNat_of_eq _ _ h; omega

namespace Lexer

theorem get_tok_bad_number (l : Lexer) (c : Char) (r : List Char) (h : l.rest = c :: r)
    (hs : ∀ x ∈ c :: r, isnumber x = true) (hnum : l.is_num = true)
    (hnm : l.nmatch = NumberMatch.init) (hrej : (NumberMatch.init.match_ (c :: r)).1 = false) :
    l.get_tok = .error
      ((⟨TokenType.UNEXPECTED, Value.int 0,
          ⟨l.codepos.pos + (c :: r).length, (c :: r).length⟩⟩ : Token).error
        (l.next_char (c :: r).length).code
        [Piece.text "Unexpected token \x27", Piece.text (String.mk (c :: r)),
          Piece.text "\x27.Is this a number?"]) := by
  have hsp := isnumber_not_space c (hs c (List.mem_cons_self _ _))
  rw [get_tok_number l hnum (Or.inr ⟨c, r, h, hsp⟩)]
  have hlen : r.length + 1 ≤ l.code.size + 1 := by
    have := rest_length_le l
    rw [h] at this
    simp only [List.length_cons] at this
    omega
  have hloop := number_loop_spec r [] c l [] (l.code.size + 1) (by simpa using h)
    (fun x hx => hs x (List.mem_cons_of_mem _ hx)) (Or.inl rfl) hlen
  have hnm2 : (l.next_char (r.length + 1)).nmatch = NumberMatch.init := hnm
  unfold number_branch
  simp only [hloop, List.nil_append, hnm2, hrej]
  rfl

theorem view_of_get_tok_error (l : Lexer) (e : LexError) (h : l.get_tok = .error e)
    (hq : l.tokenstream = []) : l.view 0 = .error e := by
  have hs : l.scan = .error e := by simp only [scan, h]
  unfold view
  rw [if_pos (by rw [hq]; simp)]
  have hf : fill 1024 l = .error e := by
    show fill (1023 + 1) l = .error e
    simp only [fill, hq, List.length_nil, hs]
    rfl
  rw [hf]

theorem is_num_of_head (l : Lexer) (c : Char) (r : List Char) (h : l.rest = c :: r)
    (hpp : l.parsing_path = false) (hc : isdigit c = true ∨ c = '.' ∨ c = '+') :
    l.is_num = true := by
  obtain ⟨h1, h2, _, _⟩ := rest_cons l c r h
  have hne : c ≠ '-' := by
    rcases hc with hc | rfl | rfl
    · exact (digit_facts c hc).2.1
    · decide
    · decide
  rcases hc with hc | rfl | rfl
  · simp [is_num, hpp, h1, h2, hc, hne]
  · simp [is_num, hpp, h1, h2]
  · simp [is_num, hpp, h1, h2]

end Lexer

theorem isnumber_not_newline (x : Char) (h : isnumber x = true) : x ≠ '\r' ∧ x ≠ '\n' := by
  constructor
  · intro e; rw [e] at h; revert h; decide
  · intro e; rw [e] at h; revert h; decide

/-- Claim C12, which the code does not meet.  For every string `s` of number
characters that starts with a digit, `.`, `+`, or with a `-` that the dash rule
does not make path punctuation, and that `NumberMatch` rejects, the scanner over
the input `s` reads the whole of `s` as one lexeme and enters `Token::error` with
the details "Unexpected token '" s "'.Is this a number?"; but `s` stands on line 1,
where the rendering of the snippet inside `Token::error` is undefined, so that no
error with this message is raised.  Two lines further down the error is raised:
`1.2.3` on line 3 is quoted whole.  The lexeme `--1` is not read as a number at
all: its first `-` is scanned as the path punctuation token. -/
theorem rejected_number_quoted :
    (∀ (c : Char) (r : List Char),
      (∀ x ∈ c :: r, isnumber x = true) →
      (isdigit c = true ∨ c = '.' ∨ c = '+' ∨ (c = '-' ∧ ¬ DashIsPath r)) →
      (NumberMatch.init.match_ (c :: r)).1 = false →
      (Lexer.init (c :: r)).view 0 = .error
        ((⟨TokenType.UNEXPECTED, Value.int 0, ⟨(c :: r).length, (c :: r).length⟩⟩ : Token).error
          ⟨c :: r, (c :: r).length⟩
          [Piece.text "Unexpected token \x27", Piece.text (String.mk (c :: r)),
            Piece.text "\x27.Is this a number?"]) ∧
      (Lexer.init (c :: r)).view 0 = .error LexError.out_of_bounds) ∧
    (Lexer.init "\n\n1.2.3".toList).view 0 = .error (LexError.token
      [Piece.text "Unexpected token \x27", Piece.text "1.2.3", Piece.text "\x27.Is this a number?",
        Piece.text ": \n", Piece.text " \n2 \n3 1.2.3\n   \x1b[0;32;32m^^^^^\x1b[m\n"] ⟨7, 5⟩) ∧
    (∀ c ∈ "--1".toList, isnumber c = true) ∧
    (NumberMatch.init.match_ "--1".toList).1 = false ∧
    (∃ l, (Lexer.init "--1".toList).get_tok =
      .ok (⟨TokenType.BPATH, Value.char '-', ⟨1, 1⟩⟩, l)) := by
  refine ⟨?_, by rfl, by decide, by decide, ⟨_, rfl⟩⟩
  intro c r hs hc hrej
  have hnum : (Lexer.init (c :: r)).is_num = true := by
    rcases hc with hc | hc | hc | ⟨rfl, hp⟩
    · exact Lexer.is_num_of_head _ c r rfl rfl (Or.inl hc)
    · exact Lexer.is_num_of_head _ c r rfl rfl (Or.inr (Or.inl hc))
    · exact Lexer.is_num_of_head _ c r rfl rfl (Or.inr (Or.inr hc))
    · have hiff := Lexer.is_num_dash (Lexer.init ('-' :: r)) r rfl rfl
      cases hx : (Lexer.init ('-' :: r)).is_num with
      | true => rfl
      | false => exact absurd (hiff.1 hx) hp
  have hg := Lexer.get_tok_bad_number (Lexer.init (c :: r)) c r rfl hs hnum rfl hrej
  have hv := Lexer.view_of_get_tok_error _ _ hg rfl
  have hv2 : (Lexer.init (c :: r)).view 0 = .error
      ((⟨TokenType.UNEXPECTED, Value.int 0, ⟨(c :: r).length, (c :: r).length⟩⟩ : Token).error
        ⟨c :: r, (c :: r).length⟩
        [Piece.text "Unexpected token \x27", Piece.text (String.mk (c :: r)),
          Piece.text "\x27.Is this a number?"]) := by
    rw [hv]
    simp [Lexer.init, Lexer.next_char, NonStreamFile.ignore]
  refine ⟨hv2, ?_⟩
  rw [hv2, token_error_one_line _ _ _ (fun x hx => isnumber_not_newline x (hs x hx))]

/-- Claim C12 on the input `1.2.3`: the whole lexeme reaches `Token::error`, and
nothing is raised from line 1. -/
theorem rejected_number_quoted_witness :
    (Lexer.init "1.2.3".toList).view 0 = .error
        ((⟨TokenType.UNEXPECTED, Value.int 0, ⟨5, 5⟩⟩ : Token).error ⟨"1.2.3".toList, 5⟩
          [Piece.text "Unexpected token \x27", Piece.text "1.2.3",
            Piece.text "\x27.Is this a number?"]) ∧
      (Lexer.init "1.2.3".toList).view 0 = .error LexError.out_of_bounds :=
  rejected_number_quoted.1 '1' ".2.3".toList (by decide) (Or.inl (by decide)) (by decide)

end czh.lexer

/-! ### String literals -/

namespace czh.lexer
namespace Lexer

theorem string_loop_spec (t r : List Char) (l : Lexer) (temp : List Char) (fuel : Nat)
    (h : l.rest = t ++ r) (ht : '"' ∉ t)
    (hr : r = [] ∨ ∃ r2, r = '"' :: r2) (hf : t.length ≤ fuel) :
    string_loop fuel l temp = (l.next_char t.length, temp ++ t) := by
  induction t generalizing l temp fuel with
  | nil =>
    simp only [List.nil_append] at h
    simp only [List.length_nil, next_char_zero, List.append_nil]
    cases fuel with
    | zero => rfl
    | succ n =>
      rcases hr with hr | ⟨r2, hr⟩
      · rw [hr] at h
        simp [string_loop, rest_nil l h]
      · rw [hr] at h
        obtain ⟨h1, h2, _, _⟩ := rest_cons l '"' r2 h
        simp [string_loop, h1, h2]
  | cons a t ih =>
    cases fuel with
    | zero => simp at hf
    | succ n =>
      obtain ⟨h1, h2, h3, _⟩ := rest_cons l a (t ++ r) h
      have ha : a ≠ '"' := fun e => ht (e ▸ List.mem_cons_self _ _)
      have hstep : string_loop (n + 1) l temp = string_loop n (l.next_char 1) (temp ++ [a]) := by
        simp [string_loop, h1, h2, ha]
      rw [hstep, ih (l.next_char 1) (temp ++ [a]) n h3
        (fun hm => ht (List.mem_cons_of_mem _ hm)) (by simpa using hf)]
      simp [next_char_next_char, Nat.add_comm]

theorem get_tok_string (l : Lexer) (t r : List Char) (h : l.rest = '"' :: (t ++ r))
    (ht : '"' ∉ t) (hr : r = [] ∨ ∃ r2, r = '"' :: r2) :
    l.get_tok = .ok (⟨TokenType.STRING, Value.str t,
      ⟨l.codepos.pos + (t.length + 2), t.length⟩⟩, l.next_char (t.length + 2)) := by
  obtain ⟨h1, h2, h3, _⟩ := rest_cons l '"' (t ++ r) h
  have hskip : skip_space (l.code.size + 1) l = l :=
    skip_space_none _ l (Or.inr ⟨'"', _, h, by decide⟩)
  have hnum : l.is_num = false := by
    simp [is_num, h1, h2]
    intro _
    decide
  have hlen : t.length ≤ l.code.size + 1 := by
    have := rest_length_le l
    rw [h] at this
    simp only [List.length_cons, List.length_append] at this
    omega
  have hloop := string_loop_spec t r (l.next_char 1) [] (l.code.size + 1) h3 ht hr hlen
  unfold get_tok
  rw [hskip]
  unfold dispatch
  rw [if_neg (by simp [hnum])]
  rw [if_pos (by simp [h1, h2])]
  unfold string_branch
  simp only [hloop, List.nil_append, next_char_next_char]
  have e : 1 + t.length + 1 = t.length + 2 := by omega
  rw [e]
  rfl

end Lexer

/-- Claim C14: for every text `t` without a double quote, at a position holding
`"`, `t`, `"` and then any text `r`, `get_tok` yields one `STRING` token whose
value is exactly `t`, no character of it changed, and leaves the cursor just
after the closing quote, before `r`; when the buffer ends after `t`, with no
closing quote, the `STRING` token holds the whole remainder `t` and the next
token is `FEND`. -/
theorem lex_string (l : Lexer) (t : List Char) (ht : '"' ∉ t) :
    (∀ r : List Char, l.rest = '"' :: (t ++ '"' :: r) →
      l.get_tok = .ok (⟨TokenType.STRING, Value.str t,
        ⟨l.codepos.pos + (t.length + 2), t.length⟩⟩, l.next_char (t.length + 2)) ∧
      (l.next_char (t.length + 2)).rest = r) ∧
    (l.rest = '"' :: t →
      l.get_tok = .ok (⟨TokenType.STRING, Value.str t,
        ⟨l.codepos.pos + (t.length + 2), t.length⟩⟩, l.next_char (t.length + 2)) ∧
      (l.next_char (t.length + 2)).get_tok =
        .ok (⟨TokenType.FEND, Value.int 0, ⟨l.codepos.pos + (t.length + 2), 0⟩⟩,
          l.next_char (t.length + 2))) := by
  constructor
  · intro r h
    refine ⟨Lexer.get_tok_string l t ('"' :: r) h ht (Or.inr ⟨r, rfl⟩), ?_⟩
    rw [Lexer.next_char_rest, h]
    have : t.length + 2 = (t.length + 1) + 1 := rfl
    rw [this, List.drop_succ_cons, List.drop_append_eq_append_drop]
    simp
  · intro h
    have h2 : l.rest = '"' :: (t ++ []) := by simpa using h
    refine ⟨Lexer.get_tok_string l t [] h2 ht (Or.inl rfl), ?_⟩
    have hrest : (l.next_char (t.length + 2)).rest = [] := by
      rw [Lexer.next_char_rest, h]
      simp
    exact Lexer.get_tok_fend _ hrest

/-- Witness of `lex_string`: a string holding a backslash and a newline, followed
by more text. -/
theorem lex_string_witness :
    (Lexer.init ['"', 'a', '\\', 'n', '\n', '"', ' ', 'x']).get_tok =
      .ok (⟨TokenType.STRING, Value.str ['a', '\\', 'n', '\n'], ⟨6, 4⟩⟩,
        (Lexer.init ['"', 'a', '\\', 'n', '\n', '"', ' ', 'x']).next_char 6) ∧
    ((Lexer.init ['"', 'a', '\\', 'n', '\n', '"', ' ', 'x']).next_char 6).rest = [' ', 'x'] :=
  (lex_string (Lexer.init ['"', 'a', '\\', 'n', '\n', '"', ' ', 'x']) ['a', '\\', 'n', '\n']
    (by decide)).1 [' ', 'x'] rfl

end czh.lexer

/-! ### Peeking: the refill of the lookahead queue -/

namespace czh.lexer
namespace Lexer

end Lexer

end czh.lexer

/-! ### Consuming tokens -/

namespace czh.lexer

/-- Claim C16, which the code does not meet: `Lexer::next(s)` never reads `s` and
pops exactly one token, so `consume(n)` equals `consume(1)` for every `n`; from a
queue `t :: q` every `consume(n)` leaves `q`; and after `peek(0)` on `a=1;`, which
queues the five tokens, `consume(3)` and `consume(0)` both leave the four tokens
`=`, `1`, `;`, end of file, as `consume(1)` does. -/
theorem next_pops_one :
    (∀ (l : Lexer) (n : Nat), l.next n = l.next 1) ∧
    (∀ (l : Lexer) (t : Token) (q : List Token) (n : Nat),
      (l.setq (t :: q) l.is_eof).next n = .ok (l.setq q l.is_eof)) ∧
    Lexer.kinds_after_consume "a=1;".toList 1 =
      .ok [TokenType.EQUAL, TokenType.INT, TokenType.SEND, TokenType.FEND] ∧
    Lexer.kinds_after_consume "a=1;".toList 3 =
      .ok [TokenType.EQUAL, TokenType.INT, TokenType.SEND, TokenType.FEND] ∧
    Lexer.kinds_after_consume "a=1;".toList 0 =
      .ok [TokenType.EQUAL, TokenType.INT, TokenType.SEND, TokenType.FEND] :=
  ⟨fun _ _ => rfl, fun _ _ _ _ => rfl, by rfl, by rfl, by rfl⟩

end czh.lexer

/-! ### A comment that is never closed -/

namespace czh.lexer

/-- Claim C17, which the code does not meet: on the input `/b/x` the comment loop
of `Lexer::get_tok` is entered with the cursor after `/b/`, and its exit test
`check_char(2) && view_char() == '/' && view_char(1) == 'e' && view_char(2) == '/'`
is false after every number `n` of steps of the cursor, so the loop, which has no
other exit, never returns a token and raises no error; the model stops when the
cursor reaches the end of the buffer and reports `out_of_bounds`, for `/b/x` and
for `peek(0)` on `a=1 /b/ note`. -/
theorem unterminated_note_no_exit :
    (∀ n : Nat,
      ((((Lexer.init "/b/x".toList).next_char 3).next_char n).check_char 2 &&
        (((Lexer.init "/b/x".toList).next_char 3).next_char n).view_char 0 == '/' &&
        (((Lexer.init "/b/x".toList).next_char 3).next_char n).view_char 1 == 'e' &&
        (((Lexer.init "/b/x".toList).next_char 3).next_char n).view_char 2 == '/') = false) ∧
    (Lexer.init "/b/x".toList).get_tok = .error LexError.out_of_bounds ∧
    (Lexer.init "a=1 /b/ note".toList).view 0 = .error LexError.out_of_bounds := by
  refine ⟨fun n => ?_, by rfl, by rfl⟩
  have h : (((Lexer.init "/b/x".toList).next_char 3).next_char n).check_char 2 = false := by
    simp [Lexer.check_char, Lexer.next_char, Lexer.init, NonStreamFile.check,
      NonStreamFile.ignore]
    omega
  rw [h]
  rfl

end czh.lexer

/-! ### The grammar check raises no internal error -/

namespace czh.lexer

theorem check_token_safe (l : Lexer) (t : Token)
    (h : l.mtch.state ∈ table_states ∨ l.mtch.state = State.END) :
    (∃ l2, l.check_token t = .ok l2 ∧
      (l2.mtch.state ∈ table_states ∨ l2.mtch.state = State.END)) ∨
    (∃ d p, l.check_token t = .error (LexError.token d p)) ∨
    l.check_token t = .error LexError.out_of_bounds := by
  obtain ⟨code, q, ⟨st, lst⟩, nm, cp, pp, ie⟩ := l
  obtain ⟨ty, what, pos⟩ := t
  cases st <;>
    first
    | (exfalso; revert h; simp [table_states]; done)
    | (cases ty <;>
        first
        | exact Or.inr (raised_or_undefined ⟨_, what, pos⟩ code _)
        | (refine Or.inl ⟨_, rfl, ?_⟩; simp [table_states, Match.reset]))

theorem check_tokens_safe (ts : List Token) : ∀ (l : Lexer),
    (l.mtch.state ∈ table_states ∨ l.mtch.state = State.END) →
    (∃ l2, l.check_tokens ts = .ok l2 ∧
      (l2.mtch.state ∈ table_states ∨ l2.mtch.state = State.END)) ∨
    (∃ d p, l.check_tokens ts = .error (LexError.token d p)) ∨
    l.check_tokens ts = .error LexError.out_of_bounds := by
  induction ts with
  | nil => intro l h; exact Or.inl ⟨l, rfl, h⟩
  | cons t ts ih =>
    intro l h
    rcases check_token_safe l t h with ⟨l2, h2, hinv⟩ | ⟨d, p, h2⟩ | h2
    · rcases ih l2 hinv with ⟨l3, h3, hinv3⟩ | ⟨d, p, h3⟩ | h3
      · refine Or.inl ⟨l3, ?_, hinv3⟩
        simp only [Lexer.check_tokens, h2]; exact h3
      · refine Or.inr (Or.inl ⟨d, p, ?_⟩)
        simp only [Lexer.check_tokens, h2]; exact h3
      · refine Or.inr (Or.inr ?_)
        simp only [Lexer.check_tokens, h2]; exact h3
    · refine Or.inr (Or.inl ⟨d, p, ?_⟩)
      simp only [Lexer.check_tokens, h2]
    · refine Or.inr (Or.inr ?_)
      simp only [Lexer.check_tokens, h2]

/-- Claim C18: starting from a fresh `Match`, feeding any sequence of tokens
through `Lexer::check_token` up to the first error either succeeds, the machine
then standing in one of the nine table states or in `END`, or stops in a
`Token::error` (which raises the error of the token or, where the snippet has no
rendering, has no defined outcome); it never raises an internal error.  The
internal errors of the model are exactly the three events of the claim:
`Match::match` called in state `UNEXPECTED`, a token other than `SEND` and `FEND`
received in state `END`, and `Match::error_correct` called with a last state that
has no hint. -/
theorem no_internal_error (l : Lexer) (ts : List Token) (h : l.mtch = Match.init) :
    ((∃ l2, l.check_tokens ts = .ok l2 ∧
        (l2.mtch.state ∈ table_states ∨ l2.mtch.state = State.END)) ∨
      (∃ d p, l.check_tokens ts = .error (LexError.token d p)) ∨
      l.check_tokens ts = .error LexError.out_of_bounds) ∧
    ∀ d, l.check_tokens ts ≠ .error (LexError.internal d) := by
  have hinv : l.mtch.state ∈ table_states ∨ l.mtch.state = State.END := by
    rw [h]; exact Or.inl (by simp [table_states, Match.init])
  have hs := check_tokens_safe ts l hinv
  refine ⟨hs, fun d hd => ?_⟩
  rcases hs with ⟨l2, h2, _⟩ | ⟨d2, p, h2⟩ | h2
  · rw [h2] at hd; exact Except.noConfusion hd
  · rw [h2] at hd; cases hd
  · rw [h2] at hd; cases hd

/-- C18 on the token kinds `ID`, `EQUAL`, `EQUAL`, which stop in a `Token::error`. -/
theorem no_internal_error_witness :
    ((∃ l2, (Lexer.init []).check_tokens
          [Token.of_type TokenType.ID, Token.of_type TokenType.EQUAL,
           Token.of_type TokenType.EQUAL] = .ok l2 ∧
        (l2.mtch.state ∈ table_states ∨ l2.mtch.state = State.END)) ∨
      (∃ d p, (Lexer.init []).check_tokens
          [Token.of_type TokenType.ID, Token.of_type TokenType.EQUAL,
           Token.of_type TokenType.EQUAL] = .error (LexError.token d p)) ∨
      (Lexer.init []).check_tokens
          [Token.of_type TokenType.ID, Token.of_type TokenType.EQUAL,
           Token.of_type TokenType.EQUAL] = .error LexError.out_of_bounds) ∧
    ∀ d, (Lexer.init []).check_tokens
          [Token.of_type TokenType.ID, Token.of_type TokenType.EQUAL,
           Token.of_type TokenType.EQUAL] ≠ .error (LexError.internal d) :=
  no_internal_error (Lexer.init [])
    [Token.of_type TokenType.ID, Token.of_type TokenType.EQUAL, Token.of_type TokenType.EQUAL]
    rfl

end czh.lexer

/-! ### Rendered lines and the caret line -/

namespace czh.lexer

/-- Claim C19, which the code does not meet when `beg = 1`: the final
`ret.erase(ret.begin())` of `NonStreamFile::get_spec_line` removes the newline
that precedes the first rendered line when `beg ≥ 2`, but for `beg = 1` the text
starts with the line number and its first character is removed.  On the buffer
`ab`, newline, `cd`: lines `[1, 2)` give ` ab` instead of `1 ab`, lines `[1, 3)`
give ` ab`, newline, `2 cd`, and with width 3 the first number is `01` instead of
`001`; from `beg = 2` on the lines are rendered as the claim says. -/
theorem first_line_number_cut :
    (⟨"ab\ncd".toList, 0⟩ : NonStreamFile).get_spec_line 1 2 0 = .ok " ab".toList ∧
    (⟨"ab\ncd".toList, 0⟩ : NonStreamFile).get_spec_line 1 3 0 = .ok " ab\n2 cd".toList ∧
    (⟨"ab\ncd".toList, 0⟩ : NonStreamFile).get_spec_line 1 3 3 =
      .ok "01 ab\n002 cd".toList ∧
    (⟨"ab\ncd".toList, 0⟩ : NonStreamFile).get_spec_line 2 3 0 = .ok "2 cd".toList ∧
    (⟨"ab\ncd\nef".toList, 0⟩ : NonStreamFile).get_spec_line 2 4 3 =
      .ok "002 cd\n003 ef".toList := by
  refine ⟨by rfl, by rfl, by rfl, by rfl, by rfl⟩

/-- Claim C20, which the code does not meet: in the seven-line buffer `a=1` ..
`g=7` with `\n` line ends, the token `=` of line 5 (buffer index 17, position 18)
stands at offset 3 of the rendered line `5 e=5`, but the caret line has four
blanks before the caret, one too many (`get_arrowpos` counts from the character
before the newline); on the last line the caret has five blanks while `=` is at
offset 4 of `07 g=7`; for the token `=` of line 1 no context is rendered at all
(the model reports the `erase` on an empty string) and the blanks would be two,
one too few.  With `\r\n` line ends the same token of line 5 has its caret at
offset 3, under the `=`. -/
theorem caret_not_under_token :
    (⟨"a=1\nb=2\nc=3\nd=4\ne=5\nf=6\ng=7".toList, 0⟩ : NonStreamFile).code.get? 17 = some '=' ∧
    (⟨"a=1\nb=2\nc=3\nd=4\ne=5\nf=6\ng=7".toList, 0⟩ : NonStreamFile).get_lineno 18 = 5 ∧
    (⟨18, 1⟩ : Pos).get_details_from_code ⟨"a=1\nb=2\nc=3\nd=4\ne=5\nf=6\ng=7".toList, 0⟩ =
      .ok "2 b=2\n3 c=3\n4 d=4\n5 e=5\n    \x1b[0;32;32m^\x1b[m\n6 f=6".toList ∧
    (⟨18, 1⟩ : Pos).arrow_blanks ⟨"a=1\nb=2\nc=3\nd=4\ne=5\nf=6\ng=7".toList, 0⟩ = 4 ∧
    "5 e=5".toList.get? 3 = some '=' ∧
    (⟨26, 1⟩ : Pos).get_details_from_code ⟨"a=1\nb=2\nc=3\nd=4\ne=5\nf=6\ng=7".toList, 0⟩ =
      .ok "04 d=4\n05 e=5\n06 f=6\n07 g=7\n     \x1b[0;32;32m^\x1b[m\n".toList ∧
    "07 g=7".toList.get? 4 = some '=' ∧
    (⟨2, 1⟩ : Pos).get_details_from_code ⟨"a=1\nb=2\nc=3\nd=4\ne=5\nf=6\ng=7".toList, 0⟩ =
      .error LexError.out_of_bounds ∧
    (⟨2, 1⟩ : Pos).arrow_blanks ⟨"a=1\nb=2\nc=3\nd=4\ne=5\nf=6\ng=7".toList, 0⟩ = 2 ∧
    (⟨22, 1⟩ : Pos).get_details_from_code
        ⟨"a=1\r\nb=2\r\nc=3\r\nd=4\r\ne=5\r\nf=6\r\ng=7".toList, 0⟩ =
      .ok "2 b=2\n3 c=3\n4 d=4\n5 e=5\n   \x1b[0;32;32m^\x1b[m\n6 f=6".toList := by
  refine ⟨by rfl, by rfl, by rfl, by rfl, by rfl, by rfl, by rfl, by rfl, by rfl, by rfl⟩

end czh.lexer

/-! ### The window of lines around an error -/

namespace czh.lexer

/-- Claim C21, which the code does not meet; the buffer is the seven lines `a=1` ..
`g=7`.  For a position on line 1 or on line 2 no context is rendered: the loop
test `lineno - actual_last <= 0` is unsigned, `actual_last` stays 3, the first
line asked from `get_spec_line` wraps around and the final `erase` meets an empty
string.  For line 4 the window starts at line 1, whose number is cut (the defect
of claim C19), and only the lines 5 and 6 follow the caret line although line 7
is three lines away; for line 6 nothing follows the caret line, so the last line
of the file is not shown: the loop test `lineno + actual_next >= total_line`
leaves one line less than the file has. -/
theorem context_window_lines :
    (⟨"a=1\nb=2\nc=3\nd=4\ne=5\nf=6\ng=7".toList, 0⟩ : NonStreamFile).get_lineno 2 = 1 ∧
    (⟨2, 1⟩ : Pos).get_details_from_code ⟨"a=1\nb=2\nc=3\nd=4\ne=5\nf=6\ng=7".toList, 0⟩ =
      .error LexError.out_of_bounds ∧
    (⟨"a=1\nb=2\nc=3\nd=4\ne=5\nf=6\ng=7".toList, 0⟩ : NonStreamFile).get_lineno 6 = 2 ∧
    (⟨6, 1⟩ : Pos).get_details_from_code ⟨"a=1\nb=2\nc=3\nd=4\ne=5\nf=6\ng=7".toList, 0⟩ =
      .error LexError.out_of_bounds ∧
    (⟨"a=1\nb=2\nc=3\nd=4\ne=5\nf=6\ng=7".toList, 0⟩ : NonStreamFile).get_lineno 14 = 4 ∧
    (⟨14, 1⟩ : Pos).get_details_from_code ⟨"a=1\nb=2\nc=3\nd=4\ne=5\nf=6\ng=7".toList, 0⟩ =
      .ok " a=1\n2 b=2\n3 c=3\n4 d=4\n    \x1b[0;32;32m^\x1b[m\n5 e=5\n6 f=6".toList ∧
    (⟨"a=1\nb=2\nc=3\nd=4\ne=5\nf=6\ng=7".toList, 0⟩ : NonStreamFile).get_lineno 22 = 6 ∧
    (⟨22, 1⟩ : Pos).get_details_from_code ⟨"a=1\nb=2\nc=3\nd=4\ne=5\nf=6\ng=7".toList, 0⟩ =
      .ok "3 c=3\n4 d=4\n5 e=5\n6 f=6\n    \x1b[0;32;32m^\x1b[m\n".toList ∧
    Pos.actual_last_loop 1 3 3 = 3 ∧ Pos.actual_last_loop 2 3 3 = 3 ∧
    Pos.actual_last_loop 3 3 3 = 2 ∧
    Pos.actual_next_loop 4 7 3 3 = 2 ∧ Pos.actual_next_loop 6 7 3 3 = 0 := by
  refine ⟨by rfl, by rfl, by rfl, by rfl, by rfl, by rfl, by rfl, by rfl, by rfl, by rfl, by rfl,
    by rfl, by rfl⟩

end czh.lexer

/-! ### The streamed file and the in-memory buffer -/

namespace czh.lexer

/-- Claim C22, which the code does not meet.  On the seven-line text whose fifth
line is `e=;` the scanner fails at position 19 with "Unexpected token"; both
buffers give line 5, but the in-memory buffer renders one blank before the caret
and the streamed file four, the caret then standing under the `;`
(`NonStreamFile::get_arrowpos` is wrong where `StreamFile::get_arrowpos` is
right).  On the text of two empty lines, the line `a=` and a final newline the
scanner fails at position 5 with "Unexpected end of file."; the in-memory buffer
puts the position on line 4 and the streamed file on line 3, and the two
snippets differ. -/
theorem stream_snippet_differs :
    (Lexer.init "a=1\nb=2\nc=3\nd=4\ne=;\nf=6\ng=7".toList).view 0 =
      .error (LexError.token
        [Piece.text "Unexpected token \x27", Piece.text ";", Piece.text "\x27.Do you mean \x27",
          Piece.text "value or \x27[\x27", Piece.text "\x27?", Piece.text ": \n",
          Piece.text "2 b=2\n3 c=3\n4 d=4\n5 e=;\n \x1b[0;32;32m^\x1b[m\n6 f=6"] ⟨19, 1⟩) ∧
    (⟨"a=1\nb=2\nc=3\nd=4\ne=;\nf=6\ng=7".toList, 0⟩ : NonStreamFile).get_lineno 19 = 5 ∧
    (StreamFile.init "a=1\nb=2\nc=3\nd=4\ne=;\nf=6\ng=7".toList).get_lineno 19 = 5 ∧
    (⟨19, 1⟩ : Pos).get_details_from_code ⟨"a=1\nb=2\nc=3\nd=4\ne=;\nf=6\ng=7".toList, 0⟩ =
      .ok "2 b=2\n3 c=3\n4 d=4\n5 e=;\n \x1b[0;32;32m^\x1b[m\n6 f=6".toList ∧
    (⟨19, 1⟩ : Pos).get_details_from_stream
        (StreamFile.init "a=1\nb=2\nc=3\nd=4\ne=;\nf=6\ng=7".toList) =
      .ok "2 b=2\n3 c=3\n4 d=4\n5 e=;\n    \x1b[0;32;32m^\x1b[m\n6 f=6".toList ∧
    (Lexer.init "\n\na=\n".toList).view 0 =
      .error (LexError.token
        [Piece.text "Unexpected end of file.", Piece.text ": \n",
          Piece.text " \n2 \n3 a=\n4 \n   \x1b[0;32;32m\x1b[m\n"] ⟨5, 0⟩) ∧
    (⟨"\n\na=\n".toList, 0⟩ : NonStreamFile).get_lineno 5 = 4 ∧
    (StreamFile.init "\n\na=\n".toList).get_lineno 5 = 3 ∧
    (⟨5, 0⟩ : Pos).get_details_from_code ⟨"\n\na=\n".toList, 0⟩ =
      .ok " \n2 \n3 a=\n4 \n   \x1b[0;32;32m\x1b[m\n".toList ∧
    (⟨5, 0⟩ : Pos).get_details_from_stream (StreamFile.init "\n\na=\n".toList) =
      .ok "1 \n2 \n3 a=\n  \x1b[0;32;32m\x1b[m\n".toList := by
  refine ⟨by rfl, by rfl, by rfl, by rfl, by rfl, by rfl, by rfl, by rfl, by rfl, by rfl⟩

end czh.lexer

/-! ### The window of the streamed file -/

namespace czh.lexer
namespace StreamFile

theorem read_loop_take (n : Nat) : ∀ (f : StreamFile), f.eofbit = false →
    f.filepos + n ≤ f.file.length →
    read_loop n f =
      { f with buffer := f.buffer ++ (f.file.drop f.filepos).take n,
               filepos := f.filepos + n } := by
  induction n with
  | zero => intro f _ _; simp [read_loop]
  | succ n ih =>
    intro f he hl
    have hlt : f.filepos < f.file.length := by omega
    have hget : f.file.get? f.filepos = some (f.file.get ⟨f.filepos, hlt⟩) :=
      List.get?_eq_get hlt
    have hdrop : f.file.drop f.filepos =
        f.file.get ⟨f.filepos, hlt⟩ :: f.file.drop (f.filepos + 1) :=
      List.drop_eq_getElem_cons hlt
    simp only [read_loop, he, hget, Bool.false_eq_true, if_false]
    rw [ih _ rfl (by simp only; omega)]
    simp only [hdrop, List.take_succ_cons, List.append_assoc, List.singleton_append]
    congr 1
    omega

theorem evict_small (fuel : Nat) (f : StreamFile) (h : f.bufferpos < 10) :
    evict fuel f = some f := by
  cases fuel with
  | zero => rfl
  | succ n =>
    have : ¬ 10 ≤ f.bufferpos := by omega
    simp [evict, this]

theorem write_buffer_full (f : StreamFile) (he : f.eofbit = false) (hp : f.bufferpos < 10)
    (hl : f.filepos + 1024 ≤ f.file.length) (hff : Char.ofNat 255 ∉ f.file) :
    f.write_buffer =
      .ok { f with buffer := f.buffer ++ (f.file.drop f.filepos).take 1024,
                   filepos := f.filepos + 1024 } := by
  have hr := read_loop_take 1024 f he hl
  have hlen : ((f.file.drop f.filepos).take 1024).length = 1024 := by
    simp only [List.length_take, List.length_drop]
    omega
  have hne : (f.file.drop f.filepos).take 1024 ≠ [] := by
    intro h0
    rw [h0] at hlen
    simp at hlen
  have hlast : (f.buffer ++ (f.file.drop f.filepos).take 1024).getLast? =
      some (((f.file.drop f.filepos).take 1024).getLast hne) := by
    rw [List.getLast?_append_of_ne_nil _ hne, List.getLast?_eq_getLast _ hne]
  have hmem : ((f.file.drop f.filepos).take 1024).getLast hne ∈ f.file :=
    List.mem_of_mem_drop (List.mem_of_mem_take (List.getLast_mem hne))
  have hne255 : ((f.file.drop f.filepos).take 1024).getLast hne ≠ Char.ofNat 255 := by
    intro h
    exact hff (h ▸ hmem)
  unfold write_buffer
  rw [evict_small _ f hp]
  simp only [hr, hlast, if_neg hne255]

theorem view_back_step (content : List Char) (k : Nat) (hk : 1 ≤ k)
    (hlen : 1024 * (k + 1) ≤ content.length) (hsize : content.length < 2 ^ 64)
    (hff : Char.ofNat 255 ∉ content) :
    ∃ c, (⟨content, 1024 * k, false, content.take (1024 * k), 1⟩ : StreamFile).view (-1) =
      .ok (c, ⟨content, 1024 * (k + 1), false, content.take (1024 * (k + 1)), 1⟩) := by
  have e1 : Int.toNat ((-1 : Int) % 2 ^ 64) = 2 ^ 64 - 1 := by rfl
  have e2 : Int.toNat ((((1 : Nat) : Int) + (-1)) % 2 ^ 64) = 0 := by rfl
  have hw := write_buffer_full ⟨content, 1024 * k, false, content.take (1024 * k), 1⟩ rfl
    (by show (1 : Nat) < 10; omega) (by simp only; omega) hff
  have htake : content.take (1024 * k) ++ (content.drop (1024 * k)).take 1024 =
      content.take (1024 * (k + 1)) := by
    rw [Nat.mul_add, Nat.mul_one, List.take_add]
  simp only [htake] at hw
  have hpos : 0 < (content.take (1024 * (k + 1))).length := by
    simp only [List.length_take]
    omega
  refine ⟨(content.take (1024 * (k + 1))).get ⟨0, hpos⟩, ?_⟩
  unfold view
  have hcond : (content.take (1024 * k)).length ≤ Int.toNat ((-1 : Int) % 2 ^ 64) := by
    rw [e1]
    simp only [List.length_take]
    omega
  simp only [hcond, if_true, hw, e2, List.get?_eq_get hpos]
  have hmul : 1024 * k + 1024 = 1024 * (k + 1) := by omega
  rw [hmul]

theorem views_back_grow (content : List Char) (n : Nat) : ∀ (k : Nat), 1 ≤ k →
    1024 * (k + n) ≤ content.length → content.length < 2 ^ 64 →
    Char.ofNat 255 ∉ content →
    views_back n ⟨content, 1024 * k, false, content.take (1024 * k), 1⟩ =
      .ok ⟨content, 1024 * (k + n), false, content.take (1024 * (k + n)), 1⟩ := by
  induction n with
  | zero => intro k _ _ _ _; rfl
  | succ n ih =>
    intro k hk hlen hsize hff
    obtain ⟨c, hc⟩ := view_back_step content k hk (by omega) hsize hff
    simp only [views_back, hc]
    have := ih (k + 1) (by omega) (by rw [Nat.add_assoc, Nat.add_comm 1 n]; exact hlen) hsize hff
    rw [this]
    congr 3 <;> omega

theorem check_first (content : List Char) (hlen : 1024 ≤ content.length)
    (hff : Char.ofNat 255 ∉ content) :
    (StreamFile.init content).check 0 =
      .ok (true, ⟨content, 1024, false, content.take 1024, 0⟩) := by
  have hw := write_buffer_full (StreamFile.init content) rfl
    (by show (0 : Nat) < 10; omega) (by simp only [StreamFile.init]; omega) hff
  unfold check
  have hc : (StreamFile.init content).buffer.length ≤ (StreamFile.init content).bufferpos + 0 := by
    simp [StreamFile.init]
  simp only [hc, if_true, hw]
  simp only [StreamFile.init, List.nil_append, List.drop_zero, Nat.zero_add, List.length_take]
  have : 0 < min 1024 content.length := by omega
  simp [this]

end StreamFile

/-- Claim C23, which the code does not meet: for every file content of at least
`1024 * (n + 1)` bytes without the byte 255, the first `check_char()` reads 1024
bytes into the window, and after `next_char()` each of `n` calls `view_char(-1)`
reads 1024 bytes more (the test `buffer.size() <= s` of `StreamFile::view` holds
for every negative `s`, and `write_buffer` evicts nothing while fewer than ten
bytes are consumed).  The window then holds `1024 * (n + 1)` bytes, one of them
consumed: no constant bounds it.  The punctuation branch of `Lexer::get_tok`
calls `view_char(-1)` three times for one `;`, which is the case `n = 3`. -/
theorem stream_window_grows (content : List Char) (n : Nat)
    (hlen : 1024 * (n + 1) ≤ content.length) (hsize : content.length < 2 ^ 64)
    (hff : Char.ofNat 255 ∉ content) :
    (StreamFile.init content).check 0 =
      .ok (true, ⟨content, 1024, false, content.take 1024, 0⟩) ∧
    StreamFile.views_back n
        ((⟨content, 1024, false, content.take 1024, 0⟩ : StreamFile).ignore 1) =
      .ok ⟨content, 1024 * (n + 1), false, content.take (1024 * (n + 1)), 1⟩ ∧
    (content.take (1024 * (n + 1))).length = 1024 * (n + 1) := by
  refine ⟨StreamFile.check_first content (by omega) hff, ?_, ?_⟩
  · have h := StreamFile.views_back_grow content n 1 (le_refl 1)
      (by rw [Nat.add_comm 1 n]; exact hlen) hsize hff
    rw [Nat.add_comm 1 n] at h
    simpa [StreamFile.ignore] using h
  · simp only [List.length_take]
    omega

/-- Witness of `stream_window_grows`: a file of 4096 `;`, three calls of
`view_char(-1)`. -/
theorem stream_window_grows_witness :
    (StreamFile.init (List.replicate 4096 ';')).check 0 =
      .ok (true, ⟨List.replicate 4096 ';', 1024, false, (List.replicate 4096 ';').take 1024, 0⟩) ∧
    StreamFile.views_back 3
        ((⟨List.replicate 4096 ';', 1024, false, (List.replicate 4096 ';').take 1024, 0⟩ :
          StreamFile).ignore 1) =
      .ok ⟨List.replicate 4096 ';', 1024 * (3 + 1), false,
        (List.replicate 4096 ';').take (1024 * (3 + 1)), 1⟩ ∧
    ((List.replicate 4096 ';').take (1024 * (3 + 1))).length = 1024 * (3 + 1) :=
  stream_window_grows (List.replicate 4096 ';') 3
    (by rw [List.length_replicate]) (by rw [List.length_replicate]; decide)
    (fun h => absurd (List.eq_of_mem_replicate h) (by decide))

end czh.lexer

/-! ### The statement shapes that the grammar machine accepts -/

namespace czh.lexer
namespace Match

theorem drives_cons (m : Match) (t : TokenType) (ts : List TokenType) :
    m.drives (t :: ts) =
      match m.match_ t with
      | .ok m2 => if ts = [] then m2.end_ else (!m2.end_ && m2.good && m2.drives ts)
      | .error _ => false := by
  cases ts with
  | nil => rfl
  | cons t2 ts => rfl

/-- What `Match::match` does in a table state, on a token kind other than NOTE. -/
theorem match_table (s ls : State) (t : TokenType) (hs : s ∈ table_states)
    (ht : t ≠ TokenType.NOTE) :
    (⟨s, ls⟩ : Match).match_ t =
      .ok (match spec_edge s t with
        | some s2 => ⟨s2, ls⟩
        | none => ⟨State.UNEXPECTED, s⟩) := by
  cases s <;> cases t <;>
    first
    | rfl
    | exact absurd rfl ht
    | (exfalso; revert hs; simp [table_states])

theorem drives_step (s ls : State) (t : TokenType) (ts : List TokenType)
    (hs : s ∈ table_states) (ht : t ≠ TokenType.NOTE) :
    (⟨s, ls⟩ : Match).drives (t :: ts) =
      match spec_edge s t with
      | some s2 => if s2 = State.END then decide (ts = []) else (⟨s2, ls⟩ : Match).drives ts
      | none => false := by
  rw [drives_cons, match_table s ls t hs ht]
  cases h : spec_edge s t with
  | none =>
    simp only [Match.end_, Match.good]
    by_cases hts : ts = []
    · simp [hts]
    · simp [hts]
  | some s2 =>
    have hne : s2 ≠ State.UNEXPECTED := by
      intro e
      subst e
      revert h
      cases s <;> cases t <;> simp [spec_edge, TokenType.scalar]
    simp only [Match.end_, Match.good]
    by_cases hts : ts = []
    · subst hts
      by_cases he : s2 = State.END
      · simp [he]
      · simp [he, Match.drives]
    · by_cases he : s2 = State.END
      · simp [hts, he]
      · simp [hts, he, hne]

theorem drives_if (m : Match) (ts : List TokenType) :
    (if ts = [] then false else m.drives ts) = m.drives ts := by
  cases ts <;> rfl

theorem drives_path_colon (ls : State) (ts : List TokenType) (hn : TokenType.NOTE ∉ ts) :
    (⟨State.PATH_COLON, ls⟩ : Match).drives ts = true ↔ ts = [TokenType.ID] := by
  cases ts with
  | nil => simp [Match.drives]
  | cons t ts =>
    have ht : t ≠ TokenType.NOTE := fun e => hn (e ▸ List.mem_cons_self _ _)
    rw [drives_step _ _ _ _ (by simp [table_states]) ht]
    cases t <;> simp [spec_edge, TokenType.scalar]

theorem path_steps_cons (t : TokenType) (ts : List TokenType) :
    (∃ n, t :: ts = path_steps n ++ [TokenType.COLON, TokenType.ID]) ↔
      (t = TokenType.COLON ∧ ts = [TokenType.ID]) ∨
      (t = TokenType.BPATH ∧
        ∃ m, ts = TokenType.ID :: (path_steps m ++ [TokenType.COLON, TokenType.ID])) := by
  constructor
  · rintro ⟨n, hn⟩
    cases n with
    | zero =>
      simp only [path_steps, List.nil_append, List.cons.injEq] at hn
      exact Or.inl hn
    | succ m =>
      simp only [path_steps, List.cons_append, List.cons.injEq] at hn
      exact Or.inr ⟨hn.1, m, hn.2⟩
  · rintro (⟨rfl, rfl⟩ | ⟨rfl, m, rfl⟩)
    · exact ⟨0, rfl⟩
    · exact ⟨m + 1, rfl⟩

theorem drives_path (ts : List TokenType) : ∀ (ls : State), TokenType.NOTE ∉ ts →
    (((⟨State.PATH_ID, ls⟩ : Match).drives ts = true ↔
        ∃ n, ts = path_steps n ++ [TokenType.COLON, TokenType.ID]) ∧
      ((⟨State.BPATH, ls⟩ : Match).drives ts = true ↔
        ∃ n, ts = TokenType.ID :: (path_steps n ++ [TokenType.COLON, TokenType.ID]))) := by
  induction ts with
  | nil =>
    intro ls _
    refine ⟨?_, ?_⟩
    · simp only [Match.drives, Bool.false_eq_true, false_iff]
      rintro ⟨n, hn⟩
      cases n <;> simp [path_steps] at hn
    · simp [Match.drives]
  | cons t ts ih =>
    intro ls hn
    have ht : t ≠ TokenType.NOTE := fun e => hn (e ▸ List.mem_cons_self _ _)
    have hts : TokenType.NOTE ∉ ts := fun h => hn (List.mem_cons_of_mem _ h)
    obtain ⟨ih1, ih2⟩ := ih ls hts
    have hc := drives_path_colon ls ts hts
    refine ⟨?_, ?_⟩
    · rw [drives_step _ _ _ _ (by simp [table_states]) ht]
      simp only [path_steps_cons]
      cases t <;> simp [spec_edge, TokenType.scalar, ih2, hc]
    · rw [drives_step _ _ _ _ (by simp [table_states]) ht]
      cases t <;> simp [spec_edge, TokenType.scalar, ih1]

theorem arr_tail_cons (t : TokenType) (ts : List TokenType) :
    (∃ vs, (∀ x ∈ vs, TokenType.scalar x = true) ∧
        t :: ts = comma_items vs ++ [TokenType.ARR_RP]) ↔
      (t = TokenType.ARR_RP ∧ ts = []) ∨
      (t = TokenType.COMMA ∧ ∃ v vs, TokenType.scalar v = true ∧
        (∀ x ∈ vs, TokenType.scalar x = true) ∧
        ts = v :: (comma_items vs ++ [TokenType.ARR_RP])) := by
  constructor
  · rintro ⟨vs, hall, h⟩
    cases vs with
    | nil =>
      simp only [comma_items, List.nil_append, List.cons.injEq] at h
      exact Or.inl h
    | cons v vs =>
      simp only [comma_items, List.cons_append, List.cons.injEq] at h
      exact Or.inr ⟨h.1, v, vs, hall v (List.mem_cons_self _ _),
        fun x hx => hall x (List.mem_cons_of_mem _ hx), h.2⟩
  · rintro (⟨rfl, rfl⟩ | ⟨rfl, v, vs, hv, hall, rfl⟩)
    · exact ⟨[], by simp, rfl⟩
    · refine ⟨v :: vs, ?_, rfl⟩
      intro x hx
      rcases List.mem_cons.1 hx with rfl | hx
      · exact hv
      · exact hall x hx

theorem arr_item_cons (t : TokenType) (ts : List TokenType) :
    (∃ v vs, TokenType.scalar v = true ∧ (∀ x ∈ vs, TokenType.scalar x = true) ∧
        t :: ts = v :: (comma_items vs ++ [TokenType.ARR_RP])) ↔
      (TokenType.scalar t = true ∧ ∃ vs, (∀ x ∈ vs, TokenType.scalar x = true) ∧
        ts = comma_items vs ++ [TokenType.ARR_RP]) := by
  constructor
  · rintro ⟨v, vs, hv, hall, h⟩
    simp only [List.cons.injEq] at h
    exact ⟨h.1 ▸ hv, vs, hall, h.2⟩
  · rintro ⟨hv, vs, hall, rfl⟩
    exact ⟨t, vs, hv, hall, rfl⟩

theorem drives_arr (ts : List TokenType) : ∀ (ls : State), TokenType.NOTE ∉ ts →
    (((⟨State.ARR_VALUE, ls⟩ : Match).drives ts = true ↔
        ∃ vs, (∀ x ∈ vs, TokenType.scalar x = true) ∧
          ts = comma_items vs ++ [TokenType.ARR_RP]) ∧
      ((⟨State.COMMA, ls⟩ : Match).drives ts = true ↔
        ∃ v vs, TokenType.scalar v = true ∧ (∀ x ∈ vs, TokenType.scalar x = true) ∧
          ts = v :: (comma_items vs ++ [TokenType.ARR_RP]))) := by
  induction ts with
  | nil =>
    intro ls _
    refine ⟨?_, ?_⟩
    · simp only [Match.drives, Bool.false_eq_true, false_iff]
      rintro ⟨vs, _, h⟩
      cases vs <;> simp [comma_items] at h
    · simp [Match.drives]
  | cons t ts ih =>
    intro ls hn
    have ht : t ≠ TokenType.NOTE := fun e => hn (e ▸ List.mem_cons_self _ _)
    have hts : TokenType.NOTE ∉ ts := fun h => hn (List.mem_cons_of_mem _ h)
    obtain ⟨ih1, ih2⟩ := ih ls hts
    refine ⟨?_, ?_⟩
    · rw [drives_step _ _ _ _ (by simp [table_states]) ht, arr_tail_cons]
      cases t <;> simp [spec_edge, TokenType.scalar, ih2]
    · rw [drives_step _ _ _ _ (by simp [table_states]) ht, arr_item_cons]
      cases t <;> simp [spec_edge, TokenType.scalar, ih1]

theorem drives_arr_lp (ls : State) (ts : List TokenType) (hn : TokenType.NOTE ∉ ts) :
    (⟨State.ARR_LP, ls⟩ : Match).drives ts = true ↔
      ts = [TokenType.ARR_RP] ∨
      ∃ v vs, TokenType.scalar v = true ∧ (∀ x ∈ vs, TokenType.scalar x = true) ∧
        ts = v :: (comma_items vs ++ [TokenType.ARR_RP]) := by
  cases ts with
  | nil => simp [Match.drives]
  | cons t ts =>
    have ht : t ≠ TokenType.NOTE := fun e => hn (e ▸ List.mem_cons_self _ _)
    have hts : TokenType.NOTE ∉ ts := fun h => hn (List.mem_cons_of_mem _ h)
    have ih1 := (drives_arr ts ls hts).1
    rw [drives_step _ _ _ _ (by simp [table_states]) ht, arr_item_cons]
    cases t <;> simp [spec_edge, TokenType.scalar, ih1]

theorem equal_tail_cons (t : TokenType) (ts : List TokenType) :
    ((∃ v, TokenType.scalar v = true ∧ t :: ts = [v]) ∨
      t :: ts = [TokenType.ARR_LP, TokenType.ARR_RP] ∨
      (∃ v vs, TokenType.scalar v = true ∧ (∀ x ∈ vs, TokenType.scalar x = true) ∧
        t :: ts = TokenType.ARR_LP :: v :: (comma_items vs ++ [TokenType.ARR_RP])) ∨
      (∃ n, t :: ts = path_steps (n + 1) ++ [TokenType.COLON, TokenType.ID])) ↔
    ((TokenType.scalar t = true ∧ ts = []) ∨
      (t = TokenType.ARR_LP ∧ (ts = [TokenType.ARR_RP] ∨
        ∃ v vs, TokenType.scalar v = true ∧ (∀ x ∈ vs, TokenType.scalar x = true) ∧
          ts = v :: (comma_items vs ++ [TokenType.ARR_RP]))) ∨
      (t = TokenType.BPATH ∧
        ∃ n, ts = TokenType.ID :: (path_steps n ++ [TokenType.COLON, TokenType.ID]))) := by
  constructor
  · rintro (⟨v, hv, h⟩ | h | ⟨v, vs, hv, hall, h⟩ | ⟨n, h⟩)
    · simp only [List.cons.injEq] at h
      exact Or.inl ⟨h.1 ▸ hv, h.2⟩
    · simp only [List.cons.injEq] at h
      exact Or.inr (Or.inl ⟨h.1, Or.inl h.2⟩)
    · simp only [List.cons.injEq] at h
      exact Or.inr (Or.inl ⟨h.1, Or.inr ⟨v, vs, hv, hall, h.2⟩⟩)
    · simp only [path_steps, List.cons_append, List.cons.injEq] at h
      exact Or.inr (Or.inr ⟨h.1, n, h.2⟩)
  · rintro (⟨hv, rfl⟩ | ⟨rfl, rfl | ⟨v, vs, hv, hall, rfl⟩⟩ | ⟨rfl, n, rfl⟩)
    · exact Or.inl ⟨t, hv, rfl⟩
    · exact Or.inr (Or.inl rfl)
    · exact Or.inr (Or.inr (Or.inl ⟨v, vs, hv, hall, rfl⟩))
    · exact Or.inr (Or.inr (Or.inr ⟨n, rfl⟩))

theorem drives_equal (ls : State) (ts : List TokenType) (hn : TokenType.NOTE ∉ ts) :
    (⟨State.EQUAL, ls⟩ : Match).drives ts = true ↔
      (∃ v, TokenType.scalar v = true ∧ ts = [v]) ∨
      ts = [TokenType.ARR_LP, TokenType.ARR_RP] ∨
      (∃ v vs, TokenType.scalar v = true ∧ (∀ x ∈ vs, TokenType.scalar x = true) ∧
        ts = TokenType.ARR_LP :: v :: (comma_items vs ++ [TokenType.ARR_RP])) ∨
      (∃ n, ts = path_steps (n + 1) ++ [TokenType.COLON, TokenType.ID]) := by
  cases ts with
  | nil => simp [Match.drives, path_steps]
  | cons t ts =>
    have ht : t ≠ TokenType.NOTE := fun e => hn (e ▸ List.mem_cons_self _ _)
    have hts : TokenType.NOTE ∉ ts := fun h => hn (List.mem_cons_of_mem _ h)
    have h1 := drives_arr_lp ls ts hts
    have h2 := (drives_path ts ls hts).2
    rw [drives_step _ _ _ _ (by simp [table_states]) ht, equal_tail_cons]
    cases t <;> simp [spec_edge, TokenType.scalar, h1, h2]

theorem drives_init (ts : List TokenType) (hn : TokenType.NOTE ∉ ts) :
    Match.init.drives ts = true ↔ StatementShape ts := by
  unfold StatementShape
  cases ts with
  | nil => simp [Match.drives]
  | cons t ts =>
    have ht : t ≠ TokenType.NOTE := fun e => hn (e ▸ List.mem_cons_self _ _)
    have hts : TokenType.NOTE ∉ ts := fun h => hn (List.mem_cons_of_mem _ h)
    show (⟨State.INIT, State.UNEXPECTED⟩ : Match).drives (t :: ts) = true ↔ _
    rw [drives_step _ _ _ _ (by simp [table_states]) ht]
    cases t <;> simp [spec_edge, TokenType.scalar]
    -- the identifier case
    cases ts with
    | nil => simp [Match.drives]
    | cons t2 ts2 =>
      have ht2 : t2 ≠ TokenType.NOTE :=
        fun e => hts (e ▸ List.mem_cons_self _ _)
      have hts2 : TokenType.NOTE ∉ ts2 := fun h => hts (List.mem_cons_of_mem _ h)
      have he := drives_equal State.UNEXPECTED ts2 hts2
      rw [drives_step _ _ _ _ (by simp [table_states]) ht2]
      cases t2 <;> simp [spec_edge, TokenType.scalar, he]

end Match

theorem count_comma_items (vs : List TokenType) (h : ∀ x ∈ vs, TokenType.scalar x = true) :
    (comma_items vs).count TokenType.EQUAL = 0 := by
  induction vs with
  | nil => rfl
  | cons v vs ih =>
    have hv : v ≠ TokenType.EQUAL := by
      intro e
      have := h v (List.mem_cons_self _ _)
      rw [e] at this
      exact absurd this (by decide)
    have hv2 : (v == TokenType.EQUAL) = false := by simpa using hv
    simp only [comma_items, List.count_cons, ih (fun x hx => h x (List.mem_cons_of_mem _ hx)),
      hv2]
    rfl

theorem count_path_steps (n : Nat) : (path_steps n).count TokenType.EQUAL = 0 := by
  induction n with
  | zero => rfl
  | succ n ih =>
    simp only [path_steps, List.count_cons, ih]
    rfl

theorem shape_one_equal (ts : List TokenType) (h : StatementShape ts) :
    ts.count TokenType.EQUAL ≤ 1 := by
  rcases h with rfl | rfl | ⟨v, hv, rfl⟩ | rfl | ⟨v, vs, hv, hall, rfl⟩ | ⟨n, rfl⟩
  · decide
  · decide
  · cases v <;> first | decide | (exact absurd hv (by decide))
  · decide
  · have hc := count_comma_items vs hall
    have hv2 : (v == TokenType.EQUAL) = false := by
      cases v <;> first | rfl | (exact absurd hv (by decide))
    simp only [List.count_cons, List.count_append, hc, hv2, List.count_nil]
    decide
  · have hc := count_path_steps (n + 1)
    simp only [List.count_cons, List.count_append, hc, List.count_nil]
    decide

/-- Claim C24: a sequence of token kinds without NOTE drives `Match::match` from
`INIT` to `END`, reaching `END` at its last token and not before, and never
`UNEXPECTED`, if and only if it has one of the six statement shapes of the spec;
and such a sequence holds at most one `EQUAL` token. -/
theorem statement_shapes (ts : List TokenType) (hn : TokenType.NOTE ∉ ts) :
    (Match.init.drives ts = true ↔ StatementShape ts) ∧
    (Match.init.drives ts = true → ts.count TokenType.EQUAL ≤ 1) :=
  ⟨Match.drives_init ts hn,
   fun h => shape_one_equal ts ((Match.drives_init ts hn).1 h)⟩

/-- Witness of `statement_shapes`: the path statement `id = - id : id`. -/
theorem statement_shapes_witness :
    (Match.init.drives [TokenType.ID, TokenType.EQUAL, TokenType.BPATH, TokenType.ID,
        TokenType.COLON, TokenType.ID] = true ↔
      StatementShape [TokenType.ID, TokenType.EQUAL, TokenType.BPATH, TokenType.ID,
        TokenType.COLON, TokenType.ID]) ∧
    (Match.init.drives [TokenType.ID, TokenType.EQUAL, TokenType.BPATH, TokenType.ID,
        TokenType.COLON, TokenType.ID] = true →
      [TokenType.ID, TokenType.EQUAL, TokenType.BPATH, TokenType.ID,
        TokenType.COLON, TokenType.ID].count TokenType.EQUAL ≤ 1) :=
  statement_shapes [TokenType.ID, TokenType.EQUAL, TokenType.BPATH, TokenType.ID,
    TokenType.COLON, TokenType.ID] (by decide)

end czh.lexer

/-! ### Statements that follow one another without a terminator -/

namespace czh.lexer
namespace Lexer

theorem check_token_edge (l : Lexer) (tok : Token) (s ls s2 : State)
    (hm : l.mtch = ⟨s, ls⟩) (hs : s ∈ table_states)
    (he : spec_edge s tok.type = some s2) :
    l.check_token tok = .ok { l with mtch := ⟨s2, ls⟩ } := by
  obtain ⟨code, q, m, nm, cp, pp, ie⟩ := l
  obtain ⟨ty, what, pos⟩ := tok
  simp only at hm he
  subst hm
  cases s <;> cases ty <;>
    first
    | (exfalso; revert hs; simp [table_states]; done)
    | (exfalso; revert he; simp [spec_edge, TokenType.scalar]; done)
    | (have e := Option.some.inj he; subst e; rfl)

theorem check_tokens_append (a b : List Token) : ∀ (l : Lexer),
    l.check_tokens (a ++ b) =
      match l.check_tokens a with
      | .error e => .error e
      | .ok l1 => l1.check_tokens b := by
  induction a with
  | nil => intro l; rfl
  | cons t a ih =>
    intro l
    simp only [List.cons_append, check_tokens]
    cases h : l.check_token t with
    | error e => rfl
    | ok l1 => exact ih l1

theorem check_tokens_drives (ts : List Token) : ∀ (l : Lexer) (s ls : State),
    l.mtch = ⟨s, ls⟩ → s ∈ table_states → TokenType.NOTE ∉ ts.map Token.type →
    (⟨s, ls⟩ : Match).drives (ts.map Token.type) = true →
    l.check_tokens ts = .ok { l with mtch := ⟨State.END, ls⟩ } := by
  induction ts with
  | nil =>
    intro l s ls _ _ _ hd
    simp [Match.drives] at hd
  | cons t ts ih =>
    intro l s ls hm hs hn hd
    simp only [List.map_cons] at hn hd
    have ht : t.type ≠ TokenType.NOTE := fun e => hn (e ▸ List.mem_cons_self _ _)
    have hts : TokenType.NOTE ∉ ts.map Token.type := fun h => hn (List.mem_cons_of_mem _ h)
    rw [Match.drives_step s ls t.type _ hs ht] at hd
    cases he : spec_edge s t.type with
    | none => rw [he] at hd; simp at hd
    | some s2 =>
      rw [he] at hd
      simp only at hd
      have hc := check_token_edge l t s ls s2 hm hs he
      simp only [check_tokens, hc]
      by_cases h2 : s2 = State.END
      · rw [if_pos h2] at hd
        have : ts = [] := by simpa using hd
        subst this
        subst h2
        rfl
      · rw [if_neg h2] at hd
        have hs2 : s2 ∈ table_states := by
          revert he h2
          cases s <;> cases t.type <;> simp [spec_edge, TokenType.scalar, table_states] <;>
            (intro e; subst e; simp)
        exact ih _ s2 ls rfl hs2 hts hd

theorem check_token_from_end (l : Lexer) (tok : Token) (hm : l.mtch.state = State.END)
    (ht : tok.type = TokenType.ID ∨ tok.type = TokenType.SCEND) :
    l.check_token tok = ({ l with mtch := Match.init } : Lexer).check_token tok := by
  obtain ⟨code, q, ⟨st, lst⟩, nm, cp, pp, ie⟩ := l
  obtain ⟨ty, what, pos⟩ := tok
  simp only at hm ht
  subst hm
  rcases ht with rfl | rfl <;> rfl

theorem check_tokens_from_end (l : Lexer) (ts : List Token) (hm : l.mtch.state = State.END)
    (hn : TokenType.NOTE ∉ ts.map Token.type)
    (hd : Match.init.drives (ts.map Token.type) = true) :
    l.check_tokens ts = .ok { l with mtch := ⟨State.END, State.UNEXPECTED⟩ } := by
  have hrun := check_tokens_drives ts ({ l with mtch := Match.init } : Lexer) State.INIT
    State.UNEXPECTED rfl (by simp [table_states]) hn hd
  cases ts with
  | nil => simp [Match.drives] at hd
  | cons t ts =>
    have ht : t.type ≠ TokenType.NOTE := fun e => hn (by
      simp only [List.map_cons]; exact e ▸ List.mem_cons_self _ _)
    have hty : t.type = TokenType.ID ∨ t.type = TokenType.SCEND := by
      simp only [List.map_cons] at hd
      have hd2 : (⟨State.INIT, State.UNEXPECTED⟩ : Match).drives
          (t.type :: ts.map Token.type) = true := hd
      rw [Match.drives_step _ _ _ _ (by simp [table_states]) ht] at hd2
      revert hd2
      cases t.type <;> simp [spec_edge, TokenType.scalar]
    simp only [check_tokens] at hrun ⊢
    rw [check_token_from_end l t hm hty]
    exact hrun

theorem check_token_send (l : Lexer) (tok : Token) (hm : l.mtch.state = State.END)
    (ht : tok.type = TokenType.SEND) :
    l.check_token tok = .ok { l with mtch := Match.init } := by
  obtain ⟨code, q, ⟨st, lst⟩, nm, cp, pp, ie⟩ := l
  obtain ⟨ty, what, pos⟩ := tok
  simp only at hm ht
  subst hm
  subst ht
  rfl

end Lexer

/-- Claim C25: for all token sequences `s1` and `s2` without NOTE that each drive
the grammar machine from `INIT` to `END`, and a scanner with a fresh machine,
`Lexer::check_token` accepts `s1`, `s2`, `FEND` one token after the other, and it
accepts `s1`, `SEND`, `s2`, `FEND`; both runs leave the same scanner, its machine
in state `END` with last state `UNEXPECTED`. -/
theorem implicit_separation (l : Lexer) (s1 s2 : List Token) (send fend : Token)
    (hl : l.mtch = Match.init)
    (hsend : send.type = TokenType.SEND) (hfend : fend.type = TokenType.FEND)
    (hn1 : TokenType.NOTE ∉ s1.map Token.type) (hn2 : TokenType.NOTE ∉ s2.map Token.type)
    (hd1 : Match.init.drives (s1.map Token.type) = true)
    (hd2 : Match.init.drives (s2.map Token.type) = true) :
    l.check_tokens (s1 ++ (s2 ++ [fend])) =
      .ok { l with mtch := ⟨State.END, State.UNEXPECTED⟩ } ∧
    l.check_tokens (s1 ++ (send :: (s2 ++ [fend]))) =
      .ok { l with mtch := ⟨State.END, State.UNEXPECTED⟩ } := by
  have h1 := Lexer.check_tokens_drives s1 l State.INIT State.UNEXPECTED hl
    (by simp [table_states]) hn1 hd1
  have h2 := Lexer.check_tokens_from_end
    ({ l with mtch := ⟨State.END, State.UNEXPECTED⟩ } : Lexer) s2 rfl hn2 hd2
  have h3 := Lexer.check_token_fend
    ({ l with mtch := ⟨State.END, State.UNEXPECTED⟩ } : Lexer) fend hfend (Or.inl rfl)
  have h4 := Lexer.check_token_send
    ({ l with mtch := ⟨State.END, State.UNEXPECTED⟩ } : Lexer) send rfl hsend
  have h5 := Lexer.check_tokens_drives s2 ({ l with mtch := Match.init } : Lexer) State.INIT
    State.UNEXPECTED rfl (by simp [table_states]) hn2 hd2
  constructor
  · rw [Lexer.check_tokens_append, h1]
    simp only
    rw [Lexer.check_tokens_append, h2]
    simp only [Lexer.check_tokens, h3]
  · rw [Lexer.check_tokens_append, h1]
    simp only [Lexer.check_tokens, h4]
    rw [Lexer.check_tokens_append, h5]
    simp only [Lexer.check_tokens, h3]

/-- Witness of `implicit_separation`: `id :` followed by `id = int`. -/
theorem implicit_separation_witness :
    (Lexer.init []).check_tokens
        ([Token.of_type TokenType.ID, Token.of_type TokenType.COLON] ++
          ([Token.of_type TokenType.ID, Token.of_type TokenType.EQUAL,
            Token.of_type TokenType.INT] ++ [Token.of_type TokenType.FEND])) =
      .ok { Lexer.init [] with mtch := ⟨State.END, State.UNEXPECTED⟩ } ∧
    (Lexer.init []).check_tokens
        ([Token.of_type TokenType.ID, Token.of_type TokenType.COLON] ++
          (Token.of_type TokenType.SEND ::
            ([Token.of_type TokenType.ID, Token.of_type TokenType.EQUAL,
              Token.of_type TokenType.INT] ++ [Token.of_type TokenType.FEND]))) =
      .ok { Lexer.init [] with mtch := ⟨State.END, State.UNEXPECTED⟩ } :=
  implicit_separation (Lexer.init [])
    [Token.of_type TokenType.ID, Token.of_type TokenType.COLON]
    [Token.of_type TokenType.ID, Token.of_type TokenType.EQUAL, Token.of_type TokenType.INT]
    (Token.of_type TokenType.SEND) (Token.of_type TokenType.FEND)
    rfl rfl rfl (by decide) (by decide) (by decide) (by decide)

end czh.lexer

/-! ### Signs and decimal points of accepted number lexemes -/

namespace czh.lexer
namespace NumberMatch

theorem digit_not_mark (c : Char) (h : isdigit c = true) :
    c ≠ '.' ∧ c ≠ 'e' ∧ c ≠ 'E' ∧ c ≠ '+' ∧ c ≠ '-' := by
  have hn := (isdigit_iff c).1 h
  have e1 : ('.' : Char).toNat = 46 := rfl
  have e2 : ('e' : Char).toNat = 101 := rfl
  have e3 : ('E' : Char).toNat = 69 := rfl
  have e4 : ('+' : Char).toNat = 43 := rfl
  have e5 : ('-' : Char).toNat = 45 := rfl
  refine ⟨?_, ?_, ?_, ?_, ?_⟩ <;> (intro hs; have := toNat_of_eq _ _ hs; omega)

theorem get_token_kind (m : NumberMatch) (ch : Char) :
    ((m.get_token (some ch)).1 = Token.SIGN ↔ (ch = '+' ∨ ch = '-')) ∧
    ((m.get_token (some ch)).1 = Token.DOT ↔ ch = '.') ∧
    ((m.get_token (some ch)).1 = Token.EXP ↔ (ch = 'e' ∨ ch = 'E')) := by
  simp only [get_token]
  by_cases h1 : isdigit ch = true
  · obtain ⟨a1, a2, a3, a4, a5⟩ := digit_not_mark ch h1
    simp [h1, a1, a2, a3, a4, a5]
  · by_cases h2 : ch = '.'
    · subst h2
      simp [h1]
    · by_cases h3 : ch = 'e' ∨ ch = 'E'
      · rcases h3 with rfl | rfl <;> simp [h1]
      · by_cases h4 : ch = '+' ∨ ch = '-'
        · rcases h4 with rfl | rfl <;> simp [h1]
        · simp only [not_or] at h3 h4
          simp [h1, h2, h3.1, h3.2, h4.1, h4.2]

theorem next_state_flag (m : NumberMatch) (tk : Token) :
    (m.next tk).state = (NumberMatch.next ⟨m.state, false⟩ tk).state := by
  obtain ⟨st, d⟩ := m
  cases st <;> cases tk <;> rfl

theorem next_facts_closed (st : State) (tk : Token) :
    (NumberMatch.next ⟨st, false⟩ tk).state ≠ State.UNEXPECTED →
    (tk = Token.SIGN → st = State.INIT ∨ st = State.EXP) ∧
    ((NumberMatch.next ⟨st, false⟩ tk).state = State.EXP → tk = Token.EXP) ∧
    (NumberMatch.next ⟨st, false⟩ tk).state ≠ State.INIT ∧
    (tk = Token.DOT → (st = State.INIT ∨ st = State.SIGN ∨ st = State.INT) ∧
      ¬ ((NumberMatch.next ⟨st, false⟩ tk).state = State.INIT ∨
        (NumberMatch.next ⟨st, false⟩ tk).state = State.SIGN ∨
        (NumberMatch.next ⟨st, false⟩ tk).state = State.INT)) ∧
    (((NumberMatch.next ⟨st, false⟩ tk).state = State.INIT ∨
        (NumberMatch.next ⟨st, false⟩ tk).state = State.SIGN ∨
        (NumberMatch.next ⟨st, false⟩ tk).state = State.INT) →
      (st = State.INIT ∨ st = State.SIGN ∨ st = State.INT) ∧ tk ≠ Token.EXP) := by
  cases st <;> cases tk <;> decide

theorem next_facts (m : NumberMatch) (tk : Token) (h : (m.next tk).state ≠ State.UNEXPECTED) :
    (tk = Token.SIGN → m.state = State.INIT ∨ m.state = State.EXP) ∧
    ((m.next tk).state = State.EXP → tk = Token.EXP) ∧
    (m.next tk).state ≠ State.INIT ∧
    (tk = Token.DOT → (m.state = State.INIT ∨ m.state = State.SIGN ∨ m.state = State.INT) ∧
      ¬ ((m.next tk).state = State.INIT ∨ (m.next tk).state = State.SIGN ∨
        (m.next tk).state = State.INT)) ∧
    (((m.next tk).state = State.INIT ∨ (m.next tk).state = State.SIGN ∨
        (m.next tk).state = State.INT) →
      (m.state = State.INIT ∨ m.state = State.SIGN ∨ m.state = State.INT) ∧
        tk ≠ Token.EXP) := by
  rw [next_state_flag] at h ⊢
  exact next_facts_closed m.state tk h

theorem loop_shape (rest : List Char) : ∀ (m : NumberMatch), (m.match_loop rest).1 = true →
    (∀ pre c post, rest = pre ++ c :: post → (c = '+' ∨ c = '-') →
      (pre = [] ∧ (m.state = State.INIT ∨ m.state = State.EXP)) ∨
      ∃ pre2 e, pre = pre2 ++ [e] ∧ (e = 'e' ∨ e = 'E')) ∧
    (rest.count '.' ≤
      if m.state = State.INIT ∨ m.state = State.SIGN ∨ m.state = State.INT then 1 else 0) ∧
    (∀ pre post, rest = pre ++ '.' :: post →
      (m.state = State.INIT ∨ m.state = State.SIGN ∨ m.state = State.INT) ∧
        'e' ∉ pre ∧ 'E' ∉ pre) := by
  induction rest with
  | nil =>
    intro m _
    refine ⟨?_, by simp, ?_⟩
    · intro pre c post h
      simp at h
    · intro pre post h
      simp at h
  | cons ch rest ih =>
    intro m h
    rw [match_loop_cons] at h
    by_cases h1 : (m.get_token (some ch)).1 = Token.UNEXPECTED
    · rw [if_pos h1] at h; cases h
    · rw [if_neg h1] at h
      by_cases h2 : ((m.get_token (some ch)).2.next (m.get_token (some ch)).1).state =
          State.UNEXPECTED
      · rw [if_pos h2] at h; cases h
      · rw [if_neg h2] at h
        obtain ⟨f1, f2, f3, f4, f5⟩ := next_facts _ _ h2
        rw [get_token_state] at f1 f4 f5
        obtain ⟨k1, k2, k3⟩ := get_token_kind m ch
        obtain ⟨i1, i2, i3⟩ := ih _ h
        refine ⟨?_, ?_, ?_⟩
        · intro pre c post hsplit hc
          cases pre with
          | nil =>
            simp only [List.nil_append, List.cons.injEq] at hsplit
            have hch : ch = '+' ∨ ch = '-' := hsplit.1 ▸ hc
            exact Or.inl ⟨rfl, f1 (k1.2 hch)⟩
          | cons p pre2 =>
            simp only [List.cons_append, List.cons.injEq] at hsplit
            obtain ⟨rfl, hrest⟩ := hsplit
            rcases i1 pre2 c post hrest hc with ⟨rfl, hst⟩ | ⟨pre3, e, rfl, he⟩
            · rcases hst with hst | hst
              · exact absurd hst f3
              · exact Or.inr ⟨[], ch, rfl, k3.1 (f2 hst)⟩
            · exact Or.inr ⟨ch :: pre3, e, rfl, he⟩
        · by_cases hdot : ch = '.'
          · obtain ⟨g1, g2⟩ := f4 (k2.2 hdot)
            rw [if_neg g2] at i2
            rw [if_pos g1]
            subst hdot
            simp only [List.count_cons_self]
            omega
          · have hcount : (ch :: rest).count '.' = rest.count '.' :=
              List.count_cons_of_ne (fun e => hdot e.symm) rest
            rw [hcount]
            split_ifs at i2 with g
            · rw [if_pos (f5 g).1]; exact i2
            · split_ifs <;> omega
        · intro pre post hsplit
          cases pre with
          | nil =>
            simp only [List.nil_append, List.cons.injEq] at hsplit
            exact ⟨(f4 (k2.2 hsplit.1)).1, by simp, by simp⟩
          | cons p pre2 =>
            simp only [List.cons_append, List.cons.injEq] at hsplit
            obtain ⟨rfl, hrest⟩ := hsplit
            obtain ⟨j1, j2, j3⟩ := i3 pre2 post hrest
            obtain ⟨g1, g2⟩ := f5 j1
            have hne : ¬ (ch = 'e' ∨ ch = 'E') := fun hx => g2 (k3.2 hx)
            simp only [not_or] at hne
            refine ⟨g1, ?_, ?_⟩
            · intro hm
              rcases List.mem_cons.1 hm with hm | hm
              · exact hne.1 hm.symm
              · exact j2 hm
            · intro hm
              rcases List.mem_cons.1 hm with hm | hm
              · exact hne.2 hm.symm
              · exact j3 hm

end NumberMatch

/-- Claim C26: in every lexeme that `NumberMatch::match` accepts, a sign `+` or
`-` is the first character or comes right after an exponent marker `e` or `E`,
there is at most one decimal point, and no exponent marker stands before a
decimal point; `--5` and `1.2.3` are rejected. -/
theorem accepted_number_shape (s : List Char) (h : (NumberMatch.init.match_ s).1 = true) :
    (∀ pre c post, s = pre ++ c :: post → (c = '+' ∨ c = '-') →
      pre = [] ∨ ∃ pre2 e, pre = pre2 ++ [e] ∧ (e = 'e' ∨ e = 'E')) ∧
    s.count '.' ≤ 1 ∧
    (∀ pre post, s = pre ++ '.' :: post → 'e' ∉ pre ∧ 'E' ∉ pre) ∧
    (NumberMatch.init.match_ "--5".toList).1 = false ∧
    (NumberMatch.init.match_ "1.2.3".toList).1 = false := by
  have hl := ((NumberMatch.match_true_iff _ _).1 h).1
  obtain ⟨a1, a2, a3⟩ := NumberMatch.loop_shape s NumberMatch.init hl
  refine ⟨?_, ?_, ?_, by decide, by decide⟩
  · intro pre c post hs hc
    rcases a1 pre c post hs hc with ⟨hp, _⟩ | hr
    · exact Or.inl hp
    · exact Or.inr hr
  · have : (if NumberMatch.init.state = NumberMatch.State.INIT ∨
        NumberMatch.init.state = NumberMatch.State.SIGN ∨
        NumberMatch.init.state = NumberMatch.State.INT then 1 else 0) = 1 := rfl
    rw [this] at a2
    exact a2
  · intro pre post hs
    exact (a3 pre post hs).2

/-- Witness of `accepted_number_shape`: the lexeme `-1.5e+3`. -/
theorem accepted_number_shape_witness :
    (∀ pre c post, "-1.5e+3".toList = pre ++ c :: post → (c = '+' ∨ c = '-') →
      pre = [] ∨ ∃ pre2 e, pre = pre2 ++ [e] ∧ (e = 'e' ∨ e = 'E')) ∧
    "-1.5e+3".toList.count '.' ≤ 1 ∧
    (∀ pre post, "-1.5e+3".toList = pre ++ '.' :: post → 'e' ∉ pre ∧ 'E' ∉ pre) ∧
    (NumberMatch.init.match_ "--5".toList).1 = false ∧
    (NumberMatch.init.match_ "1.2.3".toList).1 = false :=
  accepted_number_shape "-1.5e+3".toList (by decide)

end czh.lexer

/-! ### The path flag follows the grammar machine -/

namespace czh.lexer
namespace Lexer

theorem keep_skip_space (fuel : Nat) (l : Lexer) :
    (skip_space fuel l).mtch = l.mtch ∧ (skip_space fuel l).parsing_path = l.parsing_path := by
  induction fuel generalizing l with
  | zero => exact ⟨rfl, rfl⟩
  | succ n ih =>
    simp only [skip_space]
    split
    · exact ih (l.next_char 1)
    · exact ⟨rfl, rfl⟩

theorem keep_number_loop (fuel : Nat) (l : Lexer) (temp : List Char) :
    (number_loop fuel l temp).1.mtch = l.mtch ∧
      (number_loop fuel l temp).1.parsing_path = l.parsing_path := by
  induction fuel generalizing l temp with
  | zero => exact ⟨rfl, rfl⟩
  | succ n ih =>
    simp only [number_loop]
    split
    · exact ih (l.next_char 1) _
    · exact ⟨rfl, rfl⟩

theorem keep_string_loop (fuel : Nat) (l : Lexer) (temp : List Char) :
    (string_loop fuel l temp).1.mtch = l.mtch ∧
      (string_loop fuel l temp).1.parsing_path = l.parsing_path := by
  induction fuel generalizing l temp with
  | zero => exact ⟨rfl, rfl⟩
  | succ n ih =>
    simp only [string_loop]
    split
    · exact ih (l.next_char 1) _
    · exact ⟨rfl, rfl⟩

theorem keep_id_loop (fuel : Nat) (l : Lexer) (temp : List Char) :
    (id_loop fuel l temp).1.mtch = l.mtch ∧
      (id_loop fuel l temp).1.parsing_path = l.parsing_path := by
  induction fuel generalizing l temp with
  | zero => exact ⟨rfl, rfl⟩
  | succ n ih =>
    simp only [id_loop]
    split
    · exact ih (l.next_char 1) _
    · exact ⟨rfl, rfl⟩

theorem keep_note_loop (fuel : Nat) (l : Lexer) (temp : List Char) (r : Lexer × List Char)
    (h : note_loop fuel l temp = some r) :
    r.1.mtch = l.mtch ∧ r.1.parsing_path = l.parsing_path := by
  induction fuel generalizing l temp with
  | zero => simp [note_loop] at h
  | succ n ih =>
    simp only [note_loop] at h
    split at h
    · cases h; exact ⟨rfl, rfl⟩
    · split at h
      · exact ih (l.next_char 1) _ h
      · cases h

theorem flag_number_branch (fuel : Nat) (l : Lexer) (t : Token) (l1 : Lexer)
    (h : number_branch fuel l = .ok (t, l1)) :
    l1.mtch = l.mtch ∧ l1.parsing_path = l.parsing_path ∧
      t.type ≠ TokenType.BPATH ∧ t.type ≠ TokenType.COLON := by
  obtain ⟨k1, k2⟩ := keep_number_loop fuel l []
  unfold number_branch at h
  simp only at h
  split at h
  · split at h
    · cases h; exact ⟨k1, k2, fun e => TokenType.noConfusion e, fun e => TokenType.noConfusion e⟩
    · split at h
      · cases h; exact ⟨k1, k2, fun e => TokenType.noConfusion e, fun e => TokenType.noConfusion e⟩
      · cases h; exact ⟨k1, k2, fun e => TokenType.noConfusion e, fun e => TokenType.noConfusion e⟩
  · cases h

theorem flag_string_branch (fuel : Nat) (l : Lexer) (t : Token) (l1 : Lexer)
    (h : string_branch fuel l = .ok (t, l1)) :
    l1.mtch = l.mtch ∧ l1.parsing_path = l.parsing_path ∧
      t.type ≠ TokenType.BPATH ∧ t.type ≠ TokenType.COLON := by
  obtain ⟨k1, k2⟩ := keep_string_loop fuel (l.next_char 1) []
  unfold string_branch at h
  cases h
  exact ⟨k1, k2, fun e => TokenType.noConfusion e, fun e => TokenType.noConfusion e⟩

theorem keep_id_start (l : Lexer) :
    (id_start l).1.mtch = l.mtch ∧ (id_start l).1.parsing_path = l.parsing_path := by
  unfold id_start
  split
  · dsimp only
    split <;> exact ⟨rfl, rfl⟩
  · exact ⟨rfl, rfl⟩

theorem flag_id_branch (fuel : Nat) (l : Lexer) (t : Token) (l1 : Lexer)
    (h : id_branch fuel l = .ok (t, l1)) :
    l1.mtch = l.mtch ∧ l1.parsing_path = l.parsing_path ∧
      t.type ≠ TokenType.BPATH ∧ t.type ≠ TokenType.COLON := by
  obtain ⟨k1, k2⟩ := keep_id_loop fuel (id_start l).1 (id_start l).2
  obtain ⟨s1, s2⟩ := keep_id_start l
  unfold id_branch at h
  simp only at h
  split at h
  · cases h; exact ⟨k1.trans s1, k2.trans s2, fun e => TokenType.noConfusion e, fun e => TokenType.noConfusion e⟩
  · split at h
    · cases h; exact ⟨k1.trans s1, k2.trans s2, fun e => TokenType.noConfusion e, fun e => TokenType.noConfusion e⟩
    · split at h
      · cases h; exact ⟨k1.trans s1, k2.trans s2, fun e => TokenType.noConfusion e, fun e => TokenType.noConfusion e⟩
      · cases h; exact ⟨k1.trans s1, k2.trans s2, fun e => TokenType.noConfusion e, fun e => TokenType.noConfusion e⟩

theorem flag_note_branch (fuel : Nat) (l : Lexer) (t : Token) (l1 : Lexer)
    (h : note_branch fuel l = .ok (t, l1)) :
    l1.mtch = l.mtch ∧ l1.parsing_path = l.parsing_path ∧
      t.type ≠ TokenType.BPATH ∧ t.type ≠ TokenType.COLON := by
  unfold note_branch at h
  cases hn : note_loop fuel (l.next_char 3) [] with
  | none => rw [hn] at h; cases h
  | some r =>
    rw [hn] at h
    obtain ⟨k1, k2⟩ := keep_note_loop fuel (l.next_char 3) [] r hn
    cases h
    exact ⟨k1, k2, fun e => TokenType.noConfusion e, fun e => TokenType.noConfusion e⟩

theorem flag_mark_branch (l : Lexer) (t : Token) (l1 : Lexer)
    (h : mark_branch l = .ok (t, l1)) :
    l1.mtch = l.mtch ∧
      ((t.type = TokenType.BPATH ∧ l1.parsing_path = true) ∨
       (t.type = TokenType.COLON ∧ l1.parsing_path = false) ∨
       (t.type ≠ TokenType.BPATH ∧ t.type ≠ TokenType.COLON ∧
         l1.parsing_path = l.parsing_path)) := by
  unfold mark_branch at h
  simp only at h
  cases hm : marks ((l.next_char 1).view_char (-1)) with
  | none => rw [hm] at h; cases h
  | some ty =>
    rw [hm] at h
    simp only at h
    cases h
    refine ⟨rfl, ?_⟩
    have hp : (l.next_char 1).parsing_path = l.parsing_path := rfl
    simp only [hp]
    cases ty <;> cases l.parsing_path <;> simp

theorem flag_get_tok (l : Lexer) (t : Token) (l1 : Lexer) (h : l.get_tok = .ok (t, l1)) :
    l1.mtch = l.mtch ∧
      ((t.type = TokenType.BPATH ∧ l1.parsing_path = true) ∨
       (t.type = TokenType.COLON ∧ l1.parsing_path = false) ∨
       (t.type ≠ TokenType.BPATH ∧ t.type ≠ TokenType.COLON ∧
         l1.parsing_path = l.parsing_path)) := by
  obtain ⟨k1, k2⟩ := keep_skip_space (l.code.size + 1) l
  unfold get_tok dispatch at h
  split_ifs at h
  · obtain ⟨a, b, c, d⟩ := flag_number_branch _ _ _ _ h
    exact ⟨a.trans k1, Or.inr (Or.inr ⟨c, d, b.trans k2⟩)⟩
  · obtain ⟨a, b, c, d⟩ := flag_string_branch _ _ _ _ h
    exact ⟨a.trans k1, Or.inr (Or.inr ⟨c, d, b.trans k2⟩)⟩
  · obtain ⟨a, b, c, d⟩ := flag_id_branch _ _ _ _ h
    exact ⟨a.trans k1, Or.inr (Or.inr ⟨c, d, b.trans k2⟩)⟩
  · obtain ⟨a, b⟩ := flag_mark_branch _ _ _ h
    refine ⟨a.trans k1, ?_⟩
    rcases b with b | b | ⟨b1, b2, b3⟩
    · exact Or.inl b
    · exact Or.inr (Or.inl b)
    · exact Or.inr (Or.inr ⟨b1, b2, b3.trans k2⟩)
  · obtain ⟨a, b, c, d⟩ := flag_note_branch _ _ _ _ h
    exact ⟨a.trans k1, Or.inr (Or.inr ⟨c, d, b.trans k2⟩)⟩
  · cases h
    exact ⟨k1, Or.inr (Or.inr ⟨fun e => TokenType.noConfusion e, fun e => TokenType.noConfusion e, k2⟩)⟩

theorem flag_check_token (l : Lexer) (tok : Token) (l2 : Lexer)
    (h : l.check_token tok = .ok l2)
    (hst : l.mtch.state ∈ table_states ∨ l.mtch.state = State.END) :
    l2.parsing_path = l.parsing_path ∧
    (l2.mtch.state ∈ table_states ∨ l2.mtch.state = State.END) ∧
    (tok.type = TokenType.BPATH → l2.mtch.state = State.BPATH) ∧
    (tok.type = TokenType.COLON →
      l2.mtch.state ≠ State.BPATH ∧ l2.mtch.state ≠ State.PATH_ID) ∧
    (tok.type ≠ TokenType.BPATH → tok.type ≠ TokenType.COLON →
      ((l2.mtch.state = State.BPATH ∨ l2.mtch.state = State.PATH_ID) ↔
        (l.mtch.state = State.BPATH ∨ l.mtch.state = State.PATH_ID))) := by
  obtain ⟨code, q, ⟨st, lst⟩, nm, cp, pp, ie⟩ := l
  obtain ⟨ty, what, pos⟩ := tok
  cases st <;>
    first
    | (exfalso; revert hst; simp [table_states]; done)
    | (cases ty <;>
        first
        | (have h2 : Except.error _ = Except.ok l2 := h; cases h2)
        | (have h2 : Except.ok _ = Except.ok l2 := h
           cases h2
           simp [table_states, Match.reset]))

theorem scan_keeps_flag (l : Lexer) (t : Token) (l2 : Lexer) (h : l.scan = .ok (t, l2))
    (hinv : l.parsing_path = true ↔
      (l.mtch.state = State.BPATH ∨ l.mtch.state = State.PATH_ID))
    (hst : l.mtch.state ∈ table_states ∨ l.mtch.state = State.END) :
    (l2.parsing_path = true ↔
      (l2.mtch.state = State.BPATH ∨ l2.mtch.state = State.PATH_ID)) ∧
    (l2.mtch.state ∈ table_states ∨ l2.mtch.state = State.END) := by
  unfold scan at h
  cases hg : l.get_tok with
  | error e => rw [hg] at h; cases h
  | ok r =>
    obtain ⟨t1, l1⟩ := r
    rw [hg] at h
    simp only at h
    cases hc : l1.check_token t1 with
    | error e => rw [hc] at h; cases h
    | ok l3 =>
      rw [hc] at h
      simp only at h
      have hinj := Prod.mk.inj (Except.ok.inj h)
      obtain ⟨rfl, rfl⟩ := hinj
      obtain ⟨g1, g2⟩ := flag_get_tok l t1 l1 hg
      obtain ⟨c1, c2, c3, c4, c5⟩ := flag_check_token l1 t1 l3 hc (by rw [g1]; exact hst)
      refine ⟨?_, c2⟩
      rcases g2 with ⟨gt, gp⟩ | ⟨gt, gp⟩ | ⟨gt1, gt2, gp⟩
      · rw [c1, gp]
        exact ⟨fun _ => Or.inl (c3 gt), fun _ => rfl⟩
      · rw [c1, gp]
        constructor
        · intro hx; cases hx
        · rintro (hx | hx)
          · exact absurd hx (c4 gt).1
          · exact absurd hx (c4 gt).2
      · rw [c1, gp, c5 gt1 gt2, g1]
        exact hinv

theorem scan_n_keeps_flag (n : Nat) : ∀ (l : Lexer) (ts : List Token) (l2 : Lexer),
    l.scan_n n = .ok (ts, l2) →
    (l.parsing_path = true ↔ (l.mtch.state = State.BPATH ∨ l.mtch.state = State.PATH_ID)) →
    (l.mtch.state ∈ table_states ∨ l.mtch.state = State.END) →
    (l2.parsing_path = true ↔
      (l2.mtch.state = State.BPATH ∨ l2.mtch.state = State.PATH_ID)) ∧
    (l2.mtch.state ∈ table_states ∨ l2.mtch.state = State.END) := by
  induction n with
  | zero =>
    intro l ts l2 h hinv hst
    simp only [scan_n] at h
    have := (Prod.mk.inj (Except.ok.inj h)).2
    subst this
    exact ⟨hinv, hst⟩
  | succ n ih =>
    intro l ts l2 h hinv hst
    simp only [scan_n] at h
    cases hs : l.scan with
    | error e => rw [hs] at h; cases h
    | ok r =>
      obtain ⟨t, l1⟩ := r
      rw [hs] at h
      simp only at h
      cases hn : l1.scan_n n with
      | error e => rw [hn] at h; cases h
      | ok r2 =>
        obtain ⟨ts2, l3⟩ := r2
        rw [hn] at h
        simp only at h
        have := (Prod.mk.inj (Except.ok.inj h)).2
        subst this
        obtain ⟨a, b⟩ := scan_keeps_flag l t l1 hs hinv hst
        exact ih l1 ts2 l3 hn a b

end Lexer

/-- Claim C27: for every input and every `n`, when the first `n` tokens are
scanned and pass the grammar check without error, the scanner's `parsing_path`
flag is then true if and only if the grammar machine is in state `BPATH` or
`PATH_ID`; so the flag is false whenever the machine is in `INIT` or `END`. -/
theorem path_mode_invariant (code : List Char) (n : Nat) (ts : List Token) (l : Lexer)
    (h : (Lexer.init code).scan_n n = .ok (ts, l)) :
    (l.parsing_path = true ↔
      (l.mtch.state = State.BPATH ∨ l.mtch.state = State.PATH_ID)) ∧
    ((l.mtch.state = State.INIT ∨ l.mtch.state = State.END) → l.parsing_path = false) := by
  have hinv := (Lexer.scan_n_keeps_flag n (Lexer.init code) ts l h
    (by simp [Lexer.init, Match.init]) (Or.inl (by simp [Lexer.init, Match.init, table_states]))).1
  refine ⟨hinv, ?_⟩
  intro hs
  cases hp : l.parsing_path with
  | false => rfl
  | true =>
    rcases hinv.1 hp with hx | hx <;> rcases hs with hy | hy <;> rw [hx] at hy <;> cases hy

/-- Witness of `path_mode_invariant`: after the four tokens `a`, `=`, `-`, `b` of
the input `a=-b:c` the machine is in `PATH_ID` and the flag is true. -/
theorem path_mode_invariant_witness :
    ((⟨⟨"a=-b:c".toList, 4⟩, [], ⟨State.PATH_ID, State.UNEXPECTED⟩, NumberMatch.init,
          ⟨4, 0⟩, true, false⟩ : Lexer).parsing_path = true ↔
      ((⟨⟨"a=-b:c".toList, 4⟩, [], ⟨State.PATH_ID, State.UNEXPECTED⟩, NumberMatch.init,
          ⟨4, 0⟩, true, false⟩ : Lexer).mtch.state = State.BPATH ∨
        (⟨⟨"a=-b:c".toList, 4⟩, [], ⟨State.PATH_ID, State.UNEXPECTED⟩, NumberMatch.init,
          ⟨4, 0⟩, true, false⟩ : Lexer).mtch.state = State.PATH_ID)) ∧
    (((⟨⟨"a=-b:c".toList, 4⟩, [], ⟨State.PATH_ID, State.UNEXPECTED⟩, NumberMatch.init,
          ⟨4, 0⟩, true, false⟩ : Lexer).mtch.state = State.INIT ∨
        (⟨⟨"a=-b:c".toList, 4⟩, [], ⟨State.PATH_ID, State.UNEXPECTED⟩, NumberMatch.init,
          ⟨4, 0⟩, true, false⟩ : Lexer).mtch.state = State.END) →
      (⟨⟨"a=-b:c".toList, 4⟩, [], ⟨State.PATH_ID, State.UNEXPECTED⟩, NumberMatch.init,
          ⟨4, 0⟩, true, false⟩ : Lexer).parsing_path = false) :=
  path_mode_invariant "a=-b:c".toList 4
    ([⟨TokenType.ID, Value.str "a".toList, ⟨1, 1⟩⟩, ⟨TokenType.EQUAL, Value.char '=', ⟨2, 1⟩⟩,
      ⟨TokenType.BPATH, Value.char '-', ⟨3, 1⟩⟩, ⟨TokenType.ID, Value.str "b".toList, ⟨4, 1⟩⟩] :
      List Token)
    (⟨⟨"a=-b:c".toList, 4⟩, [], ⟨State.PATH_ID, State.UNEXPECTED⟩, NumberMatch.init,
          ⟨4, 0⟩, true, false⟩ : Lexer)
    (by rfl)

end czh.lexer
